import Mathlib

/-!
# Secure messaging engine (`src/smsg/smessage.cpp`)

A shallow embedding of the proof-of-work engine, the bucket store, the bucket
sweep, the message receive path and the crypto envelope of `smessage.cpp`,
followed by the properties proved about them.

Conventions of the embedding:

* a byte buffer is a `List Nat` (every element a byte value); a pointer plus a
  length (`pPayload`, `nPayload`) is the list of the bytes it designates;
* `int64_t` values are `Int`, `uint32_t` values are `Nat` reduced modulo `2^32`
  where the code can wrap;
* the declarations of `smessage.h` (the packed `SecureMessage` header, the
  token and bucket classes, the constants) are not among the sources: field
  offsets are a parameter (`Layout`), constants take the values the
  specification gives, library primitives (HMAC-SHA256, XXH32, ...) are
  parameters.
-/

namespace Smsg

/-! ## Constants -/

/-- Modelled from the spec: `SMSG_HDR_LEN` of `smessage.h`, which is not among the
sources; the length of the fixed message header (`HdrLen=104`). -/
def SMSG_HDR_LEN : Nat := 104

/-- Modelled from the spec: `SMSG_BUCKET_LEN` of `smessage.h`; the length of a bucket in
seconds (`BucketLen=3600`). -/
def SMSG_BUCKET_LEN : Int := 3600

/-- Modelled from the spec: `SMSG_RETENTION` of `smessage.h`; the retention period in
seconds (`Retention=172800`). -/
def SMSG_RETENTION : Int := 172800

/-- Modelled from the spec: `SMSG_TIME_LEEWAY` of `smessage.h`; the allowed clock
difference in seconds (`TimeLeeway=60`). -/
def SMSG_TIME_LEEWAY : Int := 60

/-- Modelled from the spec: `SMSG_TIME_IGNORE` of `smessage.h`; the time a lazy peer is
ignored for, in seconds (`TimeIgnore=900`). -/
def SMSG_TIME_IGNORE : Int := 900

/-- Modelled from the spec: `SMSG_PL_HDR_LEN` of `smessage.h`; the length of the header
of the plaintext payload of a signed message (`PlHdrLen=1+20+65+4`). -/
def SMSG_PL_HDR_LEN : Nat := 1 + 20 + 65 + 4

/-- Modelled from the spec: `SMSG_MAX_MSG_BYTES` of `smessage.h`; the largest plaintext
of a signed message (`MaxMsgBytes=4096`). -/
def SMSG_MAX_MSG_BYTES : Nat := 4096

/-- Modelled from the spec: `SMSG_MAX_AMSG_BYTES` of `smessage.h`; the largest plaintext
of an anonymous message (`MaxAnonBytes=24000`). -/
def SMSG_MAX_AMSG_BYTES : Nat := 24000

/-! ## Byte buffers -/

/-- The `len` bytes of `bs` starting at offset `off` (a `memcpy` out of a buffer). -/
def rd (bs : List Nat) (off len : Nat) : List Nat := (bs.drop off).take len

/-- The buffer `bs` with the bytes `v` copied in at offset `off` (a `memcpy` into a buffer). -/
def wr (bs : List Nat) (off : Nat) (v : List Nat) : List Nat :=
  bs.take off ++ v ++ bs.drop (off + v.length)

/-- The `len` little-endian bytes of the unsigned value `n`. -/
def leBytes (n : Nat) : Nat → List Nat
  | 0 => []
  | len + 1 => n % 256 :: leBytes (n / 256) len

/-- The unsigned value of little-endian bytes. -/
def leNat : List Nat → Nat
  | [] => 0
  | b :: bs => b + 256 * leNat bs

/-- Reading an `int64_t` from 8 little-endian bytes (two's complement). -/
def leI64 (bs : List Nat) : Int :=
  if leNat bs < 2 ^ 63 then (leNat bs : Int) else (leNat bs : Int) - 2 ^ 64

/-- The 8 little-endian bytes of an `int64_t`. -/
def i64Bytes (i : Int) : List Nat := leBytes (i % 2 ^ 64).toNat 8

/-- Offsets of the fields of the packed `SecureMessage` header.  The field `hash[4]` is
the first one (the code takes `&smsg.hash[0]` as the start of the header and leaves the
first 4 bytes out of the digest); the offsets of the other fields are fixed by the
declaration in `smessage.h`, which is not among the sources, and are a parameter. -/
structure Layout where
  version : Nat
  timestamp : Nat
  iv : Nat
  cpkR : Nat
  mac : Nat
  nonce : Nat
  nPayload : Nat
  deriving DecidableEq, Repr

/-- The fields lie behind `hash[4]` and inside the header and follow each other in the
order the specification lists them, without overlap: `version[2]`, `timestamp` (8),
`iv[16]`, `cpkR[33]`, `mac[32]`, `nonce[4]`, `nPayload` (4). -/
def Layout.WF (L : Layout) : Prop :=
  4 ≤ L.version ∧ L.version + 2 ≤ L.timestamp ∧ L.timestamp + 8 ≤ L.iv ∧
  L.iv + 16 ≤ L.cpkR ∧ L.cpkR + 33 ≤ L.mac ∧ L.mac + 32 ≤ L.nonce ∧
  L.nonce + 4 ≤ L.nPayload ∧ L.nPayload + 4 ≤ SMSG_HDR_LEN

instance (L : Layout) : Decidable L.WF := by
  unfold Layout.WF; infer_instance

/-- The layout of the packed header: `hash[4]`, `version[2]`, `flags`, `timestamp`,
`iv[16]`, `cpkR[33]`, `mac[32]`, `nonce[4]`, `nPayload`. -/
def packedLayout : Layout :=
  { version := 4, timestamp := 7, iv := 15, cpkR := 31, mac := 64, nonce := 96,
    nPayload := 100 }

/-! ## Proof of work (`SecureMsgValidate`, `SecureMsgSetHash`) -/

/-- The target test of `SecureMsgValidate` and `SecureMsgSetHash`:
`sha256Hash[31] == 0 && sha256Hash[30] == 0 && (~(sha256Hash[29]) & ((1<<0) | (1<<1) | (1<<2)))`.
The byte is promoted to `int` before `~`; the last conjunct holds when the masked value
is not zero. -/
def powTarget (sha256Hash : List Nat) : Bool :=
  sha256Hash.getD 31 0 == 0
    && sha256Hash.getD 30 0 == 0
    && ((4294967295 - sha256Hash.getD 29 0) &&& (1 ||| 2 ||| 4)) != 0

/-- The target as the specification words it: the last two bytes are zero and bits 0..2
of byte 29 are all zero (`~d[29] & 0b111 == 0b111`). -/
def specTarget (d : List Nat) : Bool :=
  d.getD 31 0 == 0 && d.getD 30 0 == 0 && ((4294967295 - d.getD 29 0) &&& 7) == 7

/-- The 32-byte HMAC key: the 4 nonce bytes copied at offsets 0, 4, ..., 28. -/
def civOf (nonce : List Nat) : List Nat :=
  nonce ++ nonce ++ nonce ++ nonce ++ nonce ++ nonce ++ nonce ++ nonce

/-- The digest both functions compute: HMAC-SHA256 keyed by `civ` over the header
without its first 4 bytes, followed by the payload. -/
def powDigest (hmac : List Nat → List Nat → List Nat) (civ pHeader pPayload : List Nat) :
    List Nat :=
  hmac civ (rd pHeader 4 (SMSG_HDR_LEN - 4) ++ pPayload)

/-- Model of `SecureMsgValidate`: returns 0 success, 2 invalid hash, 3 checksum mismatch,
4 invalid version, 5 payload is too large. -/
def SecureMsgValidate (L : Layout) (maxWorst : Nat) (hmac : List Nat → List Nat → List Nat)
    (pHeader pPayload : List Nat) : Nat :=
  if pHeader.getD L.version 0 ≠ 2 then 4
  else if pPayload.length > maxWorst then 5
  else
    let nonce := rd pHeader L.nonce 4
    let sha256Hash := powDigest hmac (civOf nonce) pHeader pPayload
    let rv := if powTarget sha256Hash then 0 else 2
    if rd pHeader 0 4 ≠ rd sha256Hash 0 4 then 3 else rv

/-- State of the nonce loop of `SecureMsgSetHash` when it is left. -/
structure PowLoop where
  found : Bool
  nonce : Nat
  header : List Nat
  sha256Hash : List Nat
  deriving DecidableEq, Repr

/-- The `for (;;)` loop of `SecureMsgSetHash`.  `enabled k` is the value of
`fSecMsgEnabled` at its `k`-th reading (one reading per iteration); `fuel` bounds the
number of iterations. -/
def setHashLoop (L : Layout) (hmac : List Nat → List Nat → List Nat) (enabled : Nat → Bool)
    (pPayload : List Nat) : Nat → Nat → List Nat → List Nat → PowLoop
  | 0, nonce, hdr, sha => { found := false, nonce := nonce, header := hdr, sha256Hash := sha }
  | fuel + 1, nonce, hdr, sha =>
    if !enabled nonce then
      { found := false, nonce := nonce, header := hdr, sha256Hash := sha }
    else
      let hdr1 := wr hdr L.nonce (leBytes nonce 4)
      let sha1 := powDigest hmac (civOf (leBytes nonce 4)) hdr1 pPayload
      if powTarget sha1 then
        { found := true, nonce := nonce, header := hdr1, sha256Hash := sha1 }
      else if nonce ≥ 4294967295 then
        { found := false, nonce := nonce, header := hdr1, sha256Hash := sha1 }
      else setHashLoop L hmac enabled pPayload fuel (nonce + 1) hdr1 sha1

/-- Model of `SecureMsgSetHash`: the return code (0 success, 1 error, 2 stopped) and
the header it leaves behind.  The flag is read once more after the loop. -/
def SecureMsgSetHash (L : Layout) (hmac : List Nat → List Nat → List Nat)
    (enabled : Nat → Bool) (pHeader pPayload : List Nat) : Nat × List Nat :=
  let r := setHashLoop L hmac enabled pPayload 4294967296 0 pHeader []
  if !enabled (r.nonce + 1) then (2, r.header)
  else if !r.found then (1, r.header)
  else (0, wr r.header 0 (rd r.sha256Hash 0 4))

/-! ## Tokens, buckets and the bucket map -/

/-- Lexicographic comparison of byte strings (`memcmp(a, b, n) < 0`). -/
def bytesLt : List Nat → List Nat → Bool
  | [], [] => false
  | [], _ :: _ => true
  | _ :: _, [] => false
  | a :: as, b :: bs => a < b || (a == b && bytesLt as bs)

/-- Summary of one stored message: `timestamp`, `sample` (the first 8 bytes of the
payload) and `offset` (where the message starts in its bucket file). -/
structure SecMsgToken where
  timestamp : Int
  sample : List Nat
  offset : Nat
  deriving DecidableEq, Repr

/-- Modelled from the spec: the constructor `SecMsgToken(ts, p, np, o)` of `smessage.h`,
which is not among the sources; the sample is the first 8 bytes of the payload.  The
sample is an array of 8 bytes (the code reads, copies and hashes 8 of them): where the
payload has fewer than 8 bytes, the rest of the sample is taken as zero. -/
def SecMsgToken.ofPayload (ts : Int) (pPayload : List Nat) (o : Nat) : SecMsgToken :=
  { timestamp := ts,
    sample := rd pPayload 0 8 ++ List.replicate (8 - (rd pPayload 0 8).length) 0,
    offset := o }

/-- Modelled from the spec: `SecMsgToken::operator<` of `smessage.h`, which is not among
the sources; tokens are ordered by (`timestamp`, `sample`). -/
def tokenLt (a b : SecMsgToken) : Bool :=
  if a.timestamp = b.timestamp then bytesLt a.sample b.sample
  else decide (a.timestamp < b.timestamp)

/-- Equivalence of two tokens for `std::set`: neither is less than the other. -/
def tokenEquiv (a b : SecMsgToken) : Bool := !tokenLt a b && !tokenLt b a

/-- The lookup `std::set<SecMsgToken>::find`; the set is the list of its elements in
iteration order. -/
def setFind (s : List SecMsgToken) (t : SecMsgToken) : Option SecMsgToken :=
  s.find? (fun x => tokenEquiv x t)

/-- The insertion `std::set<SecMsgToken>::insert`: the element is placed by the order, and
nothing changes when an equivalent element is present. -/
def setInsert : List SecMsgToken → SecMsgToken → List SecMsgToken
  | [], t => [t]
  | x :: xs, t =>
    if tokenLt t x then t :: x :: xs
    else if tokenLt x t then x :: setInsert xs t
    else x :: xs

/-- A bucket (`SecMsgBucket`). -/
structure SecMsgBucket where
  timeChanged : Int
  hash : Nat
  nLockCount : Nat
  nLockPeerId : Int
  setTokens : List SecMsgToken
  deriving DecidableEq, Repr

/-- Modelled from the spec: the constructor of `SecMsgBucket` (`smessage.h`, not among
the sources); a bucket is created empty and unlocked, with `timeChanged`, `hash`,
`nLockCount` and `nLockPeerId` zero. -/
def SecMsgBucket.fresh : SecMsgBucket :=
  { timeChanged := 0, hash := 0, nLockCount := 0, nLockPeerId := 0, setTokens := [] }

/-- The bytes `hashBucket` feeds to XXH32: the samples of the tokens in set order. -/
def sampleBytes (tokens : List SecMsgToken) : List Nat :=
  (tokens.map (fun t => t.sample)).flatten

/-- Model of `SecMsgBucket::hashBucket`: `xxh32 seed data` is XXH32, `now` the value of
`GetTime()`. -/
def SecMsgBucket.hashBucket (xxh32 : Nat → List Nat → Nat) (now : Int) (b : SecMsgBucket) :
    SecMsgBucket :=
  let hash_new := xxh32 1 (sampleBytes b.setTokens)
  if b.hash ≠ hash_new then { b with hash := hash_new, timeChanged := now } else b

/-- Lookup in a map kept as the list of its entries in key order (`std::map::find`). -/
def mapFind {β : Type} : List (Int × β) → Int → Option β
  | [], _ => none
  | (k1, v) :: r, k => if k1 = k then some v else mapFind r k

/-- Setting the value of key `k`, keeping the key order. -/
def mapSet {β : Type} : List (Int × β) → Int → β → List (Int × β)
  | [], k, v => [(k, v)]
  | (k1, v1) :: r, k, v =>
    if k < k1 then (k, v) :: (k1, v1) :: r
    else if k1 = k then (k, v) :: r
    else (k1, v1) :: mapSet r k v

/-- The access `smsgBuckets[k]`, which creates the bucket when the key is absent; the
result is the map after the access. -/
def mapTouch (m : List (Int × SecMsgBucket)) (k : Int) : List (Int × SecMsgBucket) :=
  match mapFind m k with
  | some _ => m
  | none => mapSet m k SecMsgBucket.fresh

/-- The bucket `smsgBuckets[k]` refers to. -/
def mapAt (m : List (Int × SecMsgBucket)) (k : Int) : SecMsgBucket :=
  (mapFind m k).getD SecMsgBucket.fresh

/-! ## The bucket store (`SecureMsgStore`, `SecureMsgRetrieve`, `SecureMsgStoreUnscanned`)

Files of the directory `smsgstore` are kept by the bucket time in their name:
`files` holds `<bucket>_01.dat`, `wlFiles` holds `<bucket>_01_wl.dat`.  File operations
do not fail for reasons of the environment; opening a file that does not exist for
reading fails, opening it for appending creates it.  The clock does not advance during
one call. -/

/-- The bucket map and the message store on disk. -/
structure Store where
  smsgBuckets : List (Int × SecMsgBucket)
  files : List (Int × List Nat)
  wlFiles : List (Int × List Nat)
  deriving DecidableEq, Repr

/-- The bucket time of a timestamp: `timestamp - (timestamp % SMSG_BUCKET_LEN)`, with the
remainder of C++ (truncated division). -/
def bucketOf (timestamp : Int) : Int := timestamp - Int.tmod timestamp SMSG_BUCKET_LEN

/-- Outcome of `SecureMsgStore` and `SecureMsgStoreUnscanned`, one per return statement
reached. -/
inductive StoreResult where
  | ok
  | msgTooNew
  | msgTooOld
  | alreadyHave
  deriving DecidableEq, Repr

/-- The return code of an outcome: 0 on success, 1 on every error. -/
def StoreResult.code : StoreResult → Nat
  | .ok => 0
  | _ => 1

/-- Model of `SecureMsgStore` (pointers not null, the directory `smsgstore` can be
made): the outcome and the store it leaves. -/
def SecureMsgStore (L : Layout) (xxh32 : Nat → List Nat → Nat) (now : Int) (s : Store)
    (pHeader pPayload : List Nat) (fUpdateBucket : Bool) : StoreResult × Store :=
  let timestamp := leI64 (rd pHeader L.timestamp 8)
  if timestamp > now + SMSG_TIME_LEEWAY then (.msgTooNew, s)
  else if timestamp < now - SMSG_RETENTION then (.msgTooOld, s)
  else
    let bucket := bucketOf timestamp
    let buckets1 := mapTouch s.smsgBuckets bucket
    let tokenSet := (mapAt buckets1 bucket).setTokens
    if (setFind tokenSet (SecMsgToken.ofPayload timestamp pPayload 0)).isSome then
      (.alreadyHave, { s with smsgBuckets := buckets1 })
    else
      let file := (mapFind s.files bucket).getD []
      let ofs := file.length
      let files1 := mapSet s.files bucket (file ++ rd pHeader 0 SMSG_HDR_LEN ++ pPayload)
      let b1 := { mapAt buckets1 bucket with
        setTokens := setInsert tokenSet (SecMsgToken.ofPayload timestamp pPayload ofs) }
      let b2 := if fUpdateBucket then b1.hashBucket xxh32 now else b1
      (.ok, { s with smsgBuckets := mapSet buckets1 bucket b2, files := files1 })

/-- Model of `SecureMsgRetrieve`: `some vchData` when it returns 0, `none` when it returns
1.  The sum `SMSG_HDR_LEN + smsg.nPayload` is taken without wrap. -/
def SecureMsgRetrieve (L : Layout) (s : Store) (token : SecMsgToken) : Option (List Nat) :=
  match mapFind s.files (bucketOf token.timestamp) with
  | none => none
  | some file =>
    let hdr := rd file token.offset SMSG_HDR_LEN
    if hdr.length ≠ SMSG_HDR_LEN then none
    else
      let nPayload := leNat (rd hdr L.nPayload 4)
      let payload := rd file (token.offset + SMSG_HDR_LEN) nPayload
      if payload.length ≠ nPayload then none
      else some (hdr ++ payload)

/-- Model of `SecureMsgStoreUnscanned` (pointers not null, the directory `smsgstore` can
be made): the outcome and the store it leaves. -/
def SecureMsgStoreUnscanned (L : Layout) (now : Int) (s : Store)
    (pHeader pPayload : List Nat) : StoreResult × Store :=
  let timestamp := leI64 (rd pHeader L.timestamp 8)
  if timestamp > now + SMSG_TIME_LEEWAY then (.msgTooNew, s)
  else if timestamp < now - SMSG_RETENTION then (.msgTooOld, s)
  else
    let bucket := bucketOf timestamp
    let file := (mapFind s.wlFiles bucket).getD []
    (.ok, { s with
      wlFiles := mapSet s.wlFiles bucket (file ++ rd pHeader 0 SMSG_HDR_LEN ++ pPayload) })

/-- A sequence of further calls of `SecureMsgStore`, each with its clock value, header,
payload and `fUpdateBucket`. -/
def storeMany (L : Layout) (xxh32 : Nat → List Nat → Nat) :
    Store → List (Int × List Nat × List Nat × Bool) → Store
  | s, [] => s
  | s, (now, hdr, payload, upd) :: ops =>
    storeMany L xxh32 (SecureMsgStore L xxh32 now s hdr payload upd).2 ops

/-- The bucket map keeps every token in the bucket of its timestamp: each token of the
bucket with key `k` has `bucketOf timestamp = k`. -/
def bucketsOk (m : List (Int × SecMsgBucket)) : Prop :=
  ∀ e ∈ m, ∀ t ∈ e.2.setTokens, bucketOf t.timestamp = e.1

instance (m : List (Int × SecMsgBucket)) : Decidable (bucketsOk m) := by
  unfold bucketsOk; infer_instance

/-- Every bucket's hash is XXH32 (seed 1) over the samples of its tokens in set order. -/
def hashesOk (xxh32 : Nat → List Nat → Nat) (m : List (Int × SecMsgBucket)) : Prop :=
  ∀ e ∈ m, e.2.hash = xxh32 1 (sampleBytes e.2.setTokens)

instance (xxh32 : Nat → List Nat → Nat) (m : List (Int × SecMsgBucket)) :
    Decidable (hashesOk xxh32 m) := by
  unfold hashesOk; infer_instance

/-! ## Peers and the engine state -/

/-- A connected peer: its `NodeId` and its `smsgData` (`fEnabled`, `lastSeen`,
`lastMatched`, `ignoreUntil`). -/
structure Peer where
  id : Int
  fEnabled : Bool
  lastSeen : Int
  lastMatched : Int
  ignoreUntil : Int
  deriving DecidableEq, Repr

/-- A message handed to `g_connman->PushMessage`: the peer, the command name and the
byte vector sent with it. -/
structure NetMsg where
  peer : Int
  command : String
  data : List Nat
  deriving DecidableEq, Repr

/-- An owned address (`SecMsgAddress`): key id, receive-enabled flag, receive-anonymous
flag. -/
structure SecMsgAddress where
  address : List Nat
  fReceiveEnabled : Bool
  fReceiveAnon : Bool
  deriving DecidableEq, Repr

/-- A stored envelope (`SecMsgStored`). -/
structure SecMsgStored where
  timeReceived : Int
  status : Nat
  addrTo : List Nat
  vchMessage : List Nat
  deriving DecidableEq, Repr

/-- Modelled from the spec: the status bit of an unread message (`SMSG_MASK_UNREAD` of
`smessage.h`, which is not among the sources); an inbox entry is stored with
status = unread. -/
def SMSG_MASK_UNREAD : Nat := 1

/-- The state the engine works on: the bucket store, the connected peers
(`g_connman->vNodes`), the messages pushed so far, the calls of `Misbehaving`
(peer, amount) made so far, whether the wallet is set (`pwalletSmsg`) and locked, the
owned addresses (`smsgAddresses`), the inbox database by key, and the inbox entries
reported to the GUI (`NotifySecMsgInboxChanged`). -/
structure Engine where
  store : Store
  vNodes : List Peer
  sent : List NetMsg
  misbehaving : List (Int × Nat)
  walletSet : Bool
  walletLocked : Bool
  smsgAddresses : List SecMsgAddress
  inbox : List (List Nat × SecMsgStored)
  inboxNotified : List SecMsgStored
  deriving DecidableEq, Repr

/-! ## The bucket management thread (`ThreadSecureMsg`) -/

/-- The loop over `smsgBuckets` in one pass of `ThreadSecureMsg`: buckets older than
`cutoffTime` are erased, the lock count of the others ticks down; the second component
is `vTimedOutLocks`. -/
def sweepBuckets (cutoffTime : Int) :
    List (Int × SecMsgBucket) → List (Int × SecMsgBucket) × List (Int × Int)
  | [] => ([], [])
  | (k, b) :: r =>
    let rest := sweepBuckets cutoffTime r
    if k < cutoffTime then rest
    else if b.nLockCount > 0 then
      if b.nLockCount - 1 = 0 then
        ((k, { b with nLockCount := b.nLockCount - 1, nLockPeerId := 0 }) :: rest.1,
          (k, b.nLockPeerId) :: rest.2)
      else ((k, { b with nLockCount := b.nLockCount - 1 }) :: rest.1, rest.2)
    else ((k, b) :: rest.1, rest.2)

/-- What one pass does to a bucket it keeps: a positive lock count ticks down, and the
lock owner is reset when it reaches zero. -/
def tickLock (b : SecMsgBucket) : SecMsgBucket :=
  if b.nLockCount > 0 then
    if b.nLockCount - 1 = 0 then { b with nLockCount := b.nLockCount - 1, nLockPeerId := 0 }
    else { b with nLockCount := b.nLockCount - 1 }
  else b

/-- The files left by the pass.  The loop removes the file named after a bucket when it
erases that bucket, so a file is gone exactly when its bucket time is below `cutoffTime`
and the map held a bucket of that key. -/
def sweepFiles (cutoffTime : Int) (buckets : List (Int × SecMsgBucket))
    (files : List (Int × List Nat)) : List (Int × List Nat) :=
  files.filter (fun f => !(decide (f.1 < cutoffTime) && (mapFind buckets f.1).isSome))

/-- The search through `vNodes` for the peer that locked a bucket: the first peer with
that id gets `ignoreUntil`. -/
def setIgnore (ignoreUntil : Int) (nPeerId : Int) : List Peer → List Peer
  | [] => []
  | n :: r =>
    if n.id ≠ nPeerId then n :: setIgnore ignoreUntil nPeerId r
    else { n with ignoreUntil := ignoreUntil } :: r

/-- The first peer of `vNodes` with the given id. -/
def findPeer (vNodes : List Peer) (nPeerId : Int) : Option Peer :=
  vNodes.find? (fun n => n.id == nPeerId)

/-- The loop over `vTimedOutLocks`: a peer that is still connected is ignored until
`GetTime() + SMSG_TIME_IGNORE` and is sent `smsgIgnore` with that time. -/
def notifyTimedOut (now : Int) : List (Int × Int) → List Peer × List NetMsg →
    List Peer × List NetMsg
  | [], st => st
  | (_, nPeerId) :: r, (vNodes, sent) =>
    if (findPeer vNodes nPeerId).isSome then
      notifyTimedOut now r
        (setIgnore (now + SMSG_TIME_IGNORE) nPeerId vNodes,
          sent ++ [{ peer := nPeerId, command := "smsgIgnore",
                     data := i64Bytes (now + SMSG_TIME_IGNORE) }])
    else notifyTimedOut now r (vNodes, sent)

/-- One pass of the loop of `ThreadSecureMsg` at time `now`. -/
def sweepPass (now : Int) (e : Engine) : Engine :=
  let cutoffTime := now - SMSG_RETENTION
  let swept := sweepBuckets cutoffTime e.store.smsgBuckets
  let net := notifyTimedOut now swept.2 (e.vNodes, e.sent)
  { e with
    store := { smsgBuckets := swept.1,
               files := sweepFiles cutoffTime e.store.smsgBuckets e.store.files,
               wlFiles := sweepFiles cutoffTime e.store.smsgBuckets e.store.wlFiles },
    vNodes := net.1, sent := net.2 }

/-- The lock of the bucket with key `k`: `nLockCount` and `nLockPeerId`, when the bucket
is in the map. -/
def lockOf (e : Engine) (k : Int) : Option (Nat × Int) :=
  (mapFind e.store.smsgBuckets k).map (fun b => (b.nLockCount, b.nLockPeerId))

/-! ## The protocol handler (`SecureMsgReceiveData`) -/

/-- The loop of the `smsgHave` branch over the `n` tokens of the message: the 16 bytes
of every token that is not in `tokenSet` are appended to `vchDataOut`. -/
def haveMissing (tokenSet : List SecMsgToken) (vchData : List Nat) :
    Nat → Nat → List Nat → List Nat
  | 0, _, vchDataOut => vchDataOut
  | n + 1, p, vchDataOut =>
    let token : SecMsgToken :=
      { timestamp := leI64 (rd vchData p 8), sample := rd vchData (p + 8) 8, offset := 0 }
    if (setFind tokenSet token).isSome then haveMissing tokenSet vchData n (p + 16) vchDataOut
    else haveMissing tokenSet vchData n (p + 16) (vchDataOut ++ rd vchData p 16)

/-- The `smsgHave` branch of `SecureMsgReceiveData`, for the peer with id `pfrom`: the
return code and the state it leaves. -/
def recvHave (now : Int) (e : Engine) (pfrom : Int) (vchData : List Nat) : Nat × Engine :=
  if vchData.length < 8 then (1, e)
  else
    let n := (vchData.length - 8) / 16
    let time := leI64 (rd vchData 0 8)
    if time < now - SMSG_RETENTION then (1, e)
    else if time > now + SMSG_TIME_LEEWAY then
      (1, { e with misbehaving := e.misbehaving ++ [(pfrom, 1)] })
    else
      let buckets1 := mapTouch e.store.smsgBuckets time
      if (mapAt buckets1 time).nLockCount > 0 then
        (1, { e with store := { e.store with smsgBuckets := buckets1 } })
      else
        let vchDataOut := haveMissing (mapAt buckets1 time).setTokens vchData n 8 (rd vchData 0 8)
        if vchDataOut.length > 8 then
          let b := { mapAt buckets1 time with nLockCount := 3, nLockPeerId := pfrom }
          (0, { e with
            store := { e.store with smsgBuckets := mapSet buckets1 time b },
            sent := e.sent ++ [{ peer := pfrom, command := "smsgWant", data := vchDataOut }] })
        else (0, { e with store := { e.store with smsgBuckets := buckets1 } })

/-! ## The crypto envelope (`SecureMsgEncrypt`, `SecureMsgDecrypt`)

The library primitives are parameters.  Keys, hashes and signatures are byte strings. -/

/-- The primitives the envelope is built from. -/
structure Crypto where
  /-- Whether a byte string is a usable private key (`CKey::IsValid`). -/
  validPriv : List Nat → Bool
  /-- The serialised public key of a private key (`CKey::GetPubKey`). -/
  pubOf : List Nat → List Nat
  /-- Whether `secp256k1_ec_pubkey_parse` accepts a serialised public key. -/
  pubkeyParse : List Nat → Bool
  /-- The shared secret `secp256k1_ecdh` computes from a public and a private key; `none`
  when it fails. -/
  ecdh : List Nat → List Nat → Option (List Nat)
  /-- SHA-512 (`CSHA512`). -/
  sha512 : List Nat → List Nat
  /-- HMAC-SHA256 (`CHMAC_SHA256`) of a message under a key. -/
  hmac : List Nat → List Nat → List Nat
  /-- The encryption of `SecMsgCrypter` (AES-256-CBC) under a key and an IV; `none` when
  it fails. -/
  aesEncrypt : List Nat → List Nat → List Nat → Option (List Nat)
  /-- The decryption of `SecMsgCrypter`; `none` when it fails. -/
  aesDecrypt : List Nat → List Nat → List Nat → Option (List Nat)
  /-- The output of `LZ4_compress`; `none` when it returns less than 1. -/
  lz4Compress : List Nat → Option (List Nat)
  /-- The output of `LZ4_decompress_safe` for a compressed input and the capacity of the
  output buffer; `none` when it returns a negative value. -/
  lz4Decompress : List Nat → Nat → Option (List Nat)
  /-- The 256-bit hash `Hash(begin, end)`. -/
  hash256 : List Nat → List Nat
  /-- The compact signature of a hash (`CKey::SignCompact`). -/
  signCompact : List Nat → List Nat → List Nat
  /-- The public key recovered from a hash and a compact signature
  (`CPubKey::RecoverCompact`); `none` when the result is not valid. -/
  recoverCompact : List Nat → List Nat → Option (List Nat)
  /-- The key id of a public key (`CPubKey::GetID`). -/
  keyId : List Nat → List Nat
  /-- The version byte of an address made from a key id (`CBitcoinAddress_B::getVersion`). -/
  addrVersion : Nat
  /-- The text of the address made from a key id (`CBitcoinAddress::ToString`). -/
  addrToString : List Nat → String

/-- The laws of the primitives: the public key of a valid private key parses; ECDH of
`k` with the public key of `r` is ECDH of `r` with the public key of `k`; decryption
undoes encryption under the same key and IV; decompression into a buffer of the
original length undoes compression, and a compressed length fits the `int` that
`LZ4_compress` returns; recovery from a compact signature of a valid key gives that
key's public key; a compact signature has 65 bytes and a MAC 32. -/
structure Crypto.Laws (C : Crypto) : Prop where
  parse_pub : ∀ k, C.validPriv k = true → C.pubkeyParse (C.pubOf k) = true
  ecdh_comm : ∀ k r, C.validPriv k = true → C.validPriv r = true →
    C.ecdh (C.pubOf k) r = C.ecdh (C.pubOf r) k
  aes_inv : ∀ key iv p c, C.aesEncrypt key iv p = some c → C.aesDecrypt key iv c = some p
  lz4_inv : ∀ m c, C.lz4Compress m = some c → C.lz4Decompress c m.length = some m
  lz4_len : ∀ m c, C.lz4Compress m = some c → c.length < 2147483648
  sign_recover : ∀ k h, C.validPriv k = true →
    C.recoverCompact h (C.signCompact k h) = some (C.pubOf k)
  sig_len : ∀ k h, (C.signCompact k h).length = 65
  hmac_len : ∀ k m, (C.hmac k m).length = 32

/-- What a node can look up: the public-key database (`addrpkdb.ReadPK`) and the wallet
(`GetPubKey`, `GetKey`), each by key id. -/
structure Host where
  storedKey : List Nat → Option (List Nat)
  walletPubKey : List Nat → Option (List Nat)
  walletKey : List Nat → Option (List Nat)

/-- Model of `SecureMsgGetLocalKey` for a node with a wallet: the wallet's public key for
the key id, when it is valid and compressed (33 bytes). -/
def SecureMsgGetLocalKey (H : Host) (ckid : List Nat) : Option (List Nat) :=
  match H.walletPubKey ckid with
  | none => none
  | some cpk => if cpk.length = 33 then some cpk else none

/-- The decrypted message (`MessageData`). -/
structure MessageData where
  timestamp : Int
  sFromAddress : String
  vchMessage : List Nat
  deriving DecidableEq, Repr

/-- The message data `SecureMsgEncrypt` places in the payload: compressed with LZ4 when
the message is longer than 128 bytes, the message itself otherwise; `none` when the
compression fails (return code 9). -/
def encMsgData (C : Crypto) (message : List Nat) : Option (List Nat) :=
  if message.length > 128 then C.lz4Compress message else some message

/-- The plaintext payload `SecureMsgEncrypt` assembles in `vchPayload`, by the copies the
code makes in their order; `none` when the wallet has no key for `addressFrom` (return
code 7). -/
def encPayload (C : Crypto) (H : Host) (addressFrom message msgData : List Nat) :
    Option (List Nat) :=
  if addressFrom.all (fun b => b == 0) then
    some (wr (wr (wr (List.replicate (9 + msgData.length) 0) 9 msgData)
      0 [250]) 5 (leBytes message.length 4))
  else
    match H.walletKey addressFrom with
    | none => none
    | some keyFrom =>
      some (wr (wr (wr (wr (wr
        (List.replicate (SMSG_PL_HDR_LEN + msgData.length) 0)
        SMSG_PL_HDR_LEN msgData)
        0 [C.addrVersion]) 1 (rd addressFrom 0 20))
        (1 + 20) (C.signCompact keyFrom (C.hash256 message)))
        (1 + 20 + 65) (leBytes message.length 4))

/-- The end of `SecureMsgEncrypt`: the payload is encrypted, `nPayload` and the MAC over
timestamp, IV and ciphertext are placed in the header. -/
def encSeal (C : Crypto) (L : Layout) (smsg3 key_e key_m vchPayload : List Nat) :
    Nat × List Nat × List Nat :=
  match C.aesEncrypt key_e (rd smsg3 L.iv 16) vchPayload with
  | none => (11, smsg3, [])
  | some vchCiphertext =>
    let smsg4 := wr smsg3 L.nPayload (leBytes vchCiphertext.length 4)
    let mac := C.hmac key_m (rd smsg4 L.timestamp 8 ++ rd smsg4 L.iv 16 ++ vchCiphertext)
    (0, wr smsg4 L.mac (rd mac 0 32), vchCiphertext)

/-- Model of `SecureMsgEncrypt`: the return code, the header and the payload it leaves.
`now` is `GetTime()`, `iv` the 16 random bytes, `keyR` the new private key, `smsg` the
header bytes before the call; a null `addressFrom` (all bytes zero) sends anonymously.
Making an address of a key id does not fail. -/
def SecureMsgEncrypt (C : Crypto) (L : Layout) (H : Host) (now : Int) (iv keyR : List Nat)
    (smsg addressFrom addressTo message : List Nat) : Nat × List Nat × List Nat :=
  let fSendAnonymous := addressFrom.all (fun b => b == 0)
  if message.length > (if fSendAnonymous then SMSG_MAX_AMSG_BYTES else SMSG_MAX_MSG_BYTES) then
    (2, smsg, [])
  else
    let smsg1 := wr (wr smsg L.version [2, 1]) L.timestamp (i64Bytes now)
    match (H.storedKey addressTo).orElse (fun _ => SecureMsgGetLocalKey H addressTo) with
    | none => (5, smsg1, [])
    | some cpkDestK =>
      let smsg2 := wr smsg1 L.iv (rd iv 0 16)
      if !C.pubkeyParse cpkDestK then (4, smsg2, [])
      else
        match C.ecdh cpkDestK keyR with
        | none => (6, smsg2, [])
        | some vchP =>
          let cpkR := C.pubOf keyR
          if cpkR.length ≠ 33 then (1, smsg2, [])
          else
            let smsg3 := wr smsg2 L.cpkR cpkR
            let vchHashed := C.sha512 vchP
            let key_e := rd vchHashed 0 32
            let key_m := rd vchHashed 32 32
            match encMsgData C message with
            | none => (9, smsg3, [])
            | some msgData =>
              match encPayload C H addressFrom message msgData with
              | none => (7, smsg3, [])
              | some vchPayload => encSeal C L smsg3 key_e key_m vchPayload

/-- Bytes `off .. off + len` seen through a pointer into the vector `v`: the bytes of
`v` as far as it reaches, and behind its end whatever the memory holds there (`oob`). -/
def vrd (v : List Nat) (oob : Nat → Nat) (off len : Nat) : List Nat :=
  (List.range len).map (fun i => if off + i < v.length then v.getD (off + i) 0 else oob (off + i))

/-- The part of `SecureMsgDecrypt` that follows the decryption: the decrypted payload
`vchPayload` is taken apart, the message is decompressed or copied, and the signature of
a signed message is checked.  An address made of a key id is valid.  The insertion of
the sender's public key into the database, whose result the code only logs, is left
out.  `msg.vchMessage.resize(lenPlain + 1)` comes before the decompression and does not
throw: when the decompression fails the message is left resized (cut, or filled up with
zero bytes); what a failed decompression has written into it is not modelled. -/
def decPayload (C : Crypto) (oob : Nat → Nat) (msg1 : MessageData) (vchPayload : List Nat) :
    Nat × MessageData :=
  let fFromAnonymous := decide (vrd vchPayload oob 0 1 = [250])
  let hdrLen := if fFromAnonymous then 9 else SMSG_PL_HDR_LEN
  let lenData := (vchPayload.length + 4294967296 - hdrLen) % 4294967296
  let lenPlain := leNat (vrd vchPayload oob (hdrLen - 4) 4)
  let plain : Option (List Nat) :=
    if lenPlain > 128 then
      match C.lz4Decompress (vrd vchPayload oob hdrLen lenData) lenPlain with
      | none => none
      | some out => if out.length = lenPlain then some out else none
    else some (vrd vchPayload oob hdrLen lenPlain)
  match plain with
  | none =>
    let size := (lenPlain + 1) % 4294967296
    (1, { msg1 with
          vchMessage := rd msg1.vchMessage 0 size
            ++ List.replicate (size - msg1.vchMessage.length) 0 })
  | some text =>
    let msg2 := { msg1 with vchMessage := text ++ [0] }
    if fFromAnonymous then (0, { msg2 with sFromAddress := "anon" })
    else
      let ckidFrom := vrd vchPayload oob 1 20
      let vchSig := vrd vchPayload oob (1 + 20) 65
      match C.recoverCompact (C.hash256 text) vchSig with
      | none => (1, msg2)
      | some cpkFromSig =>
        if C.keyId cpkFromSig ≠ ckidFrom then (1, msg2)
        else (0, { msg2 with sFromAddress := C.addrToString ckidFrom })

/-- Model of `SecureMsgDecrypt`: the return code and the message data it leaves. -/
def SecureMsgDecrypt (C : Crypto) (L : Layout) (H : Host) (oob : Nat → Nat) (fTestOnly : Bool)
    (address pHeader pPayload : List Nat) (msg : MessageData) : Nat × MessageData :=
  if pHeader.getD L.version 0 ≠ 2 then (2, msg)
  else
    match H.walletKey address with
    | none => (3, msg)
    | some keyDest =>
      if !C.pubkeyParse (rd pHeader L.cpkR 33) then (1, msg)
      else
        match C.ecdh (rd pHeader L.cpkR 33) keyDest with
        | none => (1, msg)
        | some vchP =>
          let vchHashedDec := C.sha512 vchP
          let key_e := rd vchHashedDec 0 32
          let key_m := rd vchHashedDec 32 32
          let MAC := C.hmac key_m (rd pHeader L.timestamp 8 ++ rd pHeader L.iv 16 ++ pPayload)
          if rd MAC 0 32 ≠ rd pHeader L.mac 32 then (1, msg)
          else if fTestOnly then (0, msg)
          else
            match C.aesDecrypt key_e (rd pHeader L.iv 16) pPayload with
            | none => (1, msg)
            | some vchPayload =>
              decPayload C oob { msg with timestamp := leI64 (rd pHeader L.timestamp 8) }
                vchPayload

/-! ## Scanning and receiving (`SecureMsgScanMessage`, `SecureMsgReceive`) -/

/-- The loop of `SecureMsgScanMessage` over `smsgAddresses`: `fOwnMessage`, `addressTo`
and the placeholder `msg` when the loop is left. -/
def scanAddresses (C : Crypto) (L : Layout) (H : Host) (oobPlain : Nat → Nat)
    (pHeader pPayload : List Nat) :
    List SecMsgAddress → List Nat → MessageData → Bool × List Nat × MessageData
  | [], addressTo, msg => (false, addressTo, msg)
  | a :: r, addressTo, msg =>
    if !a.fReceiveEnabled then scanAddresses C L H oobPlain pHeader pPayload r addressTo msg
    else if !a.fReceiveAnon then
      let d := SecureMsgDecrypt C L H oobPlain false a.address pHeader pPayload msg
      if d.1 = 0 then (decide (d.2.sFromAddress ≠ "anon"), a.address, d.2)
      else scanAddresses C L H oobPlain pHeader pPayload r a.address d.2
    else
      let d := SecureMsgDecrypt C L H oobPlain true a.address pHeader pPayload msg
      if d.1 = 0 then (true, a.address, d.2)
      else scanAddresses C L H oobPlain pHeader pPayload r a.address d.2

/-- Model of `SecureMsgScanMessage`: the return code and the state it leaves.
`oobPayload` are the bytes behind the payload, `oobPlain` the bytes behind a decrypted
payload.  The database opens; the command of `-smsgnotify` is left out. -/
def SecureMsgScanMessage (C : Crypto) (L : Layout) (H : Host) (oobPayload oobPlain : Nat → Nat)
    (now : Int) (e : Engine) (pHeader pPayload : List Nat) (reportToGui : Bool) :
    Nat × Engine :=
  if !e.walletSet then (0, e)
  else if e.walletLocked then
    let r := SecureMsgStoreUnscanned L now e.store pHeader pPayload
    if r.1.code ≠ 0 then (1, { e with store := r.2 }) else (3, { e with store := r.2 })
  else
    let found := scanAddresses C L H oobPlain pHeader pPayload e.smsgAddresses []
      { timestamp := 0, sFromAddress := "", vchMessage := [] }
    if found.1 then
      let chKey := [105, 109] ++ rd pHeader L.timestamp 8 ++ vrd pPayload oobPayload 0 8
      let smsgInbox : SecMsgStored :=
        { timeReceived := now, status := SMSG_MASK_UNREAD % 256, addrTo := found.2.1,
          vchMessage := rd pHeader 0 SMSG_HDR_LEN ++ pPayload }
      if (e.inbox.lookup chKey).isSome then (0, e)
      else
        (0, { e with
          inbox := e.inbox ++ [(chKey, smsgInbox)],
          inboxNotified := if reportToGui then e.inboxNotified ++ [smsgInbox]
            else e.inboxNotified })
    else (0, e)

/-- The loop of `SecureMsgReceive` over the `nBunch` messages of the body: `i` counts the
iterations left, `n` is the offset of the message in `vchData`.  A message that fails
validation leaves `n` as it is (`continue`); a message that cannot be stored ends the
loop. -/
def receiveLoop (C : Crypto) (L : Layout) (H : Host) (maxWorst : Nat)
    (xxh32 : Nat → List Nat → Nat) (oob oobPlain : Nat → Nat) (now : Int) (pfrom : Int)
    (vchData : List Nat) : Nat → Nat → Engine → Engine
  | 0, _, e => e
  | i + 1, n, e =>
    if (vchData.length + 18446744073709551616 - n) % 18446744073709551616 < SMSG_HDR_LEN then e
    else
      let pHeader := vrd vchData oob n SMSG_HDR_LEN
      let nPayload := leNat (rd pHeader L.nPayload 4)
      let pPayload := vrd vchData oob (n + SMSG_HDR_LEN) nPayload
      let rv := SecureMsgValidate L maxWorst C.hmac pHeader pPayload
      if rv ≠ 0 then
        receiveLoop C L H maxWorst xxh32 oob oobPlain now pfrom vchData i n
          { e with misbehaving := e.misbehaving ++ [(pfrom, if rv = 2 then 10 else 1)] }
      else
        let st := SecureMsgStore L xxh32 now e.store pHeader pPayload false
        if st.1.code ≠ 0 then { e with store := st.2 }
        else
          let sc := SecureMsgScanMessage C L H
            (fun j => (vrd vchData oob (n + SMSG_HDR_LEN + j) 1).getD 0 0) oobPlain now
            { e with store := st.2 } pHeader pPayload true
          receiveLoop C L H maxWorst xxh32 oob oobPlain now pfrom vchData i
            ((n + SMSG_HDR_LEN + nPayload) % 4294967296) sc.2

/-- Model of `SecureMsgReceive` for the peer with id `pfrom`: the return code and the
state it leaves.  `oob` are the bytes behind `vchData`. -/
def SecureMsgReceive (C : Crypto) (L : Layout) (H : Host) (maxWorst : Nat)
    (xxh32 : Nat → List Nat → Nat) (oob oobPlain : Nat → Nat) (now : Int) (e : Engine)
    (pfrom : Int) (vchData : List Nat) : Nat × Engine :=
  if vchData.length < 12 then (1, e)
  else
    let nBunch := leNat (rd vchData 0 4)
    let bktTime := leI64 (rd vchData 4 8)
    if bktTime > now + SMSG_TIME_LEEWAY then (1, e)
    else if bktTime < now - SMSG_RETENTION then (1, e)
    else if nBunch = 0 ∨ nBunch > 500 then
      let e1 := { e with misbehaving := e.misbehaving ++ [(pfrom, 1)] }
      match mapFind e.store.smsgBuckets bktTime with
      | none => (1, e1)
      | some b =>
        (1, { e1 with store := { e.store with
          smsgBuckets := mapSet e.store.smsgBuckets bktTime { b with nLockCount := 0 } } })
    else
      let e1 := receiveLoop C L H maxWorst xxh32 oob oobPlain now pfrom vchData nBunch 12 e
      match mapFind e1.store.smsgBuckets bktTime with
      | none => (1, e1)
      | some b =>
        (0, { e1 with store := { e1.store with
          smsgBuckets := mapSet e1.store.smsgBuckets bktTime
            (({ b with nLockCount := 0, nLockPeerId := 0 } : SecMsgBucket).hashBucket
              xxh32 now) } })

/-! ## The other branches of `SecureMsgReceiveData`, and `SecureMsgSendData`

The handlers are called with the node object of a peer; the model names the peer by its
id and reads and writes its `smsgData` in `vNodes`.  Allocation does not fail. -/

/-- Modelled from the spec: the seconds between two inventories sent to one peer
(`SMSG_SEND_DELAY` of `smessage.h`, which is not among the sources). -/
def SMSG_SEND_DELAY : Int := 2

/-- The `smsgData` of the peer with the given id.  Modelled from the spec for a node that
is not in `vNodes`: its `smsgData` is as constructed, with `fEnabled` false and all times
zero. -/
def peerData (e : Engine) (id : Int) : Peer :=
  (findPeer e.vNodes id).getD
    { id := id, fEnabled := false, lastSeen := 0, lastMatched := 0, ignoreUntil := 0 }

/-- A write to the `smsgData` of the peer with the given id: `f` is applied to the first
peer of `vNodes` with that id. -/
def setPeer (f : Peer → Peer) (id : Int) : List Peer → List Peer
  | [] => []
  | n :: r => if n.id ≠ id then n :: setPeer f id r else f n :: r

/-- The variables the loop of the `smsgInv` branch works on: the bucket map, the calls
of `Misbehaving`, `nLocked`, `nShowBuckets` and `vchDataOut`. -/
structure InvLoop where
  smsgBuckets : List (Int × SecMsgBucket)
  misbehaving : List (Int × Nat)
  nLocked : Nat
  nShowBuckets : Nat
  vchDataOut : List Nat
  deriving DecidableEq, Repr

/-- The loop of the `smsgInv` branch over the `nInvBuckets` entries of the message: `i`
counts the entries left, `p` is the offset of the entry in `vchData`.  Every access
`smsgBuckets[time]` creates the bucket when it is absent. -/
def invLoop (now : Int) (pfrom : Int) (vchData : List Nat) : Nat → Nat → InvLoop → InvLoop
  | 0, _, st => st
  | i + 1, p, st =>
    let time := leI64 (rd vchData p 8)
    let ncontent := leNat (rd vchData (p + 8) 4)
    let hash := leNat (rd vchData (p + 12) 4)
    if time < now - SMSG_RETENTION then
      if time < now - SMSG_RETENTION - SMSG_TIME_LEEWAY then
        invLoop now pfrom vchData i (p + 16)
          { st with misbehaving := st.misbehaving ++ [(pfrom, 1)] }
      else invLoop now pfrom vchData i (p + 16) st
    else if time > now + SMSG_TIME_LEEWAY then
      invLoop now pfrom vchData i (p + 16)
        { st with misbehaving := st.misbehaving ++ [(pfrom, 1)] }
    else if ncontent < 1 then invLoop now pfrom vchData i (p + 16) st
    else
      let buckets1 := mapTouch st.smsgBuckets time
      if (mapAt buckets1 time).nLockCount > 0 then
        invLoop now pfrom vchData i (p + 16)
          { st with smsgBuckets := buckets1, nLocked := st.nLocked + 1 }
      else if (mapAt buckets1 time).setTokens.length < ncontent
          ∨ ((mapAt buckets1 time).setTokens.length = ncontent
              ∧ (mapAt buckets1 time).hash ≠ hash) then
        invLoop now pfrom vchData i (p + 16)
          { st with smsgBuckets := buckets1, vchDataOut := st.vchDataOut ++ i64Bytes time,
                    nShowBuckets := st.nShowBuckets + 1 }
      else invLoop now pfrom vchData i (p + 16) { st with smsgBuckets := buckets1 }

/-- The `smsgInv` branch of `SecureMsgReceiveData`, for the peer with id `pfrom`: the
return code and the state it leaves. -/
def recvInv (now : Int) (e : Engine) (pfrom : Int) (vchData : List Nat) : Nat × Engine :=
  if vchData.length < 4 then (1, { e with misbehaving := e.misbehaving ++ [(pfrom, 1)] })
  else if now < (peerData e pfrom).ignoreUntil then (1, e)
  else
    let nInvBuckets := leNat (rd vchData 0 4)
    if (nInvBuckets : Int) > SMSG_RETENTION / SMSG_BUCKET_LEN + 1 then
      (1, { e with misbehaving := e.misbehaving ++ [(pfrom, 1)] })
    else if vchData.length < 4 + nInvBuckets * 16 then
      (1, { e with misbehaving := e.misbehaving ++ [(pfrom, 1)] })
    else
      let st := invLoop now pfrom vchData nInvBuckets 4
        { smsgBuckets := e.store.smsgBuckets, misbehaving := e.misbehaving, nLocked := 0,
          nShowBuckets := 0, vchDataOut := List.replicate 4 0 }
      let vchDataOut := wr st.vchDataOut 0 (leBytes st.nShowBuckets 4)
      let e1 := { e with
        store := { e.store with smsgBuckets := st.smsgBuckets },
        misbehaving := st.misbehaving }
      if vchDataOut.length > 4 then
        (0, { e1 with
          sent := e1.sent ++ [{ peer := pfrom, command := "smsgShow", data := vchDataOut }] })
      else if st.nLocked < 1 then
        let vchMatch := wr (rd (vchDataOut ++ List.replicate 8 0) 0 8) 0 (i64Bytes now)
        (0, { e1 with
          sent := e1.sent ++ [{ peer := pfrom, command := "smsgMatch", data := vchMatch }] })
      else (0, e1)

/-- The byte vector of a `smsgHave` message: the bucket time, then the timestamp and the
8 bytes of the sample of every token, in set order. -/
def haveBytes (time : Int) (tokenSet : List SecMsgToken) : List Nat :=
  i64Bytes time ++ (tokenSet.map (fun t => i64Bytes t.timestamp ++ t.sample)).flatten

/-- The loop of the `smsgShow` branch over the `nBuckets` bucket times of the message:
`i` counts the times left, `pIn` is the offset of the time in `vchData`, whose bytes
behind the end are `oob`.  A bucket that is in the map is answered with `smsgHave`. -/
def showLoop (pfrom : Int) (smsgBuckets : List (Int × SecMsgBucket)) (vchData : List Nat)
    (oob : Nat → Nat) : Nat → Nat → List NetMsg → List NetMsg
  | 0, _, sent => sent
  | i + 1, pIn, sent =>
    let time := leI64 (vrd vchData oob pIn 8)
    match mapFind smsgBuckets time with
    | none => showLoop pfrom smsgBuckets vchData oob i (pIn + 8) sent
    | some b =>
      showLoop pfrom smsgBuckets vchData oob i (pIn + 8)
        (sent ++ [{ peer := pfrom, command := "smsgHave", data := haveBytes time b.setTokens }])

/-- The `smsgShow` branch of `SecureMsgReceiveData`: the return code and the state it
leaves.  The sum `4 + nBuckets * 8` is one of 32-bit unsigned integers. -/
def recvShow (oob : Nat → Nat) (e : Engine) (pfrom : Int) (vchData : List Nat) :
    Nat × Engine :=
  if vchData.length < 4 then (1, e)
  else
    let nBuckets := leNat (rd vchData 0 4)
    if vchData.length < (4 + nBuckets * 8) % 4294967296 then (1, e)
    else
      (0, { e with sent := showLoop pfrom e.store.smsgBuckets vchData oob nBuckets 4 e.sent })

/-- The loop of the `smsgWant` branch over the `n` tokens of the message: `i` counts the
tokens left, `p` is the offset of the token in `vchData`; the state is `nBunch` and
`vchBunch`.  The loop is left once `nBunch` reaches 500 or `vchBunch` 96000 bytes, which
is tested after a message was appended. -/
def wantLoop (L : Layout) (s : Store) (tokenSet : List SecMsgToken) (vchData : List Nat) :
    Nat → Nat → Nat × List Nat → Nat × List Nat
  | 0, _, st => st
  | i + 1, p, (nBunch, vchBunch) =>
    let token : SecMsgToken :=
      { timestamp := leI64 (rd vchData p 8), sample := rd vchData (p + 8) 8, offset := 0 }
    match setFind tokenSet token with
    | none => wantLoop L s tokenSet vchData i (p + 16) (nBunch, vchBunch)
    | some it =>
      let st1 : Nat × List Nat :=
        match SecureMsgRetrieve L s { token with offset := it.offset } with
        | some vchOne => (nBunch + 1, vchBunch ++ vchOne)
        | none => (nBunch, vchBunch)
      if st1.1 ≥ 500 ∨ st1.2.length ≥ 96000 then st1
      else wantLoop L s tokenSet vchData i (p + 16) st1

/-- The `smsgWant` branch of `SecureMsgReceiveData`: the return code and the state it
leaves.  The number of tokens `(vchData.size() - 8) / 16` fits an `int`. -/
def recvWant (L : Layout) (e : Engine) (pfrom : Int) (vchData : List Nat) : Nat × Engine :=
  if vchData.length < 8 then (1, e)
  else
    let n := (vchData.length - 8) / 16
    let time := leI64 (rd vchData 0 8)
    match mapFind e.store.smsgBuckets time with
    | none => (1, e)
    | some b =>
      let st := wantLoop L e.store b.setTokens vchData n 8 (0, List.replicate 12 0)
      if st.1 > 0 then
        let vchBunch := wr (wr st.2 0 (leBytes st.1 4)) 4 (i64Bytes time)
        (0, { e with
          sent := e.sent ++ [{ peer := pfrom, command := "smsgMsg", data := vchBunch }] })
      else (0, e)

/-- The `smsgMatch` branch of `SecureMsgReceiveData`: the return code and the state it
leaves.  The assignment `pfrom->smsgData.lastMatched = time` is commented out in the
source, so the branch leaves the state as it is when the message has 8 bytes; the time
it reads (replaced by `now` when it is more than `SMSG_TIME_LEEWAY` ahead) only goes to
the log. -/
def recvMatch (e : Engine) (pfrom : Int) (vchData : List Nat) : Nat × Engine :=
  if vchData.length < 8 then (1, { e with misbehaving := e.misbehaving ++ [(pfrom, 1)] })
  else (0, e)

/-- The `smsgIgnore` branch of `SecureMsgReceiveData`. -/
def recvIgnore (e : Engine) (pfrom : Int) (vchData : List Nat) : Nat × Engine :=
  if vchData.length < 8 then (1, { e with misbehaving := e.misbehaving ++ [(pfrom, 1)] })
  else
    let time := leI64 (rd vchData 0 8)
    (0, { e with vNodes := setPeer (fun n => { n with ignoreUntil := time }) pfrom e.vNodes })

/-- Model of `SecureMsgReceiveData` for the peer with id `pfrom`: the return code (0 no
error, 1 error, 2 unknown message) and the state it leaves.  `fSecMsgEnabled` is the
global flag, `vRecv` the byte vector read from the stream, `oob` the bytes behind it. -/
def SecureMsgReceiveData (C : Crypto) (L : Layout) (H : Host) (maxWorst : Nat)
    (xxh32 : Nat → List Nat → Nat) (oob oobPlain : Nat → Nat) (fSecMsgEnabled : Bool)
    (now : Int) (e : Engine) (pfrom : Int) (strCommand : String) (vRecv : List Nat) :
    Nat × Engine :=
  if !fSecMsgEnabled then
    if strCommand = "smsgPing" then (0, e) else (2, e)
  else if strCommand = "smsgInv" then recvInv now e pfrom vRecv
  else if strCommand = "smsgShow" then recvShow oob e pfrom vRecv
  else if strCommand = "smsgHave" then recvHave now e pfrom vRecv
  else if strCommand = "smsgWant" then recvWant L e pfrom vRecv
  else if strCommand = "smsgMsg" then
    (0, (SecureMsgReceive C L H maxWorst xxh32 oob oobPlain now e pfrom vRecv).2)
  else if strCommand = "smsgMatch" then recvMatch e pfrom vRecv
  else if strCommand = "smsgPing" then
    (0, { e with sent := e.sent ++ [{ peer := pfrom, command := "smsgPong", data := [] }] })
  else if strCommand = "smsgPong" then
    (0, { e with vNodes := setPeer (fun n => { n with fEnabled := true }) pfrom e.vNodes })
  else if strCommand = "smsgDisabled" then
    (0, { e with vNodes := setPeer (fun n => { n with fEnabled := false }) pfrom e.vNodes })
  else if strCommand = "smsgIgnore" then recvIgnore e pfrom vRecv
  else (2, e)

/-- The loop of `SecureMsgSendData` over `smsgBuckets`: the state is `nBucketsShown` and
`vchData`.  A bucket is skipped when `timeChanged < lastMatched` or when it has no
message; otherwise its key, `nMessages` and hash are appended. -/
def invEntries (lastMatched : Int) :
    List (Int × SecMsgBucket) → Nat × List Nat → Nat × List Nat
  | [], st => st
  | (k, bkt) :: r, (nBucketsShown, vchData) =>
    let nMessages := bkt.setTokens.length % 4294967296
    if bkt.timeChanged < lastMatched ∨ nMessages < 1 then
      invEntries lastMatched r (nBucketsShown, vchData)
    else
      invEntries lastMatched r
        (nBucketsShown + 1,
          vchData ++ i64Bytes k ++ leBytes nMessages 4 ++ leBytes bkt.hash 4)

/-- Model of `SecureMsgSendData` for the peer with id `pto` at time `now`: the return
value and the state it leaves. -/
def SecureMsgSendData (now : Int) (e : Engine) (pto : Int) : Bool × Engine :=
  if (peerData e pto).lastSeen = 0 then
    (true, { e with
      sent := e.sent ++ [{ peer := pto, command := "smsgPing", data := [] }],
      vNodes := setPeer (fun n => { n with lastSeen := now }) pto e.vNodes })
  else if !(peerData e pto).fEnabled ∨ now - (peerData e pto).lastSeen < SMSG_SEND_DELAY
      ∨ now < (peerData e pto).ignoreUntil then (true, e)
  else
    let nBuckets := e.store.smsgBuckets.length % 4294967296
    let st := invEntries (peerData e pto).lastMatched e.store.smsgBuckets
      (0, List.replicate 4 0)
    let sent1 :=
      if nBuckets > 0 ∧ st.2.length > 4 then
        e.sent ++ [{ peer := pto, command := "smsgInv", data := wr st.2 0 (leBytes st.1 4) }]
      else e.sent
    (true, { e with
      sent := sent1,
      vNodes := setPeer (fun n => { n with lastSeen := now, lastMatched := now }) pto
        e.vNodes })

/-! ## Loading the bucket files at startup (`SecureMsgBuildBucketSet`) -/

/-- The `for (;;)` loop of `SecureMsgBuildBucketSet` over one bucket file: `ofs` is the
position in the file (`ftell`), the state is the token set of the bucket.  The loop is
left when no whole header or no whole sample can be read; a message with `nPayload < 8`
is passed over by `continue`, which leaves the position behind its header; `fseek` does
not fail.  `fuel` bounds the iterations: every iteration passes the 104 bytes of a
header, so `file.length + 1` iterations are never used up. -/
def buildLoop (L : Layout) (file : List Nat) : Nat → Nat → List SecMsgToken → List SecMsgToken
  | 0, _, tokenSet => tokenSet
  | fuel + 1, ofs, tokenSet =>
    let hdr := rd file ofs SMSG_HDR_LEN
    if hdr.length ≠ SMSG_HDR_LEN then tokenSet
    else
      let nPayload := leNat (rd hdr L.nPayload 4)
      if nPayload < 8 then buildLoop L file fuel (ofs + SMSG_HDR_LEN) tokenSet
      else
        let sample := rd file (ofs + SMSG_HDR_LEN) 8
        if sample.length ≠ 8 then tokenSet
        else
          buildLoop L file fuel (ofs + SMSG_HDR_LEN + 8 + (nPayload - 8))
            (setInsert tokenSet
              { timestamp := leI64 (rd hdr L.timestamp 8), sample := sample, offset := ofs })

/-- What `SecureMsgBuildBucketSet` does with one file `<fileTime>_01.dat` that has not
expired: the tokens read from it are inserted into `smsgBuckets[fileTime]`, and the
bucket is hashed. -/
def buildFile (L : Layout) (xxh32 : Nat → List Nat → Nat) (now : Int)
    (m : List (Int × SecMsgBucket)) (f : Int × List Nat) : List (Int × SecMsgBucket) :=
  let m1 := mapTouch m f.1
  let tokenSet := buildLoop L f.2 (f.2.length + 1) 0 (mapAt m1 f.1).setTokens
  mapSet m1 f.1
    (({ mapAt m1 f.1 with setTokens := tokenSet } : SecMsgBucket).hashBucket xxh32 now)

/-- Model of `SecureMsgBuildBucketSet` at time `now`: the return code and the store it
leaves.  The files of the directory are taken in the order of `files`; a file (also a
`_wl` file) whose time lies before `now - SMSG_RETENTION` is removed, a `_wl` file is
passed over, every other file is read into its bucket.  Files open. -/
def SecureMsgBuildBucketSet (L : Layout) (xxh32 : Nat → List Nat → Nat) (now : Int)
    (s : Store) : Nat × Store :=
  let files := s.files.filter (fun f => !decide (f.1 < now - SMSG_RETENTION))
  let wlFiles := s.wlFiles.filter (fun f => !decide (f.1 < now - SMSG_RETENTION))
  (0, { smsgBuckets := files.foldl (buildFile L xxh32 now) s.smsgBuckets,
        files := files, wlFiles := wlFiles })

/-- Every call of a sequence of calls of `SecureMsgStore` returns 0. -/
def storeManyOk (L : Layout) (xxh32 : Nat → List Nat → Nat) :
    Store → List (Int × List Nat × List Nat × Bool) → Bool
  | _, [] => true
  | s, (now, hdr, payload, upd) :: ops =>
    decide ((SecureMsgStore L xxh32 now s hdr payload upd).1 = .ok)
      && storeManyOk L xxh32 (SecureMsgStore L xxh32 now s hdr payload upd).2 ops

/-! ## Sample primitives and inputs used by the concrete checks -/

/-- A stand-in for HMAC-SHA256 in the concrete checks: 32 bytes, each the sum of all
key and message bytes modulo 256. -/
def sumMac (key msg : List Nat) : List Nat := List.replicate 32 ((key.sum + msg.sum) % 256)

/-- A 104-byte header for `packedLayout`: `version[0] = v`, `flags = f`, all other
bytes zero. -/
def sampleHeader (v f : Nat) : List Nat :=
  [0, 0, 0, 0, v, 1, f] ++ List.replicate 97 0

/-- A 16-byte payload. -/
def samplePayload : List Nat := [1, 2, 3, 4, 5, 6, 7, 8, 9, 10, 11, 12, 13, 14, 15, 16]

/-- A stand-in for XXH32 in the concrete checks. -/
def sumHash (seed : Nat) (data : List Nat) : Nat := (seed + data.sum + 31 * data.length) % 4294967296

/-- The empty store. -/
def emptyStore : Store := { smsgBuckets := [], files := [], wlFiles := [] }

/-- A 104-byte header for `packedLayout` with `version[0] = 2`, the given timestamp and
payload length, all other bytes zero. -/
def headerAt (timestamp : Int) (nPayload : Nat) : List Nat :=
  [0, 0, 0, 0, 2, 1, 0] ++ i64Bytes timestamp ++ List.replicate 85 0 ++ leBytes nPayload 4

/-- A second 16-byte payload. -/
def samplePayload2 : List Nat := [21, 22, 23, 24, 25, 26, 27, 28, 29, 30, 31, 32, 33, 34, 35, 36]

/-- The store after a first message (timestamp 1000000) was stored at time 1000000. -/
def storeOne : Store :=
  (SecureMsgStore packedLayout sumHash 1000000 emptyStore (headerAt 1000000 16) samplePayload
    true).2

/-- An engine with the store `storeOne`, in which every bucket file has a `_wl` file of
the same content, and the peers 7 and 9. -/
def engineOne : Engine :=
  { store := { storeOne with wlFiles := storeOne.files },
    vNodes := [{ id := 7, fEnabled := true, lastSeen := 5, lastMatched := 0, ignoreUntil := 0 },
               { id := 9, fEnabled := true, lastSeen := 5, lastMatched := 0, ignoreUntil := 0 }],
    sent := [], misbehaving := [], walletSet := true, walletLocked := true,
    smsgAddresses := [], inbox := [], inboxNotified := [] }

/-- A `smsgHave` payload: the bucket time and one token (timestamp, 8 sample bytes). -/
def haveMsg (time timestamp : Int) : List Nat :=
  i64Bytes time ++ i64Bytes timestamp ++ [9, 9, 9, 9, 9, 9, 9, 9]

/-- Stand-ins for the primitives in the concrete checks: private keys are 32-byte
strings, the public key of `k` is `2 :: k`, the shared secret is the bytewise product. -/
def toyCrypto : Crypto :=
  { validPriv := fun k => k.length == 32
    pubOf := fun k => 2 :: k
    pubkeyParse := fun p => p.length == 33
    ecdh := fun pub priv => some (List.zipWith (fun a b => (a * b) % 256) pub.tail priv)
    sha512 := fun x => x ++ x
    hmac := sumMac
    aesEncrypt := fun key iv p => some (p.map (fun b => b ^^^ ((key.sum + iv.sum) % 256)))
    aesDecrypt := fun key iv c => some (c.map (fun b => b ^^^ ((key.sum + iv.sum) % 256)))
    lz4Compress := fun m => if m.length < 1000000 then some (0 :: m) else none
    lz4Decompress := fun c n => if c.tail.length ≤ n then some c.tail else none
    hash256 := fun x => List.replicate 32 (x.sum % 256)
    signCompact := fun k h => (27 :: (k ++ h ++ List.replicate 64 0)).take 65
    recoverCompact := fun _ sig => some (2 :: sig.tail.take 32)
    keyId := fun pub => pub.tail.take 20
    addrVersion := 56
    addrToString := fun id => String.join (id.map (fun b => toString b)) }

/-- The private key of the sender in the concrete checks. -/
def aliceKey : List Nat := List.replicate 32 7

/-- The key id of the sender. -/
def aliceId : List Nat := List.replicate 20 7

/-- The private key of the recipient. -/
def bobKey : List Nat := List.replicate 32 9

/-- The key id of the recipient. -/
def bobId : List Nat := List.replicate 20 9

/-- The sender's node: it has learned the recipient's public key and holds its own key. -/
def aliceHost : Host :=
  { storedKey := fun id => if id = bobId then some (2 :: bobKey) else none
    walletPubKey := fun id => if id = aliceId then some (2 :: aliceKey) else none
    walletKey := fun id => if id = aliceId then some aliceKey else none }

/-- The recipient's node: its wallet holds the recipient's key. -/
def bobHost : Host :=
  { storedKey := fun _ => none
    walletPubKey := fun id => if id = bobId then some (2 :: bobKey) else none
    walletKey := fun id => if id = bobId then some bobKey else none }

/-- The message "hello". -/
def helloMsg : List Nat := [104, 101, 108, 108, 111]

/-- The envelope `SecureMsgEncrypt` makes of `helloMsg` from the sender to the recipient,
at time 1000000, with the IV bytes 1..16 and the new private key of 32 bytes 5. -/
def helloEnvelope : Nat × List Nat × List Nat :=
  SecureMsgEncrypt toyCrypto packedLayout aliceHost 1000000
    [1, 2, 3, 4, 5, 6, 7, 8, 9, 10, 11, 12, 13, 14, 15, 16] (List.replicate 32 5)
    (List.replicate 104 0) aliceId bobId helloMsg

/-- A `MessageData` before any message was decrypted into it. -/
def emptyMessageData : MessageData := { timestamp := 0, sFromAddress := "", vchMessage := [] }

/-- A 104-byte header for `packedLayout` with `version[0] = 2`, the given flags byte,
timestamp, nonce and payload length, and `hash`, `iv`, `cpkR` and `mac` zero. -/
def powHeader (flags : Nat) (timestamp : Int) (nonce nPayload : Nat) : List Nat :=
  [0, 0, 0, 0, 2, 1, flags] ++ i64Bytes timestamp ++ List.replicate 81 0 ++ leBytes nonce 4
    ++ leBytes nPayload 4

/-- An engine whose store holds one message in each of the buckets 997200 and 1000800,
both buckets hashed; the wallet is locked. -/
def engineTwo : Engine :=
  { engineOne with
    store := (SecureMsgStore packedLayout sumHash 1003000 storeOne (headerAt 1003000 16)
      samplePayload true).2 }

/-- A `smsgMsg` payload: one message for the bucket 1000800.  The message carries a valid
proof of work (for `sumMac`), and its timestamp 1000001 lies in the bucket 997200. -/
def strayMsg : List Nat :=
  leBytes 1 4 ++ i64Bytes 1000800 ++ powHeader 138 1000001 1 16 ++ samplePayload2

/-- A payload of 24000 zero bytes. -/
def bigPayload : List Nat := List.replicate 24000 0

/-- The token of a message with the payload `bigPayload`. -/
def bigToken (timestamp : Int) (offset : Nat) : SecMsgToken :=
  { timestamp := timestamp, sample := List.replicate 8 0, offset := offset }

/-- An engine whose bucket 997200 holds four messages of 24000 payload bytes each, with
the timestamps 1000000 to 1000003; the bucket file holds them one after the other. -/
def bigEngine : Engine :=
  { engineOne with
    store :=
      { smsgBuckets :=
          [(997200, { timeChanged := 1000000, hash := 249, nLockCount := 0, nLockPeerId := 0,
                      setTokens := [bigToken 1000000 0, bigToken 1000001 24104,
                                    bigToken 1000002 48208, bigToken 1000003 72312] })],
        files :=
          [(997200, (headerAt 1000000 24000 ++ bigPayload)
              ++ (headerAt 1000001 24000 ++ bigPayload)
              ++ (headerAt 1000002 24000 ++ bigPayload)
              ++ (headerAt 1000003 24000 ++ bigPayload))],
        wlFiles := [] } }

/-- A `smsgWant` payload for the bucket 997200 that asks for the four messages of
`bigEngine`. -/
def bigWant : List Nat :=
  i64Bytes 997200
    ++ i64Bytes 1000000 ++ List.replicate 8 0 ++ i64Bytes 1000001 ++ List.replicate 8 0
    ++ i64Bytes 1000002 ++ List.replicate 8 0 ++ i64Bytes 1000003 ++ List.replicate 8 0

/-- A `smsgMsg` payload of 116 bytes for the bucket 997200: the count 1, the bucket time
and one 104-byte header whose `nPayload` is 16, with no payload byte behind it.  The
header carries a proof of work (for `sumMac`) that is valid over 16 zero bytes. -/
def oobMsg : List Nat :=
  leBytes 1 4 ++ i64Bytes 997200 ++ powHeader 82 1000001 1 16

/-- The recipient's engine: the wallet is unlocked and holds the recipient's address,
enabled, with the receive-anonymous flag as given. -/
def bobEngine (fReceiveAnon : Bool) : Engine :=
  { engineOne with
    walletLocked := false,
    smsgAddresses := [{ address := bobId, fReceiveEnabled := true,
                        fReceiveAnon := fReceiveAnon }] }

/-- A `smsgMsg` payload for the bucket 997200 with two envelopes of 16 zero payload
bytes each: the checksum of the first matches its digest but the digest misses the
target (invalid proof of work for `sumMac`), the second is valid. -/
def twoMsg : List Nat :=
  leBytes 2 4 ++ i64Bytes 997200
    ++ wr (powHeader 83 1000001 1 16) 0 [1, 1, 1, 1] ++ List.replicate 16 0
    ++ powHeader 90 1000002 0 16 ++ List.replicate 16 0

/-- The memory behind a 4-byte `smsgShow` payload in the concrete check: the 8 bytes that
follow the vector hold the bucket time 997200, all other bytes are zero. -/
def oobSlot (i : Nat) : Nat :=
  if 4 ≤ i ∧ i < 12 then (i64Bytes 997200).getD (i - 4) 0 else 0

/-- An envelope to the recipient whose encrypted payload is the single byte 250: the
header of `helloEnvelope` sealed again, with the keys of that envelope, over the
plaintext payload `[250]`. -/
def shortEnvelope : Nat × List Nat × List Nat :=
  encSeal toyCrypto packedLayout helloEnvelope.2.1
    (rd (toyCrypto.sha512 ((toyCrypto.ecdh (2 :: bobKey) (List.replicate 32 5)).getD [])) 0 32)
    (rd (toyCrypto.sha512 ((toyCrypto.ecdh (2 :: bobKey) (List.replicate 32 5)).getD [])) 32 32)
    [250]

/-- The memory behind the decrypted payload in the concrete check: the byte at offset 5
is 3, the bytes from offset 9 on are 65, all other bytes are zero. -/
def oobPlainA (i : Nat) : Nat :=
  if i = 5 then 3 else if 9 ≤ i then 65 else 0

/-- Two insertions into the bucket 997200 at time 1000000: the second with
`fUpdateBucket`. -/
def twoStores : List (Int × List Nat × List Nat × Bool) :=
  [(1000000, headerAt 1000000 16, samplePayload, false),
   (1000000, headerAt 1000001 16, samplePayload2, true)]

/-- Two insertions into the bucket 997200 at time 1000000, the first of an envelope with
a payload of 4 bytes. -/
def shortStores : List (Int × List Nat × List Nat × Bool) :=
  [(1000000, headerAt 1000000 4, [1, 2, 3, 4], true),
   (1000000, headerAt 1000001 16, samplePayload2, true)]

/-! ## Definitions that follow the wording of the specification -/

/-- The entries of an inventory as a sentence about it words them: one entry (slot, token
count, hash) for every bucket that is non-empty and whose `timeChanged` is not below the
peer's `lastMatched`, in key order. -/
def invAdvertised (lastMatched : Int) (buckets : List (Int × SecMsgBucket)) :
    List (Int × Nat × Nat) :=
  (buckets.filter (fun kb =>
      decide (kb.2.setTokens ≠ []) && decide (lastMatched ≤ kb.2.timeChanged))).map
    (fun kb => (kb.1, kb.2.setTokens.length, kb.2.hash))

/-- The 16 bytes of an inventory entry: slot (8), token count (4), hash (4), little
endian. -/
def invEntryBytes (x : Int × Nat × Nat) : List Nat :=
  i64Bytes x.1 ++ leBytes x.2.1 4 ++ leBytes x.2.2 4

/-- The entries (slot, token count, hash) of an inventory message in received order: `i`
entries from the offset `p` of `vchData`. -/
def invParse (vchData : List Nat) : Nat → Nat → List (Int × Nat × Nat)
  | 0, _ => []
  | i + 1, p =>
    (leI64 (rd vchData p 8), leNat (rd vchData (p + 8) 4), leNat (rd vchData (p + 12) 4))
      :: invParse vchData i (p + 16)

/-- An inventory entry is looked at when its slot is in the window
`now - SMSG_RETENTION ≤ slot ≤ now + SMSG_TIME_LEEWAY` and it is non-empty. -/
def invConsidered (now : Int) (x : Int × Nat × Nat) : Bool :=
  decide (now - SMSG_RETENTION ≤ x.1) && decide (x.1 ≤ now + SMSG_TIME_LEEWAY)
    && decide (1 ≤ x.2.1)

/-- The slots to ask for as a sentence about `smsgInv` words them: the slots of the
entries looked at whose local bucket is unlocked and has fewer tokens than advertised, or
equally many with a different hash, in received order. -/
def invWanted (now : Int) (buckets : List (Int × SecMsgBucket))
    (entries : List (Int × Nat × Nat)) : List Int :=
  (entries.filter (fun x =>
      invConsidered now x && decide ((mapAt buckets x.1).nLockCount = 0)
        && (decide ((mapAt buckets x.1).setTokens.length < x.2.1)
            || (decide ((mapAt buckets x.1).setTokens.length = x.2.1)
                && decide ((mapAt buckets x.1).hash ≠ x.2.2))))).map (fun x => x.1)

/-- Some entry looked at names a local bucket that is locked. -/
def invLocked (now : Int) (buckets : List (Int × SecMsgBucket))
    (entries : List (Int × Nat × Nat)) : Bool :=
  entries.any (fun x => invConsidered now x && decide (0 < (mapAt buckets x.1).nLockCount))

/-- The bucket map with every lock released: all buckets with `nLockCount` and
`nLockPeerId` zero, everything else as it was. -/
def unlockAll (m : List (Int × SecMsgBucket)) : List (Int × SecMsgBucket) :=
  m.map (fun kb => (kb.1, { kb.2 with nLockCount := 0, nLockPeerId := 0 }))

/-- The engine with every lock of its bucket map released. -/
def releaseLocks (e : Engine) : Engine :=
  { e with store := { e.store with smsgBuckets := unlockAll e.store.smsgBuckets } }

/-- An engine in which the bucket 997200 is locked: `engineTwo` after peer 7 reported a
token of that bucket which this node does not have (`smsgHave`), at time 1003000. -/
def engineLocked : Engine :=
  (recvHave 1003000 engineTwo 7 (haveMsg 997200 1000001)).2

/-- The entries of an inventory whose slot lies outside
`[now - SMSG_RETENTION - SMSG_TIME_LEEWAY, now + SMSG_TIME_LEEWAY]`. -/
def invOutside (now : Int) (entries : List (Int × Nat × Nat)) : List (Int × Nat × Nat) :=
  entries.filter (fun x =>
    decide (x.1 < now - SMSG_RETENTION - SMSG_TIME_LEEWAY)
      || decide (x.1 > now + SMSG_TIME_LEEWAY))

/-- The digest of `SecureMsgSetHash` for the nonce `n`, as a sentence about it words it:
HMAC-SHA256 keyed by the 4 bytes of `n` replicated eight times, over the header that
carries `n` in its nonce field (without the first 4 bytes) followed by the payload. -/
def solveDigest (L : Layout) (hmac : List Nat → List Nat → List Nat)
    (pHeader pPayload : List Nat) (n : Nat) : List Nat :=
  powDigest hmac (civOf (leBytes n 4)) (wr pHeader L.nonce (leBytes n 4)) pPayload

/-- The bytes a sequence of envelopes (header, payload) takes in a bucket file: header
and payload of each, one after the other. -/
def envBytes : List (List Nat × List Nat) → List Nat
  | [] => []
  | (hdr, payload) :: r => hdr ++ payload ++ envBytes r

/-- The tokens of a sequence of envelopes written to a file from the offset `ofs` on:
timestamp of the header, sample of the payload, offset of the header. -/
def envTokens (L : Layout) : Nat → List (List Nat × List Nat) → List SecMsgToken
  | _, [] => []
  | ofs, (hdr, payload) :: r =>
    SecMsgToken.ofPayload (leI64 (rd hdr L.timestamp 8)) payload ofs
      :: envTokens L (ofs + (hdr ++ payload).length) r

/-! # Properties -/

/-! ## Byte buffers -/

theorem length_wr (bs v : List Nat) (off : Nat) (h : off + v.length ≤ bs.length) :
    (wr bs off v).length = bs.length := by
  simp [wr]; omega

theorem getElem?_wr (bs v : List Nat) (off i : Nat) (h : off ≤ bs.length) :
    (wr bs off v)[i]? =
      if i < off then bs[i]? else if i < off + v.length then v[i - off]? else bs[i]? := by
  unfold wr
  by_cases h1 : i < off
  · simp [h1, List.append_assoc, List.getElem?_append_left, List.length_take, h,
      List.getElem?_take]
  · simp only [h1, if_false]
    have hl : (bs.take off).length = off := by simp [h]
    by_cases h2 : i < off + v.length
    · simp only [h2, if_true]
      rw [List.append_assoc, List.getElem?_append_right (by omega), hl,
        List.getElem?_append_left (by omega)]
    · simp only [h2, if_false]
      rw [List.getElem?_append_right (by simp; omega)]
      simp [List.getElem?_drop, hl]
      congr 1; omega

theorem getElem?_rd (bs : List Nat) (off len i : Nat) :
    (rd bs off len)[i]? = if i < len then bs[off + i]? else none := by
  unfold rd
  by_cases h : i < len
  · simp [h, List.getElem?_take, List.getElem?_drop]
  · simp [h, List.getElem?_take]

theorem length_rd (bs : List Nat) (off len : Nat) (h : off + len ≤ bs.length) :
    (rd bs off len).length = len := by
  simp [rd]; omega

/-- Reading back the bytes just written. -/
theorem rd_wr_same (bs v : List Nat) (off : Nat) (h : off + v.length ≤ bs.length) :
    rd (wr bs off v) off v.length = v := by
  apply List.ext_getElem?
  intro i
  rw [getElem?_rd, getElem?_wr _ _ _ _ (by omega)]
  by_cases hi : i < v.length
  · simp [hi]
  · simp [hi]; omega

/-- A read that ends before the written range sees the old bytes. -/
theorem rd_wr_before (bs v : List Nat) (off o len : Nat) (h : off ≤ bs.length)
    (hd : o + len ≤ off) : rd (wr bs off v) o len = rd bs o len := by
  apply List.ext_getElem?
  intro i
  rw [getElem?_rd, getElem?_rd, getElem?_wr _ _ _ _ h]
  by_cases hi : i < len
  · have : o + i < off := by omega
    simp [hi, this]
  · simp [hi]

/-- A read that starts behind the written range sees the old bytes. -/
theorem rd_wr_after (bs v : List Nat) (off o len : Nat) (h : off ≤ bs.length)
    (hd : off + v.length ≤ o) : rd (wr bs off v) o len = rd bs o len := by
  apply List.ext_getElem?
  intro i
  rw [getElem?_rd, getElem?_rd, getElem?_wr _ _ _ _ h]
  by_cases hi : i < len
  · have h1 : ¬ o + i < off := by omega
    have h2 : ¬ o + i < off + v.length := by omega
    simp [hi, h1, h2]
  · simp [hi]

theorem getD_wr_outside (bs v : List Nat) (off i : Nat) (h : off ≤ bs.length)
    (hd : i < off ∨ off + v.length ≤ i) : (wr bs off v).getD i 0 = bs.getD i 0 := by
  rw [List.getD_eq_getElem?_getD, List.getD_eq_getElem?_getD, getElem?_wr _ _ _ _ h]
  rcases hd with hd | hd
  · simp [hd]
  · have h1 : ¬ i < off := by omega
    have h2 : ¬ i < off + v.length := by omega
    simp [h1, h2]

theorem length_leBytes (n len : Nat) : (leBytes n len).length = len := by
  induction len generalizing n with
  | zero => rfl
  | succ k ih => simp [leBytes, ih]

/-! ## Proof of work -/

/-- What the nonce loop of `SecureMsgSetHash` establishes when it leaves with
`found = true`. -/
theorem setHashLoop_found (L : Layout) (hL : L.WF) (hmac : List Nat → List Nat → List Nat)
    (enabled : Nat → Bool) (pPayload : List Nat) (fuel : Nat) :
    ∀ (nonce : Nat) (hdr sha : List Nat), hdr.length = SMSG_HDR_LEN →
      (setHashLoop L hmac enabled pPayload fuel nonce hdr sha).found = true →
      let r := setHashLoop L hmac enabled pPayload fuel nonce hdr sha
      r.header.length = SMSG_HDR_LEN ∧
      r.header.getD L.version 0 = hdr.getD L.version 0 ∧
      r.sha256Hash = powDigest hmac (civOf (rd r.header L.nonce 4)) r.header pPayload ∧
      powTarget r.sha256Hash = true := by
  obtain ⟨h1, h2, h3, h4, h5, h6, h7, h8⟩ := hL
  induction fuel with
  | zero => intro nonce hdr sha _ hf; simp [setHashLoop] at hf
  | succ fuel ih =>
    intro nonce hdr sha hlen hf
    have hb : (leBytes nonce 4).length = 4 := length_leBytes nonce 4
    have hfit : L.nonce + (leBytes nonce 4).length ≤ hdr.length := by
      rw [hb, hlen]; omega
    have hlen1 : (wr hdr L.nonce (leBytes nonce 4)).length = SMSG_HDR_LEN := by
      rw [length_wr _ _ _ hfit, hlen]
    have hver1 : (wr hdr L.nonce (leBytes nonce 4)).getD L.version 0 = hdr.getD L.version 0 :=
      getD_wr_outside _ _ _ _ (by omega) (Or.inl (by omega))
    have hnon1 : rd (wr hdr L.nonce (leBytes nonce 4)) L.nonce 4 = leBytes nonce 4 := by
      have := rd_wr_same hdr (leBytes nonce 4) L.nonce hfit
      rwa [hb] at this
    rw [setHashLoop] at hf ⊢
    by_cases he : enabled nonce = true
    · simp only [he, Bool.not_true, Bool.false_eq_true, if_false] at hf ⊢
      by_cases ht : powTarget (powDigest hmac (civOf (leBytes nonce 4))
          (wr hdr L.nonce (leBytes nonce 4)) pPayload) = true
      · rw [if_pos ht] at hf ⊢
        refine ⟨hlen1, hver1, ?_, ht⟩
        rw [hnon1]
      · rw [if_neg ht] at hf ⊢
        by_cases hn : nonce ≥ 4294967295
        · rw [if_pos hn] at hf
          simp at hf
        · rw [if_neg hn] at hf ⊢
          obtain ⟨a, b, c, d⟩ := ih (nonce + 1) _ _ hlen1 hf
          exact ⟨a, b.trans hver1, c, d⟩
    · simp [he] at hf

/-- C9: the target test of the code accepts the digest whose byte 29 is 1 and whose
bytes 30 and 31 are 0, although bit 0 of byte 29 is set; the test as the claim words it
(all three of bits 0..2 of byte 29 zero) rejects that digest. -/
theorem C9_target_accepts_set_bit :
    powTarget (List.replicate 29 0 ++ [1, 0, 0]) = true ∧
    specTarget (List.replicate 29 0 ++ [1, 0, 0]) = false := by
  decide

set_option maxRecDepth 100000 in
/-- C10 (as stated, refuted): a header with version 2 and a payload within the size
limit whose digest does not meet the target is classified 3 (checksum mismatch), not
2 (invalid proof of work), when the first 4 digest bytes also differ from `hash`. -/
theorem C10_checksum_before_pow :
    (sampleHeader 2 0).getD packedLayout.version 0 = 2 ∧
    samplePayload.length ≤ 1000 ∧
    powTarget (powDigest sumMac (civOf (rd (sampleHeader 2 0) packedLayout.nonce 4))
      (sampleHeader 2 0) samplePayload) = false ∧
    SecureMsgValidate packedLayout 1000 sumMac (sampleHeader 2 0) samplePayload = 3 := by
  decide

/-- C10 (amended): `SecureMsgValidate` returns 4 if `version[0] != 2`; otherwise 5 if
the payload is longer than `SMSG_MAX_MSG_WORST`; otherwise 3 if the first 4 digest bytes
differ from the header's `hash`; otherwise 2 if the digest does not meet the target;
otherwise 0. -/
theorem C10_validate_classification (L : Layout) (maxWorst : Nat)
    (hmac : List Nat → List Nat → List Nat) (pHeader pPayload : List Nat) :
    SecureMsgValidate L maxWorst hmac pHeader pPayload =
      if pHeader.getD L.version 0 ≠ 2 then 4
      else if pPayload.length > maxWorst then 5
      else if rd pHeader 0 4 ≠
          rd (powDigest hmac (civOf (rd pHeader L.nonce 4)) pHeader pPayload) 0 4 then 3
      else if powTarget (powDigest hmac (civOf (rd pHeader L.nonce 4)) pHeader pPayload) = false
        then 2
      else 0 := by
  unfold SecureMsgValidate
  simp only []
  split_ifs <;> simp_all

set_option maxRecDepth 100000 in
/-- C1 (as stated, refuted): on a header whose `version[0]` is 1, `SecureMsgSetHash`
succeeds and `SecureMsgValidate` rejects the result with code 4. -/
theorem C1_solve_then_invalid_version :
    (SecureMsgSetHash packedLayout sumMac (fun _ => true) (sampleHeader 1 100) samplePayload).1
      = 0 ∧
    SecureMsgValidate packedLayout 1000 sumMac
      (SecureMsgSetHash packedLayout sumMac (fun _ => true) (sampleHeader 1 100)
        samplePayload).2 samplePayload = 4 := by
  decide

/-- C1 (amended): for a 104-byte header with `version[0] == 2` and a payload no longer
than `SMSG_MAX_MSG_WORST`, if `SecureMsgSetHash` returns 0 then `SecureMsgValidate`
returns 0 on the header it produced and the same payload. -/
theorem C1_validate_after_solve (L : Layout) (hL : L.WF) (maxWorst : Nat)
    (hmac : List Nat → List Nat → List Nat) (hmacLen : ∀ k m, (hmac k m).length = 32)
    (enabled : Nat → Bool) (pHeader pPayload hdr : List Nat)
    (hlen : pHeader.length = SMSG_HDR_LEN) (hver : pHeader.getD L.version 0 = 2)
    (hsz : pPayload.length ≤ maxWorst)
    (hsolve : SecureMsgSetHash L hmac enabled pHeader pPayload = (0, hdr)) :
    SecureMsgValidate L maxWorst hmac hdr pPayload = 0 := by
  unfold SecureMsgSetHash at hsolve
  simp only at hsolve
  split at hsolve
  · simp at hsolve
  · split at hsolve
    · simp at hsolve
    · rename_i hen hfound
      have hfound : (setHashLoop L hmac enabled pPayload 4294967296 0 pHeader []).found
          = true := by simpa using hfound
      obtain ⟨hl, hv, hs, ht⟩ :=
        setHashLoop_found L hL hmac enabled pPayload 4294967296 0 pHeader [] hlen hfound
      simp only [Prod.mk.injEq, true_and] at hsolve
      generalize setHashLoop L hmac enabled pPayload 4294967296 0 pHeader [] = r at *
      obtain ⟨h1, h2, h3, h4, h5, h6, h7, h8⟩ := hL
      have hsl : r.sha256Hash.length = 32 := by rw [hs]; exact hmacLen _ _
      have hck : (rd r.sha256Hash 0 4).length = 4 := length_rd _ _ _ (by omega)
      have hfit : 0 + (rd r.sha256Hash 0 4).length ≤ r.header.length := by
        rw [hck, hl]; simp [SMSG_HDR_LEN]
      subst hsolve
      have e1 : (wr r.header 0 (rd r.sha256Hash 0 4)).getD L.version 0 = 2 := by
        rw [getD_wr_outside _ _ _ _ (by omega) (Or.inr (by omega)), hv, hver]
      have e2 : rd (wr r.header 0 (rd r.sha256Hash 0 4)) L.nonce 4 = rd r.header L.nonce 4 :=
        rd_wr_after _ _ _ _ _ (by omega) (by omega)
      have e3 : rd (wr r.header 0 (rd r.sha256Hash 0 4)) 4 (SMSG_HDR_LEN - 4)
          = rd r.header 4 (SMSG_HDR_LEN - 4) :=
        rd_wr_after _ _ _ _ _ (by omega) (by omega)
      have e4 : rd (wr r.header 0 (rd r.sha256Hash 0 4)) 0 4 = rd r.sha256Hash 0 4 := by
        have := rd_wr_same r.header (rd r.sha256Hash 0 4) 0 hfit
        rwa [hck] at this
      have e5 : powDigest hmac (civOf (rd r.header L.nonce 4))
          (wr r.header 0 (rd r.sha256Hash 0 4)) pPayload = r.sha256Hash := by
        unfold powDigest; rw [e3]
        exact hs.symm
      unfold SecureMsgValidate
      simp only [e1, e2, e5, e4, ht]
      simp [Nat.not_lt.mpr hsz]

set_option maxRecDepth 100000 in
/-- C1 (amended), at a concrete input: the search rejects the nonces 0, 1 and 2 before it finds
the digest, and validation of the result succeeds. -/
theorem C1_validate_after_solve_witness :
    SecureMsgValidate packedLayout 1000 sumMac
      (SecureMsgSetHash packedLayout sumMac (fun _ => true) (sampleHeader 2 90)
        samplePayload).2 samplePayload = 0 :=
  C1_validate_after_solve packedLayout (by decide) 1000 sumMac
    (by intro k m; simp [sumMac]) (fun _ => true) (sampleHeader 2 90) samplePayload _
    (by decide) (by decide) (by decide) (by decide)

/-! ## Tokens and maps -/

theorem bytesLt_irrefl (a : List Nat) : bytesLt a a = false := by
  induction a with
  | nil => rfl
  | cons x xs ih => simp [bytesLt, ih]

theorem tokenLt_irrefl (t : SecMsgToken) : tokenLt t t = false := by
  simp [tokenLt, bytesLt_irrefl]

/-- The order looks at `timestamp` and `sample` only. -/
theorem tokenLt_congr (a b c d : SecMsgToken) (h1 : a.timestamp = c.timestamp)
    (h2 : a.sample = c.sample) (h3 : b.timestamp = d.timestamp) (h4 : b.sample = d.sample) :
    tokenLt a b = tokenLt c d := by
  simp [tokenLt, h1, h2, h3, h4]

theorem setFind_cons (x : SecMsgToken) (xs : List SecMsgToken) (u : SecMsgToken) :
    setFind (x :: xs) u = if tokenEquiv x u then some x else setFind xs u := by
  unfold setFind
  rw [List.find?_cons]
  cases tokenEquiv x u <;> rfl

theorem setFind_setInsert (s : List SecMsgToken) (t u : SecMsgToken)
    (h1 : t.timestamp = u.timestamp) (h2 : t.sample = u.sample) :
    (setFind (setInsert s t) u).isSome = true := by
  have e1 : ∀ x, tokenLt x u = tokenLt x t := fun x => tokenLt_congr _ _ _ _ rfl rfl h1.symm h2.symm
  have e2 : ∀ x, tokenLt u x = tokenLt t x := fun x => tokenLt_congr _ _ _ _ h1.symm h2.symm rfl rfl
  have ett : tokenEquiv t u = true := by simp [tokenEquiv, e1, e2, tokenLt_irrefl]
  induction s with
  | nil => simp [setInsert, setFind_cons, ett]
  | cons x xs ih =>
    unfold setInsert
    by_cases h : tokenLt t x = true
    · simp [h, setFind_cons, ett]
    · by_cases h' : tokenLt x t = true
      · simp only [h, h', if_true, if_false, Bool.false_eq_true]
        rw [setFind_cons]
        have : tokenEquiv x u = false := by simp [tokenEquiv, e1, e2, h']
        simp only [this, Bool.false_eq_true, if_false]
        exact ih
      · have : tokenEquiv x u = true := by
          simp only [Bool.not_eq_true] at h h'
          simp [tokenEquiv, e1, e2, h, h']
        simp [h, h', setFind_cons, this]

theorem mem_setInsert_of_mem (s : List SecMsgToken) (t x : SecMsgToken) (h : x ∈ s) :
    x ∈ setInsert s t := by
  induction s with
  | nil => simp at h
  | cons y ys ih =>
    unfold setInsert
    split_ifs
    · exact List.mem_cons_of_mem _ h
    · rcases List.mem_cons.mp h with h | h
      · simp [h]
      · exact List.mem_cons_of_mem _ (ih h)
    · exact h

theorem mem_setInsert_self (s : List SecMsgToken) (t u : SecMsgToken)
    (h1 : t.timestamp = u.timestamp) (h2 : t.sample = u.sample)
    (h : (setFind s u).isSome = false) : t ∈ setInsert s t := by
  have e1 : ∀ x, tokenLt x u = tokenLt x t := fun x => tokenLt_congr _ _ _ _ rfl rfl h1.symm h2.symm
  have e2 : ∀ x, tokenLt u x = tokenLt t x := fun x => tokenLt_congr _ _ _ _ h1.symm h2.symm rfl rfl
  induction s with
  | nil => simp [setInsert]
  | cons y ys ih =>
    unfold setInsert
    rw [setFind_cons] at h
    by_cases hy : tokenEquiv y u = true
    · simp [hy] at h
    · simp only [hy, if_false] at h
      split_ifs with ha hb
      · simp
      · exact List.mem_cons_of_mem _ (ih h)
      · exfalso
        apply hy
        simp only [Bool.not_eq_true] at ha hb
        simp [tokenEquiv, e1, e2, ha, hb]

theorem mapFind_mapSet {β : Type} (m : List (Int × β)) (k k2 : Int) (v : β) :
    mapFind (mapSet m k v) k2 = if k = k2 then some v else mapFind m k2 := by
  induction m with
  | nil => simp [mapSet, mapFind]
  | cons e r ih =>
    obtain ⟨k1, v1⟩ := e
    unfold mapSet
    by_cases h1 : k < k1
    · simp only [h1, if_true]
      by_cases h3 : k = k2
      · simp [mapFind, h3]
      · simp [mapFind, h3]
    · simp only [h1, if_false]
      by_cases h2 : k1 = k
      · subst h2
        by_cases h3 : k1 = k2
        · simp [mapFind, h3]
        · simp [mapFind, h3]
      · simp only [h2, if_false]
        by_cases h3 : k = k2
        · subst h3
          simp [mapFind, ih, h2]
        · simp [mapFind, ih, h3]

theorem mapAt_mapTouch (m : List (Int × SecMsgBucket)) (k k2 : Int) :
    mapAt (mapTouch m k) k2 = mapAt m k2 := by
  unfold mapTouch
  cases h : mapFind m k with
  | some b => rfl
  | none =>
    simp only [mapAt, mapFind_mapSet]
    split_ifs with hk
    · subst hk; simp [h]
    · rfl

theorem mapFind_mapTouch_self (m : List (Int × SecMsgBucket)) (k : Int) :
    mapFind (mapTouch m k) k = some (mapAt m k) := by
  unfold mapTouch mapAt
  cases h : mapFind m k with
  | some b => simp [h]
  | none => simp [mapFind_mapSet]

theorem mapTouch_of_isSome (m : List (Int × SecMsgBucket)) (k : Int)
    (h : (mapFind m k).isSome = true) : mapTouch m k = m := by
  unfold mapTouch
  cases h2 : mapFind m k with
  | some b => rfl
  | none => simp [h2] at h

theorem mapAt_mapSet (m : List (Int × SecMsgBucket)) (k k2 : Int) (b : SecMsgBucket) :
    mapAt (mapSet m k b) k2 = if k = k2 then b else mapAt m k2 := by
  simp only [mapAt, mapFind_mapSet]
  split_ifs <;> rfl

theorem setTokens_hashBucket (xxh32 : Nat → List Nat → Nat) (now : Int) (b : SecMsgBucket) :
    (b.hashBucket xxh32 now).setTokens = b.setTokens := by
  unfold SecMsgBucket.hashBucket
  simp only []
  split_ifs <;> rfl

/-! ## The bucket store -/

/-- What a successful `SecureMsgStore` has checked and done. -/
theorem store_ok (L : Layout) (xxh32 : Nat → List Nat → Nat) (now : Int) (s s1 : Store)
    (pHeader pPayload : List Nat) (upd : Bool)
    (h : SecureMsgStore L xxh32 now s pHeader pPayload upd = (.ok, s1)) :
    let ts := leI64 (rd pHeader L.timestamp 8)
    let file := (mapFind s.files (bucketOf ts)).getD []
    ¬ ts > now + SMSG_TIME_LEEWAY ∧ ¬ ts < now - SMSG_RETENTION ∧
    (setFind (mapAt s.smsgBuckets (bucketOf ts)).setTokens
      (SecMsgToken.ofPayload ts pPayload 0)).isSome = false ∧
    s1.files = mapSet s.files (bucketOf ts) (file ++ rd pHeader 0 SMSG_HDR_LEN ++ pPayload) ∧
    s1.wlFiles = s.wlFiles ∧
    (∃ b, s1.smsgBuckets = mapSet (mapTouch s.smsgBuckets (bucketOf ts)) (bucketOf ts) b ∧
      b.setTokens = setInsert (mapAt s.smsgBuckets (bucketOf ts)).setTokens
        (SecMsgToken.ofPayload ts pPayload file.length) ∧
      b.nLockCount = (mapAt s.smsgBuckets (bucketOf ts)).nLockCount ∧
      b.nLockPeerId = (mapAt s.smsgBuckets (bucketOf ts)).nLockPeerId) := by
  simp only []
  unfold SecureMsgStore at h
  simp only [mapAt_mapTouch] at h
  by_cases h1 : leI64 (rd pHeader L.timestamp 8) > now + SMSG_TIME_LEEWAY
  · rw [if_pos h1] at h; simp at h
  rw [if_neg h1] at h
  by_cases h2 : leI64 (rd pHeader L.timestamp 8) < now - SMSG_RETENTION
  · rw [if_pos h2] at h; simp at h
  rw [if_neg h2] at h
  by_cases h3 : (setFind (mapAt s.smsgBuckets (bucketOf (leI64 (rd pHeader L.timestamp 8)))).setTokens
      (SecMsgToken.ofPayload (leI64 (rd pHeader L.timestamp 8)) pPayload 0)).isSome = true
  · rw [if_pos h3] at h; simp at h
  rw [if_neg h3] at h
  simp only [Prod.mk.injEq, true_and] at h
  subst h
  refine ⟨h1, h2, by simpa using h3, rfl, rfl, _, rfl, ?_, ?_, ?_⟩
  · cases upd
    · rfl
    · simp [setTokens_hashBucket]
  · cases upd
    · rfl
    · simp only [if_true, SecMsgBucket.hashBucket]
      split_ifs <;> rfl
  · cases upd
    · rfl
    · simp only [if_true, SecMsgBucket.hashBucket]
      split_ifs <;> rfl

/-- `SecureMsgStore` only appends to bucket files. -/
theorem store_files_ext (L : Layout) (xxh32 : Nat → List Nat → Nat) (now : Int) (s : Store)
    (pHeader pPayload : List Nat) (upd : Bool) (k : Int) (f : List Nat)
    (h : mapFind s.files k = some f) :
    ∃ ext, mapFind (SecureMsgStore L xxh32 now s pHeader pPayload upd).2.files k
      = some (f ++ ext) := by
  unfold SecureMsgStore
  simp only []
  split_ifs <;> dsimp only <;> first
    | exact ⟨[], by simpa using h⟩
    | (rw [mapFind_mapSet]
       split_ifs with hk
       · subst hk
         exact ⟨rd pHeader 0 SMSG_HDR_LEN ++ pPayload, by simp [h, List.append_assoc]⟩
       · exact ⟨[], by simpa using h⟩)

/-- `SecureMsgStore` removes no token from any bucket. -/
theorem store_tokens_mono (L : Layout) (xxh32 : Nat → List Nat → Nat) (now : Int) (s : Store)
    (pHeader pPayload : List Nat) (upd : Bool) (k : Int) (x : SecMsgToken)
    (h : x ∈ (mapAt s.smsgBuckets k).setTokens) :
    x ∈ (mapAt (SecureMsgStore L xxh32 now s pHeader pPayload upd).2.smsgBuckets k).setTokens := by
  unfold SecureMsgStore
  simp only []
  split_ifs <;> dsimp only <;> first
    | exact h
    | (rw [mapAt_mapTouch]; exact h)
    | (simp only [mapAt_mapSet, mapAt_mapTouch]
       split_ifs with hk
       · subst hk
         first
           | exact mem_setInsert_of_mem _ _ _ h
           | (rw [setTokens_hashBucket]; exact mem_setInsert_of_mem _ _ _ h)
       · exact h)

theorem storeMany_files_ext (L : Layout) (xxh32 : Nat → List Nat → Nat)
    (ops : List (Int × List Nat × List Nat × Bool)) :
    ∀ (s : Store) (k : Int) (f : List Nat), mapFind s.files k = some f →
      ∃ ext, mapFind (storeMany L xxh32 s ops).files k = some (f ++ ext) := by
  induction ops with
  | nil => intro s k f h; exact ⟨[], by simpa [storeMany] using h⟩
  | cons op ops ih =>
    intro s k f h
    obtain ⟨now, hdr, payload, upd⟩ := op
    obtain ⟨e1, h1⟩ := store_files_ext L xxh32 now s hdr payload upd k f h
    obtain ⟨e2, h2⟩ := ih _ k _ h1
    exact ⟨e1 ++ e2, by simpa [storeMany, List.append_assoc] using h2⟩

theorem storeMany_tokens_mono (L : Layout) (xxh32 : Nat → List Nat → Nat)
    (ops : List (Int × List Nat × List Nat × Bool)) :
    ∀ (s : Store) (k : Int) (x : SecMsgToken), x ∈ (mapAt s.smsgBuckets k).setTokens →
      x ∈ (mapAt (storeMany L xxh32 s ops).smsgBuckets k).setTokens := by
  induction ops with
  | nil => intro s k x h; simpa [storeMany] using h
  | cons op ops ih =>
    intro s k x h
    obtain ⟨now, hdr, payload, upd⟩ := op
    exact ih _ k x (store_tokens_mono L xxh32 now s hdr payload upd k x h)

/-- Reading a message back from a file that holds it at the token's offset. -/
theorem retrieve_of_file (L : Layout) (s : Store) (token : SecMsgToken)
    (pre hdr payload ext : List Nat)
    (hf : mapFind s.files (bucketOf token.timestamp) = some (pre ++ hdr ++ payload ++ ext))
    (ho : token.offset = pre.length) (hlen : hdr.length = SMSG_HDR_LEN)
    (hnp : leNat (rd hdr L.nPayload 4) = payload.length) :
    SecureMsgRetrieve L s token = some (hdr ++ payload) := by
  have e1 : rd (pre ++ hdr ++ payload ++ ext) token.offset SMSG_HDR_LEN = hdr := by
    unfold rd
    rw [ho, List.append_assoc, List.append_assoc, List.drop_left, ← hlen, List.take_left]
  have e2 : rd (pre ++ hdr ++ payload ++ ext) (token.offset + SMSG_HDR_LEN) payload.length
      = payload := by
    unfold rd
    have : token.offset + SMSG_HDR_LEN = (pre ++ hdr).length := by simp [ho, hlen]
    rw [this, List.append_assoc (pre ++ hdr), List.drop_left, List.take_left]
  unfold SecureMsgRetrieve
  simp only [hf, e1, hlen, hnp, e2, ne_eq, not_true_eq_false, if_false]

/-- C2: when `SecureMsgStore` succeeds on an envelope whose header field `nPayload` is the
length of its payload, the token it recorded (timestamp, sample, the file length before
the write as offset) is in the bucket's token set, `SecureMsgRetrieve` with that token
returns exactly header ‖ payload, and it still does after any further calls of
`SecureMsgStore`. -/
theorem C2_retrieve_after_store (L : Layout) (xxh32 : Nat → List Nat → Nat) (now : Int)
    (s s1 : Store) (pHeader pPayload : List Nat) (upd : Bool)
    (ops : List (Int × List Nat × List Nat × Bool))
    (hlen : pHeader.length = SMSG_HDR_LEN)
    (hnp : leNat (rd pHeader L.nPayload 4) = pPayload.length)
    (hst : SecureMsgStore L xxh32 now s pHeader pPayload upd = (.ok, s1)) :
    let ts := leI64 (rd pHeader L.timestamp 8)
    let token := SecMsgToken.ofPayload ts pPayload
      ((mapFind s.files (bucketOf ts)).getD []).length
    token ∈ (mapAt s1.smsgBuckets (bucketOf ts)).setTokens ∧
    SecureMsgRetrieve L s1 token = some (pHeader ++ pPayload) ∧
    token ∈ (mapAt (storeMany L xxh32 s1 ops).smsgBuckets (bucketOf ts)).setTokens ∧
    SecureMsgRetrieve L (storeMany L xxh32 s1 ops) token = some (pHeader ++ pPayload) := by
  intro ts token
  obtain ⟨_, _, hnot, hfiles, _, b, hb, hbt, _, _⟩ := store_ok L xxh32 now s s1 pHeader pPayload upd hst
  have hhdr : rd pHeader 0 SMSG_HDR_LEN = pHeader := by
    unfold rd; rw [List.drop_zero, ← hlen, List.take_length]
  have hmem : token ∈ (mapAt s1.smsgBuckets (bucketOf ts)).setTokens := by
    rw [hb, mapAt_mapSet, if_pos rfl, hbt]
    exact mem_setInsert_self _ _ _ rfl rfl hnot
  have hfile : mapFind s1.files (bucketOf ts)
      = some ((mapFind s.files (bucketOf ts)).getD [] ++ pHeader ++ pPayload ++ []) := by
    rw [hfiles, mapFind_mapSet, if_pos rfl, hhdr, List.append_nil]
  refine ⟨hmem, ?_, storeMany_tokens_mono L xxh32 ops s1 _ _ hmem, ?_⟩
  · exact retrieve_of_file L s1 token _ pHeader pPayload [] hfile rfl hlen hnp
  · obtain ⟨ext, hext⟩ := storeMany_files_ext L xxh32 ops s1 _ _ hfile
    rw [List.append_nil] at hext
    exact retrieve_of_file L _ token _ pHeader pPayload ext hext rfl hlen hnp

/-- C3: after a successful `SecureMsgStore` of an envelope, storing the same envelope
again while its timestamp is inside the time window takes the "Already have message"
return (code 1) and leaves the whole store as it was: bucket map (token sets, hashes,
`timeChanged`, locks) and files. -/
theorem C3_second_insert_duplicate (L : Layout) (xxh32 : Nat → List Nat → Nat)
    (now now2 : Int) (s s1 : Store) (pHeader pPayload : List Nat) (upd upd2 : Bool)
    (hst : SecureMsgStore L xxh32 now s pHeader pPayload upd = (.ok, s1))
    (hw1 : leI64 (rd pHeader L.timestamp 8) ≤ now2 + SMSG_TIME_LEEWAY)
    (hw2 : now2 - SMSG_RETENTION ≤ leI64 (rd pHeader L.timestamp 8)) :
    SecureMsgStore L xxh32 now2 s1 pHeader pPayload upd2 = (.alreadyHave, s1) ∧
    StoreResult.alreadyHave.code = 1 := by
  obtain ⟨_, _, _, _, _, b, hb, hbt, _, _⟩ := store_ok L xxh32 now s s1 pHeader pPayload upd hst
  have hfind : mapFind s1.smsgBuckets (bucketOf (leI64 (rd pHeader L.timestamp 8))) = some b := by
    rw [hb, mapFind_mapSet, if_pos rfl]
  have htouch : mapTouch s1.smsgBuckets (bucketOf (leI64 (rd pHeader L.timestamp 8)))
      = s1.smsgBuckets := mapTouch_of_isSome _ _ (by simp [hfind])
  have hat : (mapAt s1.smsgBuckets (bucketOf (leI64 (rd pHeader L.timestamp 8)))).setTokens
      = setInsert (mapAt s.smsgBuckets (bucketOf (leI64 (rd pHeader L.timestamp 8)))).setTokens
        (SecMsgToken.ofPayload (leI64 (rd pHeader L.timestamp 8)) pPayload
          ((mapFind s.files (bucketOf (leI64 (rd pHeader L.timestamp 8)))).getD []).length) := by
    simp [mapAt, hfind, hbt]
  refine ⟨?_, rfl⟩
  unfold SecureMsgStore
  simp only [htouch, hat]
  have hfound := setFind_setInsert
    (mapAt s.smsgBuckets (bucketOf (leI64 (rd pHeader L.timestamp 8)))).setTokens
    (SecMsgToken.ofPayload (leI64 (rd pHeader L.timestamp 8)) pPayload
      ((mapFind s.files (bucketOf (leI64 (rd pHeader L.timestamp 8)))).getD []).length)
    (SecMsgToken.ofPayload (leI64 (rd pHeader L.timestamp 8)) pPayload 0) rfl rfl
  rw [if_neg (by omega), if_neg (by omega), if_pos hfound]

/-- C2 at a concrete input: a message stored in the empty store is read back, also after
a second message was stored in the same bucket. -/
theorem C2_retrieve_after_store_witness :
    SecureMsgRetrieve packedLayout
      (storeMany packedLayout sumHash storeOne
        [(1000005, headerAt 1000001 16, samplePayload2, false)])
      (SecMsgToken.ofPayload (leI64 (rd (headerAt 1000000 16) packedLayout.timestamp 8))
        samplePayload
        ((mapFind emptyStore.files
          (bucketOf (leI64 (rd (headerAt 1000000 16) packedLayout.timestamp 8)))).getD []).length)
      = some (headerAt 1000000 16 ++ samplePayload) :=
  (C2_retrieve_after_store packedLayout sumHash 1000000 emptyStore storeOne
    (headerAt 1000000 16) samplePayload true
    [(1000005, headerAt 1000001 16, samplePayload2, false)]
    (by decide) (by decide) (by decide)).2.2.2

/-- C3 at a concrete input: the message of `storeOne` is stored a second time, 100
seconds later. -/
theorem C3_second_insert_duplicate_witness :
    SecureMsgStore packedLayout sumHash 1000100 storeOne (headerAt 1000000 16) samplePayload
      true = (.alreadyHave, storeOne) :=
  (C3_second_insert_duplicate packedLayout sumHash 1000000 1000100 emptyStore storeOne
    (headerAt 1000000 16) samplePayload true true (by decide) (by decide) (by decide)).1

/-! ## The bucket management thread -/

theorem mapFind_sweepBuckets_old (cutoff : Int) (m : List (Int × SecMsgBucket)) (k : Int)
    (h : k < cutoff) : mapFind (sweepBuckets cutoff m).1 k = none := by
  induction m with
  | nil => rfl
  | cons e r ih =>
    obtain ⟨k1, b⟩ := e
    unfold sweepBuckets
    simp only []
    have hne : k1 < cutoff ∨ ¬ k1 = k := by omega
    split_ifs <;> first
      | exact ih
      | (simp only [mapFind]; rw [if_neg (by omega)]; exact ih)

theorem mapFind_sweepBuckets_keep (cutoff : Int) (m : List (Int × SecMsgBucket)) (k : Int)
    (h : ¬ k < cutoff) :
    mapFind (sweepBuckets cutoff m).1 k = (mapFind m k).map tickLock := by
  induction m with
  | nil => rfl
  | cons e r ih =>
    obtain ⟨k1, b⟩ := e
    unfold sweepBuckets
    simp only []
    by_cases hk : k1 = k
    · subst hk
      simp only [h, if_false, mapFind, if_true, Option.map_some', tickLock]
      split_ifs <;> simp [mapFind]
    · simp only [mapFind, hk, if_false]
      split_ifs <;> simp only [mapFind, hk, if_false, ih]

theorem mapFind_sweepFiles (cutoff : Int) (buckets : List (Int × SecMsgBucket))
    (files : List (Int × List Nat)) (k : Int) :
    mapFind (sweepFiles cutoff buckets files) k =
      if k < cutoff ∧ (mapFind buckets k).isSome = true then none else mapFind files k := by
  unfold sweepFiles
  induction files with
  | nil => simp [mapFind]
  | cons f r ih =>
    obtain ⟨k1, c⟩ := f
    rw [List.filter_cons]
    by_cases hk : k1 = k
    · subst hk
      by_cases hc : k1 < cutoff ∧ (mapFind buckets k1).isSome = true
      · simp only [hc, and_self, decide_True, Bool.and_self, Bool.not_true, Bool.false_eq_true,
          if_false, if_true] at ih ⊢
        exact ih
      · have : (!(decide (k1 < cutoff) && (mapFind buckets k1).isSome)) = true := by
          by_cases h1 : k1 < cutoff <;> simp_all
        simp only [this, if_true, mapFind, hc, if_false]
    · split_ifs <;> simp_all [mapFind]

/-- C7: after one pass of the sweep at time `now`, the bucket map has no key below
`now - 172800`; the files `<b>_01.dat` and `<b>_01_wl.dat` of every bucket erased are
absent; every bucket with a key of at least `now - 172800` is still in the map with its
token set, hash and `timeChanged` unchanged. -/
theorem C7_sweep_expires (now : Int) (e : Engine) :
    (∀ k, k < now - SMSG_RETENTION → mapFind (sweepPass now e).store.smsgBuckets k = none) ∧
    (∀ k, k < now - SMSG_RETENTION → (mapFind e.store.smsgBuckets k).isSome = true →
      mapFind (sweepPass now e).store.files k = none ∧
      mapFind (sweepPass now e).store.wlFiles k = none) ∧
    (∀ k b, now - SMSG_RETENTION ≤ k → mapFind e.store.smsgBuckets k = some b →
      ∃ b1, mapFind (sweepPass now e).store.smsgBuckets k = some b1 ∧
        b1.setTokens = b.setTokens ∧ b1.hash = b.hash ∧ b1.timeChanged = b.timeChanged) := by
  refine ⟨fun k hk => ?_, fun k hk hb => ?_, fun k b hk hb => ?_⟩
  · exact mapFind_sweepBuckets_old _ _ _ hk
  · unfold sweepPass
    simp only [mapFind_sweepFiles]
    simp [hk, hb]
  · refine ⟨tickLock b, ?_, ?_⟩
    · unfold sweepPass
      simp only []
      rw [mapFind_sweepBuckets_keep _ _ _ (by omega), hb]
      rfl
    · unfold tickLock
      split_ifs <;> exact ⟨rfl, rfl, rfl⟩

/-- C7 at a concrete input: 172801 seconds after the bucket of `engineOne` began, a pass
erases the bucket and removes both of its files; one second earlier the bucket stays. -/
theorem C7_sweep_expires_witness :
    mapFind (sweepPass 1170001 engineOne).store.smsgBuckets 997200 = none ∧
    (mapFind (sweepPass 1170001 engineOne).store.files 997200 = none ∧
      mapFind (sweepPass 1170001 engineOne).store.wlFiles 997200 = none) ∧
    (∃ b1, mapFind (sweepPass 1170000 engineOne).store.smsgBuckets 997200 = some b1 ∧
      b1.setTokens = (mapAt engineOne.store.smsgBuckets 997200).setTokens ∧
      b1.hash = (mapAt engineOne.store.smsgBuckets 997200).hash ∧
      b1.timeChanged = (mapAt engineOne.store.smsgBuckets 997200).timeChanged) :=
  ⟨(C7_sweep_expires 1170001 engineOne).1 997200 (by decide),
   (C7_sweep_expires 1170001 engineOne).2.1 997200 (by decide) (by decide),
   (C7_sweep_expires 1170000 engineOne).2.2 997200 _ (by decide) (by decide)⟩

theorem vrd_eq_rd (v : List Nat) (oob : Nat → Nat) (off len : Nat) (h : off + len ≤ v.length) :
    vrd v oob off len = rd v off len := by
  apply List.ext_getElem?
  intro i
  rw [getElem?_rd]
  unfold vrd
  by_cases hi : i < len
  · have h1 : off + i < v.length := by omega
    simp [hi, h1, List.getD_eq_getElem?_getD, List.getElem?_eq_getElem h1]
  · simp [hi]
    omega

theorem leNat_leBytes (len n : Nat) (h : n < 256 ^ len) : leNat (leBytes n len) = n := by
  induction len generalizing n with
  | zero => simp at h; simp [leBytes, leNat, h]
  | succ k ih =>
    have : n / 256 < 256 ^ k := by
      rw [Nat.div_lt_iff_lt_mul (by norm_num)]
      rw [pow_succ] at h; exact h
    simp only [leBytes, leNat, ih _ this]
    omega

theorem rd_wr_disj (bs v : List Nat) (off o len : Nat) (h : off ≤ bs.length)
    (hd : o + len ≤ off ∨ off + v.length ≤ o) : rd (wr bs off v) o len = rd bs o len := by
  rcases hd with hd | hd
  · exact rd_wr_before _ _ _ _ _ h hd
  · exact rd_wr_after _ _ _ _ _ h hd

theorem rd_full (bs : List Nat) : rd bs 0 bs.length = bs := by
  simp [rd]

theorem getD_wr_head (bs v : List Nat) (off a : Nat) (h : off + (a :: v).length ≤ bs.length) :
    (wr bs off (a :: v)).getD off 0 = a := by
  rw [List.getD_eq_getElem?_getD, getElem?_wr _ _ _ _ (by omega)]
  simp

/-- The payload of an anonymous message is taken apart again by `decPayload`. -/
theorem decPayload_encPayload_anon (C : Crypto) (hC : C.Laws) (S : Host) (oob : Nat → Nat)
    (addressFrom message msgData vp : List Nat) (msg1 : MessageData)
    (hlimit : message.length < 4294967296) (hdl : msgData.length < 2147483648)
    (hanon : addressFrom.all (fun b => b == 0) = true)
    (hdata : encMsgData C message = some msgData)
    (hp : encPayload C S addressFrom message msgData = some vp) :
    decPayload C oob msg1 vp =
      (0, { msg1 with vchMessage := message ++ [0], sFromAddress := "anon" }) := by
  unfold encPayload at hp
  rw [if_pos hanon] at hp
  simp only [Option.some.injEq] at hp
  have hl0 : (List.replicate (9 + msgData.length) 0).length = 9 + msgData.length := by simp
  have hl1 : (wr (List.replicate (9 + msgData.length) 0) 9 msgData).length = 9 + msgData.length := by
    rw [length_wr _ _ _ (by rw [hl0]), hl0]
  have hl2 : (wr (wr (List.replicate (9 + msgData.length) 0) 9 msgData) 0 [250]).length
      = 9 + msgData.length := by
    rw [length_wr _ _ _ (by rw [hl1]; simp only [List.length_cons, List.length_nil]; omega), hl1]
  have hlb : (leBytes message.length 4).length = 4 := length_leBytes _ _
  have hl3 : vp.length = 9 + msgData.length := by
    rw [← hp, length_wr _ _ _ (by rw [hl2, hlb]; omega), hl2]
  have r0 : vrd vp oob 0 1 = [250] := by
    rw [vrd_eq_rd _ _ _ _ (by omega), ← hp, rd_wr_disj _ _ _ _ _ (by omega) (Or.inl (by omega))]
    have := rd_wr_same (wr (List.replicate (9 + msgData.length) 0) 9 msgData) [250] 0
      (by rw [hl1]; simp only [List.length_cons, List.length_nil]; omega)
    simpa using this
  have r5 : vrd vp oob 5 4 = leBytes message.length 4 := by
    rw [vrd_eq_rd _ _ _ _ (by omega), ← hp]
    have := rd_wr_same (wr (wr (List.replicate (9 + msgData.length) 0) 9 msgData) 0 [250])
      (leBytes message.length 4) 5 (by rw [hl2, hlb]; omega)
    rwa [hlb] at this
  have r9 : vrd vp oob 9 msgData.length = msgData := by
    rw [vrd_eq_rd _ _ _ _ (by omega), ← hp,
      rd_wr_disj _ _ _ _ _ (by omega) (Or.inr (by rw [hlb])),
      rd_wr_disj _ _ _ _ _ (by omega) (Or.inr (by simp))]
    exact rd_wr_same _ _ _ (by rw [hl0])
  have hlen : leNat (leBytes message.length 4) = message.length :=
    leNat_leBytes 4 _ (by norm_num; omega)
  have hld : (vp.length + 4294967296 - 9) % 4294967296 = msgData.length := by
    rw [hl3]; omega
  unfold decPayload
  simp only [r0, decide_True, if_true, r5, hlen, hld, Nat.reduceSub]
  unfold encMsgData at hdata
  by_cases hbig : message.length > 128
  · rw [if_pos hbig] at hdata
    simp only [hbig, if_true, r9, hC.lz4_inv _ _ hdata]
  · rw [if_neg hbig] at hdata
    simp only [Option.some.injEq] at hdata
    subst hdata
    simp only [hbig, if_false, r9]

/-- The payload of a signed message is taken apart again by `decPayload`. -/
theorem decPayload_encPayload_named (C : Crypto) (hC : C.Laws) (S : Host) (oob : Nat → Nat)
    (addressFrom message msgData vp : List Nat) (msg1 : MessageData)
    (hlimit : message.length < 4294967296) (hdl : msgData.length < 2147483648)
    (hnamed : addressFrom.all (fun b => b == 0) = false)
    (hfrom : addressFrom.length = 20) (hver : C.addrVersion ≠ 250)
    (hwallet : ∀ kf, S.walletKey addressFrom = some kf →
      C.validPriv kf = true ∧ C.keyId (C.pubOf kf) = addressFrom)
    (hdata : encMsgData C message = some msgData)
    (hp : encPayload C S addressFrom message msgData = some vp) :
    decPayload C oob msg1 vp =
      (0, { msg1 with vchMessage := message ++ [0],
                      sFromAddress := C.addrToString addressFrom }) := by
  unfold encPayload at hp
  rw [if_neg (by simp [hnamed])] at hp
  cases hkf : S.walletKey addressFrom with
  | none => simp [hkf] at hp
  | some keyFrom =>
    obtain ⟨hvalid, hid⟩ := hwallet keyFrom hkf
    simp only [hkf, Option.some.injEq] at hp
    have h90 : SMSG_PL_HDR_LEN = 90 := rfl
    rw [h90] at hp
    have haddr : rd addressFrom 0 20 = addressFrom := by rw [← hfrom]; exact rd_full _
    rw [haddr] at hp
    generalize hsig : C.signCompact keyFrom (C.hash256 message) = sig at hp
    have hsl : sig.length = 65 := by rw [← hsig]; exact hC.sig_len _ _
    have hlb : (leBytes message.length 4).length = 4 := length_leBytes _ _
    have hl0 : (List.replicate (90 + msgData.length) 0).length = 90 + msgData.length := by simp
    have hl1 : (wr (List.replicate (90 + msgData.length) 0) 90 msgData).length
        = 90 + msgData.length := by
      rw [length_wr _ _ _ (by rw [hl0]), hl0]
    have hl2 : (wr (wr (List.replicate (90 + msgData.length) 0) 90 msgData) 0
        [C.addrVersion]).length = 90 + msgData.length := by
      rw [length_wr _ _ _ (by rw [hl1]; simp only [List.length_cons, List.length_nil]; omega), hl1]
    have hl3 : (wr (wr (wr (List.replicate (90 + msgData.length) 0) 90 msgData) 0
        [C.addrVersion]) 1 addressFrom).length = 90 + msgData.length := by
      rw [length_wr _ _ _ (by rw [hl2, hfrom]; omega), hl2]
    have hl4 : (wr (wr (wr (wr (List.replicate (90 + msgData.length) 0) 90 msgData) 0
        [C.addrVersion]) 1 addressFrom) (1 + 20) sig).length = 90 + msgData.length := by
      rw [length_wr _ _ _ (by rw [hl3, hsl]; omega), hl3]
    have hl5 : vp.length = 90 + msgData.length := by
      rw [← hp, length_wr _ _ _ (by rw [hl4, hlb]; omega), hl4]
    have r0 : vrd vp oob 0 1 = [C.addrVersion] := by
      rw [vrd_eq_rd _ _ _ _ (by omega), ← hp,
        rd_wr_disj _ _ _ _ _ (by omega) (Or.inl (by omega)),
        rd_wr_disj _ _ _ _ _ (by omega) (Or.inl (by omega)),
        rd_wr_disj _ _ _ _ _ (by omega) (Or.inl (by omega))]
      have := rd_wr_same (wr (List.replicate (90 + msgData.length) 0) 90 msgData)
        [C.addrVersion] 0 (by rw [hl1]; simp only [List.length_cons, List.length_nil]; omega)
      simpa using this
    have r1 : vrd vp oob 1 20 = addressFrom := by
      rw [vrd_eq_rd _ _ _ _ (by omega), ← hp,
        rd_wr_disj _ _ _ _ _ (by omega) (Or.inl (by omega)),
        rd_wr_disj _ _ _ _ _ (by omega) (Or.inl (by omega))]
      have := rd_wr_same (wr (wr (List.replicate (90 + msgData.length) 0) 90 msgData) 0
        [C.addrVersion]) addressFrom 1 (by rw [hl2, hfrom]; omega)
      rwa [hfrom] at this
    have r21 : vrd vp oob (1 + 20) 65 = sig := by
      rw [vrd_eq_rd _ _ _ _ (by omega), ← hp,
        rd_wr_disj _ _ _ _ _ (by omega) (Or.inl (by omega))]
      have := rd_wr_same (wr (wr (wr (List.replicate (90 + msgData.length) 0) 90 msgData) 0
        [C.addrVersion]) 1 addressFrom) sig (1 + 20) (by rw [hl3, hsl]; omega)
      rwa [hsl] at this
    have r86 : vrd vp oob 86 4 = leBytes message.length 4 := by
      rw [vrd_eq_rd _ _ _ _ (by omega), ← hp]
      have := rd_wr_same (wr (wr (wr (wr (List.replicate (90 + msgData.length) 0) 90 msgData) 0
        [C.addrVersion]) 1 addressFrom) (1 + 20) sig) (leBytes message.length 4) (1 + 20 + 65)
        (by rw [hl4, hlb]; omega)
      rwa [hlb] at this
    have r90 : vrd vp oob 90 msgData.length = msgData := by
      rw [vrd_eq_rd _ _ _ _ (by omega), ← hp,
        rd_wr_disj _ _ _ _ _ (by omega) (Or.inr (by omega)),
        rd_wr_disj _ _ _ _ _ (by omega) (Or.inr (by omega)),
        rd_wr_disj _ _ _ _ _ (by omega) (Or.inr (by omega)),
        rd_wr_disj _ _ _ _ _ (by omega) (Or.inr (by simp))]
      exact rd_wr_same _ _ _ (by rw [hl0])
    have hlen : leNat (leBytes message.length 4) = message.length :=
      leNat_leBytes 4 _ (by norm_num; omega)
    have hld : (vp.length + 4294967296 - 90) % 4294967296 = msgData.length := by
      rw [hl5]; omega
    have hnot : ¬ ([C.addrVersion] = [250]) := by simpa using hver
    unfold decPayload
    simp only [r0, hnot, decide_False, Bool.false_eq_true, if_false, h90, Nat.reduceSub, r86,
      hlen, hld, r1, r21]
    have hrec : C.recoverCompact (C.hash256 message) sig = some (C.pubOf keyFrom) := by
      rw [← hsig]; exact hC.sign_recover _ _ hvalid
    unfold encMsgData at hdata
    by_cases hbig : message.length > 128
    · rw [if_pos hbig] at hdata
      simp only [hbig, if_true, r90, hC.lz4_inv _ _ hdata, hrec, hid, ne_eq, not_true_eq_false,
        if_false]
    · rw [if_neg hbig] at hdata
      simp only [Option.some.injEq] at hdata
      subst hdata
      simp only [hbig, if_false, r90, hrec, hid, ne_eq, not_true_eq_false]

/-- The header fields `SecureMsgDecrypt` reads, in the header `SecureMsgEncrypt` leaves. -/
theorem encrypt_header_fields (L : Layout) (hL : L.WF) (smsg ts iv cpkR np mac : List Nat)
    (hsmsg : smsg.length = SMSG_HDR_LEN) (hts : ts.length = 8) (hiv : iv.length = 16)
    (hcpk : cpkR.length = 33) (hnp : np.length = 4) (hmac : mac.length = 32) :
    rd (wr (wr (wr (wr smsg L.version [2, 1]) L.timestamp ts) L.iv iv) L.cpkR cpkR) L.iv 16 = iv ∧
    rd (wr (wr (wr (wr (wr smsg L.version [2, 1]) L.timestamp ts) L.iv iv) L.cpkR cpkR)
      L.nPayload np) L.timestamp 8 = ts ∧
    rd (wr (wr (wr (wr (wr smsg L.version [2, 1]) L.timestamp ts) L.iv iv) L.cpkR cpkR)
      L.nPayload np) L.iv 16 = iv ∧
    (wr (wr (wr (wr (wr (wr smsg L.version [2, 1]) L.timestamp ts) L.iv iv) L.cpkR cpkR)
      L.nPayload np) L.mac mac).getD L.version 0 = 2 ∧
    rd (wr (wr (wr (wr (wr (wr smsg L.version [2, 1]) L.timestamp ts) L.iv iv) L.cpkR cpkR)
      L.nPayload np) L.mac mac) L.timestamp 8 = ts ∧
    rd (wr (wr (wr (wr (wr (wr smsg L.version [2, 1]) L.timestamp ts) L.iv iv) L.cpkR cpkR)
      L.nPayload np) L.mac mac) L.iv 16 = iv ∧
    rd (wr (wr (wr (wr (wr (wr smsg L.version [2, 1]) L.timestamp ts) L.iv iv) L.cpkR cpkR)
      L.nPayload np) L.mac mac) L.cpkR 33 = cpkR ∧
    rd (wr (wr (wr (wr (wr (wr smsg L.version [2, 1]) L.timestamp ts) L.iv iv) L.cpkR cpkR)
      L.nPayload np) L.mac mac) L.mac 32 = mac := by
  obtain ⟨w1, w2, w3, w4, w5, w6, w7, w8⟩ := hL
  have h104 : SMSG_HDR_LEN = 104 := rfl
  rw [h104] at w8 hsmsg
  have hv : ([2, 1] : List Nat).length = 2 := rfl
  generalize e1 : wr smsg L.version [2, 1] = h1
  have l1 : h1.length = 104 := by rw [← e1, length_wr _ _ _ (by rw [hv]; omega), hsmsg]
  generalize e2 : wr h1 L.timestamp ts = h2
  have l2 : h2.length = 104 := by rw [← e2, length_wr _ _ _ (by omega), l1]
  generalize e3 : wr h2 L.iv iv = h3
  have l3 : h3.length = 104 := by rw [← e3, length_wr _ _ _ (by omega), l2]
  generalize e4 : wr h3 L.cpkR cpkR = h4
  have l4 : h4.length = 104 := by rw [← e4, length_wr _ _ _ (by omega), l3]
  generalize e5 : wr h4 L.nPayload np = h5
  have l5 : h5.length = 104 := by rw [← e5, length_wr _ _ _ (by omega), l4]
  have a3 : rd h3 L.iv 16 = iv := by
    rw [← e3]; have := rd_wr_same h2 iv L.iv (by omega); rwa [hiv] at this
  have a2 : rd h2 L.timestamp 8 = ts := by
    rw [← e2]; have := rd_wr_same h1 ts L.timestamp (by omega); rwa [hts] at this
  have a4 : rd h4 L.cpkR 33 = cpkR := by
    rw [← e4]; have := rd_wr_same h3 cpkR L.cpkR (by omega); rwa [hcpk] at this
  have b4 : rd h4 L.iv 16 = iv := by
    rw [← e4, rd_wr_disj _ _ _ _ _ (by omega) (Or.inl (by omega)), a3]
  have b3t : rd h3 L.timestamp 8 = ts := by
    rw [← e3, rd_wr_disj _ _ _ _ _ (by omega) (Or.inl (by omega)), a2]
  have b4t : rd h4 L.timestamp 8 = ts := by
    rw [← e4, rd_wr_disj _ _ _ _ _ (by omega) (Or.inl (by omega)), b3t]
  have b5t : rd h5 L.timestamp 8 = ts := by
    rw [← e5, rd_wr_disj _ _ _ _ _ (by omega) (Or.inl (by omega)), b4t]
  have b5i : rd h5 L.iv 16 = iv := by
    rw [← e5, rd_wr_disj _ _ _ _ _ (by omega) (Or.inl (by omega)), b4]
  have b5c : rd h5 L.cpkR 33 = cpkR := by
    rw [← e5, rd_wr_disj _ _ _ _ _ (by omega) (Or.inl (by omega)), a4]
  have v1 : h1.getD L.version 0 = 2 := by
    rw [← e1]; exact getD_wr_head smsg [1] L.version 2 (by simp; omega)
  have v5 : h5.getD L.version 0 = 2 := by
    rw [← e5, getD_wr_outside _ _ _ _ (by omega) (Or.inl (by omega)),
      ← e4, getD_wr_outside _ _ _ _ (by omega) (Or.inl (by omega)),
      ← e3, getD_wr_outside _ _ _ _ (by omega) (Or.inl (by omega)),
      ← e2, getD_wr_outside _ _ _ _ (by omega) (Or.inl (by omega)), v1]
  refine ⟨b4, b5t, b5i, ?_, ?_, ?_, ?_, ?_⟩
  · rw [getD_wr_outside _ _ _ _ (by omega) (Or.inl (by omega)), v5]
  · rw [rd_wr_disj _ _ _ _ _ (by omega) (Or.inl (by omega)), b5t]
  · rw [rd_wr_disj _ _ _ _ _ (by omega) (Or.inl (by omega)), b5i]
  · rw [rd_wr_disj _ _ _ _ _ (by omega) (Or.inl (by omega)), b5c]
  · have := rd_wr_same h5 mac L.mac (by omega); rwa [hmac] at this

theorem length_i64Bytes (i : Int) : (i64Bytes i).length = 8 := length_leBytes _ _

theorem encMsgData_length (C : Crypto) (hC : C.Laws) (message msgData : List Nat)
    (hlimit : message.length < 2147483648) (h : encMsgData C message = some msgData) :
    msgData.length < 2147483648 := by
  unfold encMsgData at h
  split_ifs at h
  · exact hC.lz4_len _ _ h
  · simp only [Option.some.injEq] at h
    subst h; exact hlimit

/-- C4: with the primitives obeying their inverse laws, for a recipient whose private
key `k` is in the recipient's wallet and whose public key is the one the sender finds,
and for a sender that is absent (null key id) or whose wallet key belongs to its key id:
when `SecureMsgEncrypt` returns 0, `SecureMsgDecrypt` (`fTestOnly = false`) with the
recipient's key returns 0 on the envelope, the message buffer holds exactly the
plaintext (followed by the terminating zero byte the code appends), and the sender is
the sender's address, or "anon" when the sender was absent. -/
theorem C4_decrypt_encrypt (C : Crypto) (hC : C.Laws) (L : Layout) (hL : L.WF) (S R : Host)
    (oob : Nat → Nat) (now : Int)
    (iv keyR smsg addressFrom addressTo message hdr payload k : List Nat) (msg0 : MessageData)
    (hsmsg : smsg.length = SMSG_HDR_LEN) (hiv : iv.length = 16)
    (hkeyR : C.validPriv keyR = true)
    (hk : R.walletKey addressTo = some k) (hkv : C.validPriv k = true)
    (hpub : (S.storedKey addressTo).orElse (fun _ => SecureMsgGetLocalKey S addressTo)
      = some (C.pubOf k))
    (hfrom : addressFrom.length = 20) (hver : C.addrVersion ≠ 250)
    (hwallet : ∀ kf, S.walletKey addressFrom = some kf →
      C.validPriv kf = true ∧ C.keyId (C.pubOf kf) = addressFrom)
    (henc : SecureMsgEncrypt C L S now iv keyR smsg addressFrom addressTo message
      = (0, hdr, payload)) :
    SecureMsgDecrypt C L R oob false addressTo hdr payload msg0 =
      (0, { timestamp := leI64 (i64Bytes now),
            sFromAddress := if addressFrom.all (fun b => b == 0) then "anon"
              else C.addrToString addressFrom,
            vchMessage := message ++ [0] }) := by
  unfold SecureMsgEncrypt at henc
  simp only [hpub] at henc
  by_cases hlim : message.length >
      (if addressFrom.all (fun b => b == 0) = true then SMSG_MAX_AMSG_BYTES
        else SMSG_MAX_MSG_BYTES)
  · rw [if_pos hlim] at henc; simp at henc
  rw [if_neg hlim] at henc
  have hmlen : message.length < 2147483648 := by
    have h1 : SMSG_MAX_AMSG_BYTES = 24000 := rfl
    have h2 : SMSG_MAX_MSG_BYTES = 4096 := rfl
    split_ifs at hlim <;> omega
  have hparse : C.pubkeyParse (C.pubOf k) = true := hC.parse_pub k hkv
  simp only [hparse, Bool.not_true, Bool.false_eq_true, if_false] at henc
  cases hP : C.ecdh (C.pubOf k) keyR with
  | none => simp [hP] at henc
  | some vchP =>
    simp only [hP] at henc
    by_cases h33 : (C.pubOf keyR).length ≠ 33
    · rw [if_pos h33] at henc; simp at henc
    rw [if_neg h33] at henc
    have h33 : (C.pubOf keyR).length = 33 := by simpa using h33
    cases hmd : encMsgData C message with
    | none => simp [hmd] at henc
    | some msgData =>
      simp only [hmd] at henc
      cases hpl : encPayload C S addressFrom message msgData with
      | none => simp [hpl] at henc
      | some vp =>
        simp only [hpl] at henc
        unfold encSeal at henc
        have hiv0 : rd iv 0 16 = iv := by rw [← hiv]; exact rd_full _
        rw [hiv0] at henc
        cases hct : C.aesEncrypt (rd (C.sha512 vchP) 0 32)
            (rd (wr (wr (wr (wr smsg L.version [2, 1]) L.timestamp (i64Bytes now)) L.iv iv)
              L.cpkR (C.pubOf keyR)) L.iv 16) vp with
        | none => simp [hct] at henc
        | some ct =>
          simp only [hct, Prod.mk.injEq, true_and] at henc
          obtain ⟨hhdr, hpay⟩ := henc
          subst hpay
          have hmacl := hC.hmac_len (rd (C.sha512 vchP) 32 32)
            (rd (wr (wr (wr (wr (wr smsg L.version [2, 1]) L.timestamp (i64Bytes now)) L.iv iv)
                L.cpkR (C.pubOf keyR)) L.nPayload (leBytes ct.length 4)) L.timestamp 8 ++
              rd (wr (wr (wr (wr (wr smsg L.version [2, 1]) L.timestamp (i64Bytes now)) L.iv iv)
                L.cpkR (C.pubOf keyR)) L.nPayload (leBytes ct.length 4)) L.iv 16 ++ ct)
          obtain ⟨f1, f2, f3, g1, g2, g3, g4, g5⟩ := encrypt_header_fields L hL smsg
            (i64Bytes now) iv (C.pubOf keyR) (leBytes ct.length 4) _ hsmsg (length_i64Bytes now)
            hiv h33 (length_leBytes _ _) hmacl
          rw [f1] at hct
          rw [f2, f3] at g1 g2 g3 g4 g5 hhdr hmacl
          have hmac0 := rd_full (C.hmac (rd (C.sha512 vchP) 32 32) (i64Bytes now ++ iv ++ ct))
          rw [hmacl] at hmac0
          rw [hmac0] at hhdr
          rw [hhdr] at g1 g2 g3 g4 g5
          have hdec := hC.aes_inv _ _ _ _ hct
          have hecdh : C.ecdh (C.pubOf keyR) k = some vchP := by
            rw [hC.ecdh_comm keyR k hkeyR hkv]; exact hP
          have hparseR : C.pubkeyParse (C.pubOf keyR) = true := hC.parse_pub keyR hkeyR
          have hmd2 := encMsgData_length C hC message msgData hmlen hmd
          unfold SecureMsgDecrypt
          simp only [g1, ne_eq, not_true_eq_false, if_false, hk, g4, hparseR, Bool.not_true,
            Bool.false_eq_true, hecdh, g2, g3, g5, hmac0, hdec]
          by_cases hanon : addressFrom.all (fun b => b == 0) = true
          · rw [decPayload_encPayload_anon C hC S oob addressFrom message msgData vp _ (by omega) hmd2 hanon
              hmd hpl]
            simp [hanon]
          · have hnamed : addressFrom.all (fun b => b == 0) = false := by simpa using hanon
            rw [decPayload_encPayload_named C hC S oob addressFrom message msgData vp _ (by omega) hmd2
              hnamed hfrom hver hwallet hmd hpl]
            simp [hnamed]

theorem toyCrypto_laws : toyCrypto.Laws where
  parse_pub := by intro k h; simpa [toyCrypto] using h
  ecdh_comm := by
    intro k r _ _
    simp only [toyCrypto, List.tail_cons]
    rw [List.zipWith_comm_of_comm _ (fun x y => by rw [Nat.mul_comm])]
  aes_inv := by
    intro key iv p c h
    simp only [toyCrypto, Option.some.injEq] at h ⊢
    subst h
    rw [List.map_map]
    conv_rhs => rw [← List.map_id p]
    apply List.map_congr_left
    intro b _
    simp [Nat.xor_cancel_right]
  lz4_inv := by
    intro m c h
    simp only [toyCrypto] at h ⊢
    split_ifs at h
    simp only [Option.some.injEq] at h
    subst h
    simp
  lz4_len := by
    intro m c h
    simp only [toyCrypto] at h
    split_ifs at h
    simp only [Option.some.injEq] at h
    subst h
    simp; omega
  sign_recover := by
    intro k h hk
    have hk32 : k.length = 32 := by simpa [toyCrypto] using hk
    simp only [toyCrypto, Option.some.injEq, List.cons.injEq, true_and]
    rw [show (65 : Nat) = 64 + 1 from rfl, List.take_succ_cons, List.tail_cons, List.take_take,
      List.append_assoc, List.take_append_of_le_length (by omega)]
    apply List.take_of_length_le
    omega
  sig_len := by
    intro k h
    simp [toyCrypto]
    omega
  hmac_len := by intro k m; simp [toyCrypto, sumMac]

set_option maxRecDepth 100000 in
/-- C4 at a concrete input: "hello", signed by the sender, is encrypted for the recipient
and decrypted with the recipient's key. -/
theorem C4_decrypt_encrypt_witness :
    SecureMsgDecrypt toyCrypto packedLayout bobHost (fun _ => 0) false bobId
      helloEnvelope.2.1 helloEnvelope.2.2 emptyMessageData =
      (0, { timestamp := leI64 (i64Bytes 1000000),
            sFromAddress := if aliceId.all (fun b => b == 0) then "anon"
              else toyCrypto.addrToString aliceId,
            vchMessage := helloMsg ++ [0] }) :=
  C4_decrypt_encrypt toyCrypto toyCrypto_laws packedLayout (by decide) aliceHost bobHost
    (fun _ => 0) 1000000 [1, 2, 3, 4, 5, 6, 7, 8, 9, 10, 11, 12, 13, 14, 15, 16]
    (List.replicate 32 5) (List.replicate 104 0) aliceId bobId helloMsg
    helloEnvelope.2.1 helloEnvelope.2.2 bobKey emptyMessageData
    (by decide) (by decide) (by decide) (by decide) (by decide) (by decide) (by decide)
    (by decide)
    (by
      intro kf h
      have : kf = aliceKey := by
        simp only [aliceHost, if_true, Option.some.injEq] at h
        exact h.symm
      subst this
      decide)
    (by decide)

/-! ## Tokens stay in the bucket of their timestamp -/

theorem mem_setInsert (s : List SecMsgToken) (t x : SecMsgToken) (h : x ∈ setInsert s t) :
    x = t ∨ x ∈ s := by
  induction s with
  | nil => simp [setInsert] at h; exact Or.inl h
  | cons y ys ih =>
    unfold setInsert at h
    split_ifs at h
    · rcases List.mem_cons.mp h with h | h
      · exact Or.inl h
      · exact Or.inr h
    · rcases List.mem_cons.mp h with h | h
      · exact Or.inr (by simp [h])
      · rcases ih h with h | h
        · exact Or.inl h
        · exact Or.inr (List.mem_cons_of_mem _ h)
    · exact Or.inr h

theorem mem_of_mapFind {β : Type} (m : List (Int × β)) (k : Int) (v : β)
    (h : mapFind m k = some v) : (k, v) ∈ m := by
  induction m with
  | nil => simp [mapFind] at h
  | cons e r ih =>
    obtain ⟨k1, v1⟩ := e
    unfold mapFind at h
    split_ifs at h with hk
    · simp only [Option.some.injEq] at h
      subst hk; subst h
      exact List.mem_cons_self _ _
    · exact List.mem_cons_of_mem _ (ih h)

theorem mem_mapSet {β : Type} (m : List (Int × β)) (k : Int) (v : β) (e : Int × β)
    (h : e ∈ mapSet m k v) : e = (k, v) ∨ e ∈ m := by
  induction m with
  | nil => simp [mapSet] at h; exact Or.inl h
  | cons e1 r ih =>
    obtain ⟨k1, v1⟩ := e1
    unfold mapSet at h
    split_ifs at h
    · rcases List.mem_cons.mp h with h | h
      · exact Or.inl h
      · exact Or.inr h
    · rcases List.mem_cons.mp h with h | h
      · exact Or.inl h
      · exact Or.inr (List.mem_cons_of_mem _ h)
    · rcases List.mem_cons.mp h with h | h
      · exact Or.inr (by simp [h])
      · rcases ih h with h | h
        · exact Or.inl h
        · exact Or.inr (List.mem_cons_of_mem _ h)

theorem tokens_mapAt (m : List (Int × SecMsgBucket)) (hm : bucketsOk m) (k : Int) :
    ∀ t ∈ (mapAt m k).setTokens, bucketOf t.timestamp = k := by
  intro t ht
  unfold mapAt at ht
  cases h : mapFind m k with
  | none => simp [h, SecMsgBucket.fresh] at ht
  | some b =>
    simp only [h, Option.getD_some] at ht
    exact hm _ (mem_of_mapFind m k b h) t ht

theorem bucketsOk_mapSet (m : List (Int × SecMsgBucket)) (hm : bucketsOk m) (k : Int)
    (b : SecMsgBucket) (hb : ∀ t ∈ b.setTokens, bucketOf t.timestamp = k) :
    bucketsOk (mapSet m k b) := by
  intro e he t ht
  rcases mem_mapSet m k b e he with h | h
  · subst h; exact hb t ht
  · exact hm e h t ht

theorem bucketsOk_mapTouch (m : List (Int × SecMsgBucket)) (hm : bucketsOk m) (k : Int) :
    bucketsOk (mapTouch m k) := by
  unfold mapTouch
  cases h : mapFind m k with
  | some b => exact hm
  | none => exact bucketsOk_mapSet m hm k _ (by simp [SecMsgBucket.fresh])

/-- `SecureMsgStore` keeps every token in the bucket of its timestamp. -/
theorem bucketsOk_store (L : Layout) (xxh32 : Nat → List Nat → Nat) (now : Int) (s : Store)
    (pHeader pPayload : List Nat) (upd : Bool) (hm : bucketsOk s.smsgBuckets) :
    bucketsOk (SecureMsgStore L xxh32 now s pHeader pPayload upd).2.smsgBuckets := by
  unfold SecureMsgStore
  simp only []
  split_ifs <;> dsimp only <;> first
    | exact hm
    | exact bucketsOk_mapTouch _ hm _
    | (apply bucketsOk_mapSet _ (bucketsOk_mapTouch _ hm _)
       intro t ht
       first
         | rw [setTokens_hashBucket] at ht
         | skip
       rcases mem_setInsert _ _ _ ht with h | h
       · subst h; rfl
       · exact tokens_mapAt _ (bucketsOk_mapTouch _ hm _) _ t h)

/-- `SecureMsgScanMessage` does not touch the bucket map. -/
theorem scanMessage_buckets (C : Crypto) (L : Layout) (H : Host) (o1 o2 : Nat → Nat)
    (now : Int) (e : Engine) (pHeader pPayload : List Nat) (gui : Bool) :
    (SecureMsgScanMessage C L H o1 o2 now e pHeader pPayload gui).2.store.smsgBuckets
      = e.store.smsgBuckets := by
  unfold SecureMsgScanMessage SecureMsgStoreUnscanned
  simp only []
  split_ifs <;> rfl

theorem bucketsOk_receiveLoop (C : Crypto) (L : Layout) (H : Host) (maxWorst : Nat)
    (xxh32 : Nat → List Nat → Nat) (oob oobPlain : Nat → Nat) (now : Int) (pfrom : Int)
    (vchData : List Nat) (i : Nat) :
    ∀ (n : Nat) (e : Engine), bucketsOk e.store.smsgBuckets →
      bucketsOk (receiveLoop C L H maxWorst xxh32 oob oobPlain now pfrom vchData i n
        e).store.smsgBuckets := by
  induction i with
  | zero => intro n e h; exact h
  | succ i ih =>
    intro n e h
    unfold receiveLoop
    simp only []
    split_ifs <;> first
      | exact h
      | exact ih _ _ h
      | exact bucketsOk_store L xxh32 now e.store _ _ false h
      | (apply ih
         rw [scanMessage_buckets]
         exact bucketsOk_store L xxh32 now e.store _ _ false h)

/-- `SecureMsgReceive` keeps every token in the bucket of its timestamp. -/
theorem bucketsOk_receive (C : Crypto) (L : Layout) (H : Host) (maxWorst : Nat)
    (xxh32 : Nat → List Nat → Nat) (oob oobPlain : Nat → Nat) (now : Int) (e : Engine)
    (pfrom : Int) (vchData : List Nat) (h : bucketsOk e.store.smsgBuckets) :
    bucketsOk (SecureMsgReceive C L H maxWorst xxh32 oob oobPlain now e pfrom
      vchData).2.store.smsgBuckets := by
  unfold SecureMsgReceive
  simp only []
  split_ifs
  · exact h
  · exact h
  · exact h
  · cases hb : mapFind e.store.smsgBuckets (leI64 (rd vchData 4 8)) with
    | none => exact h
    | some b =>
      apply bucketsOk_mapSet _ h
      intro t ht
      exact h _ (mem_of_mapFind _ _ _ hb) t ht
  · have hl := bucketsOk_receiveLoop C L H maxWorst xxh32 oob oobPlain now pfrom vchData
      (leNat (rd vchData 0 4)) 12 e h
    cases hb : mapFind (receiveLoop C L H maxWorst xxh32 oob oobPlain now pfrom vchData
        (leNat (rd vchData 0 4)) 12 e).store.smsgBuckets (leI64 (rd vchData 4 8)) with
    | none => exact hl
    | some b =>
      apply bucketsOk_mapSet _ hl
      intro t ht
      rw [setTokens_hashBucket] at ht
      exact hl _ (mem_of_mapFind _ _ _ hb) t ht

theorem bucketsOk_sweepBuckets (cutoff : Int) (m : List (Int × SecMsgBucket))
    (h : bucketsOk m) : bucketsOk (sweepBuckets cutoff m).1 := by
  induction m with
  | nil => exact h
  | cons e r ih =>
    obtain ⟨k, b⟩ := e
    have hr : bucketsOk r := fun x hx => h x (List.mem_cons_of_mem _ hx)
    have hb : ∀ t ∈ b.setTokens, bucketOf t.timestamp = k := h (k, b) (List.mem_cons_self _ _)
    unfold sweepBuckets
    simp only []
    split_ifs
    · exact ih hr
    all_goals
      intro x hx t ht
      rcases List.mem_cons.mp hx with hx | hx
      · subst hx; exact hb t ht
      · exact ih hr x hx t ht

/-- C5: the predicate "every token held in the bucket keyed `b` has
`timestamp - (timestamp % 3600) = b`" (the remainder taken as the code takes it) is kept
by `SecureMsgStore`, by `SecureMsgReceive` on any `smsgMsg` payload and by a pass of the
sweep. -/
theorem C5_tokens_in_their_bucket (C : Crypto) (L : Layout) (H : Host) (maxWorst : Nat)
    (xxh32 : Nat → List Nat → Nat) (oob oobPlain : Nat → Nat) (now : Int) (e : Engine)
    (pfrom : Int) (pHeader pPayload vchData : List Nat) (upd : Bool)
    (h : bucketsOk e.store.smsgBuckets) :
    bucketsOk (SecureMsgStore L xxh32 now e.store pHeader pPayload upd).2.smsgBuckets ∧
    bucketsOk (SecureMsgReceive C L H maxWorst xxh32 oob oobPlain now e pfrom
      vchData).2.store.smsgBuckets ∧
    bucketsOk (sweepPass now e).store.smsgBuckets :=
  ⟨bucketsOk_store L xxh32 now e.store pHeader pPayload upd h,
   bucketsOk_receive C L H maxWorst xxh32 oob oobPlain now e pfrom vchData h,
   bucketsOk_sweepBuckets _ _ h⟩

set_option maxRecDepth 100000 in
/-- C5 at a concrete input: `engineTwo` keeps its tokens in their buckets when a message
is stored, when the `smsgMsg` payload `strayMsg` is received, and in a pass of the
sweep. -/
theorem C5_tokens_in_their_bucket_witness :
    bucketsOk (SecureMsgStore packedLayout sumHash 1003100 engineTwo.store
      (headerAt 1000001 16) samplePayload2 true).2.smsgBuckets ∧
    bucketsOk (SecureMsgReceive toyCrypto packedLayout bobHost 1000 sumHash (fun _ => 0)
      (fun _ => 0) 1003100 engineTwo 7 strayMsg).2.store.smsgBuckets ∧
    bucketsOk (sweepPass 1003100 engineTwo).store.smsgBuckets :=
  C5_tokens_in_their_bucket toyCrypto packedLayout bobHost 1000 sumHash (fun _ => 0)
    (fun _ => 0) 1003100 engineTwo 7 (headerAt 1000001 16) samplePayload2 strayMsg true
    (by decide)

set_option maxRecDepth 100000 in
/-- C6: in `engineTwo` every bucket's hash is the hash of its token samples.  The
`smsgMsg` payload `strayMsg` names the bucket 1000800 and carries one valid message
whose timestamp lies in the bucket 997200.  `SecureMsgReceive` returns 0, the message is
stored in the bucket 997200 without a hash update, only the bucket 1000800 is hashed
again, and afterwards the hash of the bucket 997200 is not the hash of its two token
samples. -/
theorem C6_receive_leaves_stale_hash :
    hashesOk sumHash engineTwo.store.smsgBuckets ∧
    (SecureMsgReceive toyCrypto packedLayout bobHost 1000 sumHash (fun _ => 0) (fun _ => 0)
      1003100 engineTwo 7 strayMsg).1 = 0 ∧
    (mapAt (SecureMsgReceive toyCrypto packedLayout bobHost 1000 sumHash (fun _ => 0)
      (fun _ => 0) 1003100 engineTwo 7 strayMsg).2.store.smsgBuckets 997200).setTokens.length
      = 2 ∧
    ¬ hashesOk sumHash (SecureMsgReceive toyCrypto packedLayout bobHost 1000 sumHash
      (fun _ => 0) (fun _ => 0) 1003100 engineTwo 7 strayMsg).2.store.smsgBuckets := by
  decide

/-! ## Further properties of the code -/

set_option maxRecDepth 100000 in
theorem low_bits_test : ∀ b, b < 256 → (((4294967295 - b) &&& (1 ||| 2 ||| 4)) ≠ 0 ↔ b % 8 ≠ 7) := by
  decide

/-- The target test of the code, for a digest of bytes: it accepts exactly the digests
whose bytes 30 and 31 are zero and in whose byte 29 the bits 0..2 are not all set. -/
theorem powTarget_iff (d : List Nat) (h : d.getD 29 0 < 256) :
    powTarget d = true ↔ d.getD 31 0 = 0 ∧ d.getD 30 0 = 0 ∧ d.getD 29 0 % 8 ≠ 7 := by
  unfold powTarget
  simp only [Bool.and_eq_true, beq_iff_eq, bne_iff_ne, and_assoc]
  rw [low_bits_test _ h]

/-- The target test at the digest with byte 29 equal to 6 and bytes 30, 31 zero. -/
theorem powTarget_iff_witness :
    powTarget (List.replicate 29 0 ++ [6, 0, 0]) = true ↔
      (List.replicate 29 0 ++ [6, 0, 0]).getD 31 0 = 0 ∧
      (List.replicate 29 0 ++ [6, 0, 0]).getD 30 0 = 0 ∧
      (List.replicate 29 0 ++ [6, 0, 0]).getD 29 0 % 8 ≠ 7 :=
  powTarget_iff (List.replicate 29 0 ++ [6, 0, 0]) (by decide)

theorem hash_hashBucket (xxh32 : Nat → List Nat → Nat) (now : Int) (b : SecMsgBucket) :
    (b.hashBucket xxh32 now).hash = xxh32 1 (sampleBytes b.setTokens) := by
  unfold SecMsgBucket.hashBucket
  simp only []
  split_ifs with h
  · rfl
  · simpa using h

/-- When `SecureMsgReceive` returns 0, the bucket named in the payload is unlocked and its
hash is XXH32 (seed 1) over the samples of its tokens in set order. -/
theorem receive_hashes_named_bucket (C : Crypto) (L : Layout) (H : Host) (maxWorst : Nat)
    (xxh32 : Nat → List Nat → Nat) (oob oobPlain : Nat → Nat) (now : Int) (e : Engine)
    (pfrom : Int) (vchData : List Nat)
    (h : (SecureMsgReceive C L H maxWorst xxh32 oob oobPlain now e pfrom vchData).1 = 0) :
    ∃ b, mapFind (SecureMsgReceive C L H maxWorst xxh32 oob oobPlain now e pfrom
        vchData).2.store.smsgBuckets (leI64 (rd vchData 4 8)) = some b ∧
      b.hash = xxh32 1 (sampleBytes b.setTokens) ∧ b.nLockCount = 0 ∧ b.nLockPeerId = 0 := by
  unfold SecureMsgReceive at h ⊢
  simp only [] at h ⊢
  split_ifs at h ⊢
  all_goals first
    | (split at h
       · simp at h
       · simp at h)
    | (split at h
       · simp at h
       · rename_i b hb
         simp only [hb]
         refine ⟨_, mapFind_mapSet _ _ _ _ |>.trans (if_pos rfl), ?_, ?_, ?_⟩
         · rw [hash_hashBucket, setTokens_hashBucket]
         · unfold SecMsgBucket.hashBucket
           simp only []
           split_ifs <;> rfl
         · unfold SecMsgBucket.hashBucket
           simp only []
           split_ifs <;> rfl)

set_option maxRecDepth 100000 in
/-- The bucket 1000800 named by `strayMsg` is hashed and unlocked after the payload was
received. -/
theorem receive_hashes_named_bucket_witness :
    ∃ b, mapFind (SecureMsgReceive toyCrypto packedLayout bobHost 1000 sumHash (fun _ => 0)
        (fun _ => 0) 1003100 engineTwo 7 strayMsg).2.store.smsgBuckets
        (leI64 (rd strayMsg 4 8)) = some b ∧
      b.hash = sumHash 1 (sampleBytes b.setTokens) ∧ b.nLockCount = 0 ∧ b.nLockPeerId = 0 :=
  receive_hashes_named_bucket toyCrypto packedLayout bobHost 1000 sumHash (fun _ => 0)
    (fun _ => 0) 1003100 engineTwo 7 strayMsg (by decide)

/-! ## The time window of `SecureMsgStore` -/

/-- C11: `SecureMsgStore` passes its time check (it returns neither "message too new" nor
"message too old") exactly when `now - SMSG_RETENTION ≤ timestamp ≤ now + SMSG_TIME_LEEWAY`,
both bounds included; outside the window it returns the error code 1 and leaves the
store (bucket map with its keys, token sets and hashes, and the bucket files) as it
was. -/
theorem C11_store_time_window (L : Layout) (xxh32 : Nat → List Nat → Nat) (now : Int)
    (s : Store) (pHeader pPayload : List Nat) (upd : Bool) :
    ((SecureMsgStore L xxh32 now s pHeader pPayload upd).1 ≠ .msgTooNew
        ∧ (SecureMsgStore L xxh32 now s pHeader pPayload upd).1 ≠ .msgTooOld
      ↔ now - SMSG_RETENTION ≤ leI64 (rd pHeader L.timestamp 8)
        ∧ leI64 (rd pHeader L.timestamp 8) ≤ now + SMSG_TIME_LEEWAY)
    ∧ (¬ (now - SMSG_RETENTION ≤ leI64 (rd pHeader L.timestamp 8)
          ∧ leI64 (rd pHeader L.timestamp 8) ≤ now + SMSG_TIME_LEEWAY) →
        (SecureMsgStore L xxh32 now s pHeader pPayload upd).1.code = 1
        ∧ (SecureMsgStore L xxh32 now s pHeader pPayload upd).2 = s) := by
  unfold SecureMsgStore
  simp only []
  by_cases h1 : leI64 (rd pHeader L.timestamp 8) > now + SMSG_TIME_LEEWAY
  · rw [if_pos h1]
    refine ⟨⟨fun h => absurd rfl h.1, fun h => absurd h.2 (by omega)⟩, fun _ => ⟨rfl, rfl⟩⟩
  rw [if_neg h1]
  by_cases h2 : leI64 (rd pHeader L.timestamp 8) < now - SMSG_RETENTION
  · rw [if_pos h2]
    refine ⟨⟨fun h => absurd rfl h.2, fun h => absurd h.1 (by omega)⟩, fun _ => ⟨rfl, rfl⟩⟩
  rw [if_neg h2]
  refine ⟨⟨fun _ => ⟨by omega, by omega⟩, fun _ => ?_⟩, fun h => absurd ⟨by omega, by omega⟩ h⟩
  split_ifs <;> exact ⟨by simp, by simp⟩

/-- C11 at concrete inputs: a message 61 seconds ahead of the clock and one a second
older than the retention are both refused, and the store stays as it was. -/
theorem C11_store_time_window_witness :
    ((SecureMsgStore packedLayout sumHash 1000000 storeOne (headerAt 1000061 16)
        samplePayload true).1.code = 1
      ∧ (SecureMsgStore packedLayout sumHash 1000000 storeOne (headerAt 1000061 16)
        samplePayload true).2 = storeOne)
    ∧ ((SecureMsgStore packedLayout sumHash 1000000 storeOne (headerAt 827199 16)
        samplePayload true).1.code = 1
      ∧ (SecureMsgStore packedLayout sumHash 1000000 storeOne (headerAt 827199 16)
        samplePayload true).2 = storeOne) :=
  ⟨(C11_store_time_window packedLayout sumHash 1000000 storeOne (headerAt 1000061 16)
      samplePayload true).2 (by decide),
   (C11_store_time_window packedLayout sumHash 1000000 storeOne (headerAt 827199 16)
      samplePayload true).2 (by decide)⟩

/-! ## The dispatch of `SecureMsgReceiveData` -/

/-- C17, as the code has it: with the enabled flag clear, `SecureMsgReceiveData` returns 0
for `smsgPing` and 2 ("unknown message") for every other command name, a wire verb or
not; it sends nothing and leaves the peer and bucket state as it was. -/
theorem C17_disabled_only_ping (C : Crypto) (L : Layout) (H : Host) (maxWorst : Nat)
    (xxh32 : Nat → List Nat → Nat) (oob oobPlain : Nat → Nat) (now : Int) (e : Engine)
    (pfrom : Int) (strCommand : String) (vRecv : List Nat) :
    SecureMsgReceiveData C L H maxWorst xxh32 oob oobPlain false now e pfrom strCommand vRecv
      = (if strCommand = "smsgPing" then 0 else 2, e) := by
  unfold SecureMsgReceiveData
  rw [if_pos (show (!false) = true from rfl)]
  split_ifs <;> rfl

/-- C17 does not hold as stated: with the enabled flag clear the known verb `smsgPong`
is answered with 2, not with 0 (and so are the other wire verbs but `smsgPing`). -/
theorem C17_disabled_known_verb_unknown :
    (SecureMsgReceiveData toyCrypto packedLayout bobHost 0 sumHash (fun _ => 0) (fun _ => 0)
      false 1000000 engineOne 7 "smsgPong" []).1 = 2
    ∧ (SecureMsgReceiveData toyCrypto packedLayout bobHost 0 sumHash (fun _ => 0) (fun _ => 0)
      false 1000000 engineOne 7 "smsgInv" (leBytes 0 4)).1 = 2 := by
  constructor <;> rfl

/-! ## The `smsgMatch` branch and `lastMatched` -/

theorem findPeer_setPeer (f : Peer → Peer) (hf : ∀ n, (f n).id = n.id) (id : Int)
    (vNodes : List Peer) :
    findPeer (setPeer f id vNodes) id = (findPeer vNodes id).map f := by
  induction vNodes with
  | nil => rfl
  | cons n r ih =>
    unfold findPeer at ih ⊢
    by_cases h : n.id = id
    · simp [setPeer, h, List.find?_cons, hf]
    · simp [setPeer, h, List.find?_cons, ih]

/-- C14 does not hold as stated: a `Match(999000)` received at time 1000000 from peer 7,
whose `lastMatched` is 0, leaves `lastMatched` at 0, which is not
`min(999000, 1000000 + 60)`. -/
theorem C14_match_does_not_set :
    (peerData (SecureMsgReceiveData toyCrypto packedLayout bobHost 0 sumHash (fun _ => 0)
      (fun _ => 0) true 1000000 engineOne 7 "smsgMatch" (i64Bytes 999000)).2 7).lastMatched
      ≠ min 999000 (1000000 + 60) := by
  decide

/-- C14, as the code has it: a `Match(t)` payload of at least 8 bytes, from any peer and
at any time, is answered with 0 and leaves the whole state, the peer's `lastMatched`
included, as it was.  `lastMatched` is written by `SecureMsgSendData`: a round for an
enabled peer that was seen before, is past the send delay and is not ignored sets it to
`now`. -/
theorem C14_match_keeps_lastMatched (C : Crypto) (L : Layout) (H : Host) (maxWorst : Nat)
    (xxh32 : Nat → List Nat → Nat) (oob oobPlain : Nat → Nat) (now : Int) (e : Engine)
    (pfrom : Int) (vchData : List Nat) (h8 : 8 ≤ vchData.length) :
    SecureMsgReceiveData C L H maxWorst xxh32 oob oobPlain true now e pfrom "smsgMatch" vchData
      = (0, e)
    ∧ ∀ p : Peer, findPeer e.vNodes pfrom = some p → p.lastSeen ≠ 0 → p.fEnabled = true →
        ¬ now - p.lastSeen < SMSG_SEND_DELAY → ¬ now < p.ignoreUntil →
        (peerData (SecureMsgSendData now e pfrom).2 pfrom).lastMatched = now := by
  refine ⟨?_, ?_⟩
  · unfold SecureMsgReceiveData recvMatch
    simp [show ¬ vchData.length < 8 by omega]
  · intro p hp hseen hen hdelay hign
    have hd : peerData e pfrom = p := by simp [peerData, hp]
    unfold SecureMsgSendData
    rw [hd, if_neg hseen, if_neg (by simp [hen, hdelay, hign])]
    simp only [peerData]
    rw [findPeer_setPeer (fun n : Peer => { n with lastSeen := now, lastMatched := now })
      (fun _ => rfl) pfrom e.vNodes, hp]
    rfl

/-- C14 (amended) at concrete inputs: peer 7 of `engineOne` sends `Match(999000)` at
time 1000000, and again at time 6, within the send delay of its last round (`lastSeen`
is 5); a send round for peer 7 at time 1000000 sets `lastMatched`. -/
theorem C14_match_keeps_lastMatched_witness :
    SecureMsgReceiveData toyCrypto packedLayout bobHost 0 sumHash (fun _ => 0) (fun _ => 0)
      true 1000000 engineOne 7 "smsgMatch" (i64Bytes 999000) = (0, engineOne)
    ∧ SecureMsgReceiveData toyCrypto packedLayout bobHost 0 sumHash (fun _ => 0) (fun _ => 0)
      true 6 engineOne 7 "smsgMatch" (i64Bytes 999000) = (0, engineOne)
    ∧ (peerData (SecureMsgSendData 1000000 engineOne 7).2 7).lastMatched = 1000000 :=
  ⟨(C14_match_keeps_lastMatched toyCrypto packedLayout bobHost 0 sumHash (fun _ => 0)
      (fun _ => 0) 1000000 engineOne 7 (i64Bytes 999000) (by decide)).1,
   (C14_match_keeps_lastMatched toyCrypto packedLayout bobHost 0 sumHash (fun _ => 0)
      (fun _ => 0) 6 engineOne 7 (i64Bytes 999000) (by decide)).1,
   (C14_match_keeps_lastMatched toyCrypto packedLayout bobHost 0 sumHash (fun _ => 0)
      (fun _ => 0) 1000000 engineOne 7 (i64Bytes 999000) (by decide)).2
    { id := 7, fEnabled := true, lastSeen := 5, lastMatched := 0, ignoreUntil := 0 }
    (by decide) (by decide) rfl (by decide) (by decide)⟩

/-! ## The inventory built by `SecureMsgSendData` -/

theorem invEntries_eq (lastMatched : Int) (buckets : List (Int × SecMsgBucket))
    (hsz : ∀ kb ∈ buckets, kb.2.setTokens.length < 4294967296) (n : Nat) (v : List Nat) :
    invEntries lastMatched buckets (n, v)
      = (n + (invAdvertised lastMatched buckets).length,
          v ++ ((invAdvertised lastMatched buckets).map invEntryBytes).flatten) := by
  induction buckets generalizing n v with
  | nil => simp [invEntries, invAdvertised]
  | cons kb r ih =>
    obtain ⟨k, bkt⟩ := kb
    have hr : ∀ kb ∈ r, kb.2.setTokens.length < 4294967296 :=
      fun kb h => hsz kb (List.mem_cons_of_mem _ h)
    have hlen : bkt.setTokens.length % 4294967296 = bkt.setTokens.length :=
      Nat.mod_eq_of_lt (hsz (k, bkt) (List.mem_cons_self _ _))
    unfold invEntries
    simp only [hlen]
    by_cases hskip : bkt.timeChanged < lastMatched ∨ bkt.setTokens.length < 1
    · rw [if_pos hskip, ih hr]
      have : (decide (bkt.setTokens ≠ []) && decide (lastMatched ≤ bkt.timeChanged)) = false := by
        rcases hskip with h | h
        · simp; intro _; omega
        · have : bkt.setTokens = [] := List.length_eq_zero.mp (by omega)
          simp [this]
      have hA : invAdvertised lastMatched ((k, bkt) :: r) = invAdvertised lastMatched r := by
        unfold invAdvertised
        rw [List.filter_cons_of_neg]
        simp only [Bool.not_eq_true]; exact this
      rw [hA]
    · rw [if_neg hskip, ih hr]
      have : (decide (bkt.setTokens ≠ []) && decide (lastMatched ≤ bkt.timeChanged)) = true := by
        have h1 : bkt.setTokens ≠ [] := by
          intro h; rw [h] at hskip; simp at hskip
        have h2 : lastMatched ≤ bkt.timeChanged := by omega
        simp [h1, h2]
      have hA : invAdvertised lastMatched ((k, bkt) :: r)
          = (k, bkt.setTokens.length, bkt.hash) :: invAdvertised lastMatched r := by
        unfold invAdvertised
        rw [List.filter_cons_of_pos (by exact this), List.map_cons]
      rw [hA]
      simp only [List.length_cons, List.map_cons, List.flatten_cons, invEntryBytes,
        List.append_assoc, Prod.mk.injEq, and_true]
      omega

/-- C13 does not hold as stated: peer 7 has `lastMatched = 1000000` and the bucket 997200
has `timeChanged = 1000000`, not strictly greater, and yet the inventory sent to peer 7
has an entry for the bucket 997200 (the first of its two entries). -/
theorem C13_inv_lists_equal_time :
    (mapAt engineTwo.store.smsgBuckets 997200).timeChanged = 1000000
    ∧ (SecureMsgSendData 1003010
        { engineTwo with vNodes := [{ id := 7, fEnabled := true, lastSeen := 5,
                                      lastMatched := 1000000, ignoreUntil := 0 }] } 7).2.sent
      = [{ peer := 7, command := "smsgInv",
           data := leBytes 2 4
            ++ i64Bytes 997200 ++ leBytes 1 4 ++ leBytes 285 4
            ++ i64Bytes 1000800 ++ leBytes 1 4 ++ leBytes 285 4 }] := by
  decide

/-- C13, as the code has it: in a round of `SecureMsgSendData` for a peer that was seen
before, is enabled, past the send delay and not ignored, the inventory has an entry
(slot, token count, hash) exactly for the buckets that are non-empty and whose
`timeChanged` is greater than or equal to the peer's `lastMatched`, in key order; it is
sent when there is such a bucket, its leading count field is then the number of
entries, and nothing is sent when there is none.  (Token counts and the number of
buckets are below 2^32.) -/
theorem C13_inv_lists_changed_buckets (now : Int) (e : Engine) (pto : Int) (p : Peer)
    (hp : findPeer e.vNodes pto = some p) (hseen : p.lastSeen ≠ 0)
    (hen : p.fEnabled = true) (hdelay : ¬ now - p.lastSeen < SMSG_SEND_DELAY)
    (hign : ¬ now < p.ignoreUntil)
    (hsz : ∀ kb ∈ e.store.smsgBuckets, kb.2.setTokens.length < 4294967296)
    (hn : e.store.smsgBuckets.length < 4294967296) :
    (SecureMsgSendData now e pto).2.sent
      = e.sent ++
        (if invAdvertised p.lastMatched e.store.smsgBuckets = [] then []
         else [{ peer := pto, command := "smsgInv",
                 data := leBytes (invAdvertised p.lastMatched e.store.smsgBuckets).length 4
                  ++ ((invAdvertised p.lastMatched e.store.smsgBuckets).map
                        invEntryBytes).flatten }])
    ∧ leNat (leBytes (invAdvertised p.lastMatched e.store.smsgBuckets).length 4)
      = (invAdvertised p.lastMatched e.store.smsgBuckets).length
    ∧ ∀ k n h, (k, n, h) ∈ invAdvertised p.lastMatched e.store.smsgBuckets ↔
        ∃ b, (k, b) ∈ e.store.smsgBuckets ∧ b.setTokens ≠ [] ∧ p.lastMatched ≤ b.timeChanged
          ∧ n = b.setTokens.length ∧ h = b.hash := by
  have hd : peerData e pto = p := by simp [peerData, hp]
  have hle : (invAdvertised p.lastMatched e.store.smsgBuckets).length
      ≤ e.store.smsgBuckets.length := by
    unfold invAdvertised
    rw [List.length_map]
    exact List.length_filter_le _ _
  refine ⟨?_, leNat_leBytes 4 _ (by norm_num; omega), ?_⟩
  · unfold SecureMsgSendData
    rw [hd, if_neg hseen, if_neg (by simp [hen, hdelay, hign])]
    simp only [invEntries_eq _ _ hsz, Nat.zero_add]
    by_cases hnil : invAdvertised p.lastMatched e.store.smsgBuckets = []
    · simp [hnil]
    · have hpos : 0 < (invAdvertised p.lastMatched e.store.smsgBuckets).length :=
        List.length_pos.mpr hnil
      have hbody : 0 < (((invAdvertised p.lastMatched e.store.smsgBuckets).map
          invEntryBytes).flatten).length := by
        obtain ⟨x, r, hx⟩ := List.exists_cons_of_ne_nil hnil
        rw [hx]
        simp [invEntryBytes, length_leBytes, length_i64Bytes]
      rw [if_neg hnil, if_pos]
      · have hw : ∀ (N : Nat) (body : List Nat),
            wr (List.replicate 4 0 ++ body) 0 (leBytes N 4) = leBytes N 4 ++ body := by
          intro N body
          unfold wr
          simp [length_leBytes]
        rw [hw]
      · refine ⟨?_, ?_⟩
        · rw [Nat.mod_eq_of_lt hn]; omega
        · simp only [List.length_append, List.length_replicate]; omega
  · intro k n h
    unfold invAdvertised
    simp only [List.mem_map, List.mem_filter, Bool.and_eq_true, decide_eq_true_eq, Prod.mk.injEq,
      Prod.exists]
    constructor
    · rintro ⟨k1, b, ⟨hm, h1, h2⟩, rfl, rfl, rfl⟩
      exact ⟨b, hm, h1, h2, rfl, rfl⟩
    · rintro ⟨b, hm, h1, h2, rfl, rfl⟩
      exact ⟨k, b, ⟨hm, h1, h2⟩, rfl, rfl, rfl⟩

/-- C13 (amended) at a concrete input: `engineTwo` and peer 7 with
`lastMatched = 1000000`, at time 1003010. -/
theorem C13_inv_lists_changed_buckets_witness :
    (SecureMsgSendData 1003010
        { engineTwo with vNodes := [{ id := 7, fEnabled := true, lastSeen := 5,
                                      lastMatched := 1000000, ignoreUntil := 0 }] } 7).2.sent
      = [] ++
        (if invAdvertised 1000000 engineTwo.store.smsgBuckets = [] then []
         else [{ peer := 7, command := "smsgInv",
                 data := leBytes (invAdvertised 1000000 engineTwo.store.smsgBuckets).length 4
                  ++ ((invAdvertised 1000000 engineTwo.store.smsgBuckets).map
                        invEntryBytes).flatten }])
    ∧ leNat (leBytes (invAdvertised 1000000 engineTwo.store.smsgBuckets).length 4)
      = (invAdvertised 1000000 engineTwo.store.smsgBuckets).length
    ∧ ∀ k n h, (k, n, h) ∈ invAdvertised 1000000 engineTwo.store.smsgBuckets ↔
        ∃ b, (k, b) ∈ engineTwo.store.smsgBuckets ∧ b.setTokens ≠ [] ∧ 1000000 ≤ b.timeChanged
          ∧ n = b.setTokens.length ∧ h = b.hash :=
  C13_inv_lists_changed_buckets 1003010
    { engineTwo with vNodes := [{ id := 7, fEnabled := true, lastSeen := 5,
                                  lastMatched := 1000000, ignoreUntil := 0 }] } 7
    { id := 7, fEnabled := true, lastSeen := 5, lastMatched := 1000000, ignoreUntil := 0 }
    (by decide) (by decide) rfl (by decide) (by decide) (by decide) (by decide)

/-! ## The reply to `smsgInv` -/

theorem invWanted_cons (now : Int) (m : List (Int × SecMsgBucket)) (x : Int × Nat × Nat)
    (r : List (Int × Nat × Nat)) :
    invWanted now m (x :: r)
      = if (invConsidered now x && decide ((mapAt m x.1).nLockCount = 0)
            && (decide ((mapAt m x.1).setTokens.length < x.2.1)
                || (decide ((mapAt m x.1).setTokens.length = x.2.1)
                    && decide ((mapAt m x.1).hash ≠ x.2.2)))) = true
        then x.1 :: invWanted now m r else invWanted now m r := by
  unfold invWanted
  rw [List.filter_cons]
  split_ifs <;> rfl

theorem invLocked_cons (now : Int) (m : List (Int × SecMsgBucket)) (x : Int × Nat × Nat)
    (r : List (Int × Nat × Nat)) :
    invLocked now m (x :: r)
      = ((invConsidered now x && decide (0 < (mapAt m x.1).nLockCount))
          || invLocked now m r) := rfl

theorem invLoop_spec (now : Int) (pfrom : Int) (vchData : List Nat)
    (m : List (Int × SecMsgBucket)) (i p : Nat) (st : InvLoop)
    (hm : ∀ k, mapAt st.smsgBuckets k = mapAt m k) :
    (invLoop now pfrom vchData i p st).vchDataOut
        = st.vchDataOut ++ ((invWanted now m (invParse vchData i p)).map i64Bytes).flatten
    ∧ (invLoop now pfrom vchData i p st).nShowBuckets
        = st.nShowBuckets + (invWanted now m (invParse vchData i p)).length
    ∧ ((invLoop now pfrom vchData i p st).nLocked < 1
        ↔ st.nLocked < 1 ∧ invLocked now m (invParse vchData i p) = false) := by
  induction i generalizing p st with
  | zero => simp [invLoop, invParse, invWanted, invLocked]
  | succ i ih =>
    have hm1 : ∀ k, mapAt (mapTouch st.smsgBuckets
        (leI64 (rd vchData p 8))) k = mapAt m k := fun k => by rw [mapAt_mapTouch, hm]
    unfold invLoop
    simp only [mapAt_mapTouch, hm]
    rw [show invParse vchData (i + 1) p
      = (leI64 (rd vchData p 8), leNat (rd vchData (p + 8) 4), leNat (rd vchData (p + 12) 4))
        :: invParse vchData i (p + 16) from rfl, invWanted_cons, invLocked_cons]
    generalize leI64 (rd vchData p 8) = t at hm1 ⊢
    generalize leNat (rd vchData (p + 8) 4) = nc
    generalize leNat (rd vchData (p + 12) 4) = hs
    simp only []
    by_cases h1 : t < now - SMSG_RETENTION
    · have hc : invConsidered now (t, nc, hs) = false := by
        show (decide (now - SMSG_RETENTION ≤ t) && decide (t ≤ now + SMSG_TIME_LEEWAY)
          && decide (1 ≤ nc)) = false
        rw [decide_eq_false (by omega : ¬ now - SMSG_RETENTION ≤ t)]; rfl
      simp only [if_pos h1, hc, Bool.false_and, Bool.false_eq_true, if_false, Bool.false_or]
      split_ifs
      · exact ih (p + 16) _ hm
      · exact ih (p + 16) _ hm
    have hw1 : now - SMSG_RETENTION ≤ t := by omega
    by_cases h2 : t > now + SMSG_TIME_LEEWAY
    · have hc : invConsidered now (t, nc, hs) = false := by
        show (decide (now - SMSG_RETENTION ≤ t) && decide (t ≤ now + SMSG_TIME_LEEWAY)
          && decide (1 ≤ nc)) = false
        rw [decide_eq_true hw1, decide_eq_false (by omega : ¬ t ≤ now + SMSG_TIME_LEEWAY)]; rfl
      simp only [if_neg h1, if_pos h2, hc, Bool.false_and, Bool.false_eq_true, if_false,
        Bool.false_or]
      exact ih (p + 16) _ hm
    have hw2 : t ≤ now + SMSG_TIME_LEEWAY := by omega
    by_cases h3 : nc < 1
    · have hc : invConsidered now (t, nc, hs) = false := by
        show (decide (now - SMSG_RETENTION ≤ t) && decide (t ≤ now + SMSG_TIME_LEEWAY)
          && decide (1 ≤ nc)) = false
        rw [decide_eq_true hw1, decide_eq_true hw2, decide_eq_false (by omega : ¬ 1 ≤ nc)]; rfl
      simp only [if_neg h1, if_neg h2, if_pos h3, hc, Bool.false_and, Bool.false_eq_true,
        if_false, Bool.false_or]
      exact ih (p + 16) _ hm
    have hc : invConsidered now (t, nc, hs) = true := by
      show (decide (now - SMSG_RETENTION ≤ t) && decide (t ≤ now + SMSG_TIME_LEEWAY)
        && decide (1 ≤ nc)) = true
      rw [decide_eq_true hw1, decide_eq_true hw2, decide_eq_true (by omega : 1 ≤ nc)]; rfl
    simp only [if_neg h1, if_neg h2, if_neg h3, hc, Bool.true_and]
    by_cases h4 : (mapAt m t).nLockCount > 0
    · rw [if_pos h4, decide_eq_false (by omega : ¬ (mapAt m t).nLockCount = 0),
        decide_eq_true (show 0 < (mapAt m t).nLockCount from h4)]
      simp only [Bool.false_and, Bool.false_eq_true, if_false, Bool.true_or]
      have := ih (p + 16)
        { st with
          smsgBuckets := mapTouch st.smsgBuckets t
          nLocked := st.nLocked + 1 } hm1
      refine ⟨this.1, this.2.1, ?_⟩
      rw [this.2.2]
      simp
    rw [if_neg h4, decide_eq_true (by omega : (mapAt m t).nLockCount = 0),
      decide_eq_false (show ¬ 0 < (mapAt m t).nLockCount from h4)]
    simp only [Bool.true_and, Bool.false_or]
    by_cases h5 : (mapAt m t).setTokens.length < nc
        ∨ ((mapAt m t).setTokens.length = nc ∧ (mapAt m t).hash ≠ hs)
    · have hb : (decide ((mapAt m t).setTokens.length < nc)
          || (decide ((mapAt m t).setTokens.length = nc)
              && decide ((mapAt m t).hash ≠ hs))) = true := by
        simpa using h5
      rw [if_pos h5, if_pos hb]
      have := ih (p + 16)
        { st with
          smsgBuckets := mapTouch st.smsgBuckets t
          vchDataOut := st.vchDataOut ++ i64Bytes t
          nShowBuckets := st.nShowBuckets + 1 } hm1
      refine ⟨?_, ?_, this.2.2⟩
      · rw [this.1]; simp
      · rw [this.2.1]; simp only [List.length_cons]; omega
    · have hb : ¬ (decide ((mapAt m t).setTokens.length < nc)
          || (decide ((mapAt m t).setTokens.length = nc)
              && decide ((mapAt m t).hash ≠ hs))) = true := by
        simpa using h5
      rw [if_neg h5, if_neg hb]
      exact ih (p + 16)
        { st with smsgBuckets := mapTouch st.smsgBuckets t } hm1

theorem wr_head (body : List Nat) (c v : List Nat) (h : c.length = v.length) :
    wr (c ++ body) 0 v = v ++ body := by
  unfold wr
  simp [← h]

theorem mapFind_unlockAll (m : List (Int × SecMsgBucket)) (k : Int) :
    mapFind (unlockAll m) k
      = (mapFind m k).map (fun b => { b with nLockCount := 0, nLockPeerId := 0 }) := by
  induction m with
  | nil => rfl
  | cons kb r ih =>
    obtain ⟨k1, b⟩ := kb
    unfold unlockAll at ih ⊢
    simp only [List.map_cons, mapFind]
    split_ifs
    · rfl
    · exact ih

theorem showLoop_unlockAll (pfrom : Int) (m : List (Int × SecMsgBucket)) (vchData : List Nat)
    (oob : Nat → Nat) (i pIn : Nat) (sent : List NetMsg) :
    showLoop pfrom (unlockAll m) vchData oob i pIn sent = showLoop pfrom m vchData oob i pIn sent := by
  induction i generalizing pIn sent with
  | zero => rfl
  | succ i ih =>
    unfold showLoop
    simp only [mapFind_unlockAll]
    cases h : mapFind m (leI64 (vrd vchData oob pIn 8)) with
    | none => simp only [Option.map_none']; exact ih _ _
    | some b => simp only [Option.map_some']; exact ih _ _

theorem wantLoop_files (L : Layout) (s1 s2 : Store) (hf : s1.files = s2.files)
    (tokenSet : List SecMsgToken) (vchData : List Nat) (i p : Nat) (st : Nat × List Nat) :
    wantLoop L s1 tokenSet vchData i p st = wantLoop L s2 tokenSet vchData i p st := by
  induction i generalizing p st with
  | zero => rfl
  | succ i ih =>
    obtain ⟨nBunch, vchBunch⟩ := st
    have hr : ∀ token, SecureMsgRetrieve L s1 token = SecureMsgRetrieve L s2 token := by
      intro token; unfold SecureMsgRetrieve; rw [hf]
    unfold wantLoop
    simp only [hr, ih]

set_option maxRecDepth 100000 in
/-- C12 does not hold as stated: in `engineLocked` the bucket 997200 is locked (lock count
3, for peer 7), and yet a `smsgShow` of peer 9 naming it is answered with `smsgHave`, and
a `smsgWant` of peer 9 for its message with `smsgMsg`. -/
theorem C12_locked_bucket_served :
    lockOf engineLocked 997200 = some (3, 7)
    ∧ (recvShow (fun _ => 0) engineLocked 9 (leBytes 1 4 ++ i64Bytes 997200)).2.sent
      = engineLocked.sent ++
        [{ peer := 9, command := "smsgHave",
           data := i64Bytes 997200 ++ i64Bytes 1000000 ++ [1, 2, 3, 4, 5, 6, 7, 8] }]
    ∧ (recvWant packedLayout engineLocked 9
        (i64Bytes 997200 ++ i64Bytes 1000000 ++ [1, 2, 3, 4, 5, 6, 7, 8])).2.sent
      = engineLocked.sent ++
        [{ peer := 9, command := "smsgMsg",
           data := leBytes 1 4 ++ i64Bytes 997200 ++ headerAt 1000000 16 ++ samplePayload }] := by
  decide

/-- C12, as the code has it: a locked bucket is served like an unlocked one.  The return
code of the `smsgShow` and `smsgWant` branches and the messages they send are those they
give when every lock of the bucket map is released: a `smsgShow` or `smsgWant` naming a
locked bucket is answered with `smsgHave` or `smsgMsg` as if the bucket were unlocked. -/
theorem C12_serving_ignores_locks (L : Layout) (oob : Nat → Nat) (e : Engine) (pfrom : Int)
    (vchData : List Nat) :
    (recvShow oob e pfrom vchData).1 = (recvShow oob (releaseLocks e) pfrom vchData).1
    ∧ (recvShow oob e pfrom vchData).2.sent
        = (recvShow oob (releaseLocks e) pfrom vchData).2.sent
    ∧ (recvWant L e pfrom vchData).1 = (recvWant L (releaseLocks e) pfrom vchData).1
    ∧ (recvWant L e pfrom vchData).2.sent
        = (recvWant L (releaseLocks e) pfrom vchData).2.sent := by
  have hshow : (recvShow oob e pfrom vchData).1 = (recvShow oob (releaseLocks e) pfrom vchData).1
      ∧ (recvShow oob e pfrom vchData).2.sent
        = (recvShow oob (releaseLocks e) pfrom vchData).2.sent := by
    unfold recvShow
    by_cases h1 : vchData.length < 4
    · rw [if_pos h1, if_pos h1]; exact ⟨rfl, rfl⟩
    rw [if_neg h1, if_neg h1]
    simp only []
    by_cases h2 : vchData.length < (4 + leNat (rd vchData 0 4) * 8) % 4294967296
    · rw [if_pos h2, if_pos h2]; exact ⟨rfl, rfl⟩
    rw [if_neg h2, if_neg h2]
    exact ⟨rfl, (showLoop_unlockAll _ _ _ _ _ _ _).symm⟩
  have hwant : (recvWant L e pfrom vchData).1 = (recvWant L (releaseLocks e) pfrom vchData).1
      ∧ (recvWant L e pfrom vchData).2.sent
        = (recvWant L (releaseLocks e) pfrom vchData).2.sent := by
    unfold recvWant
    by_cases h1 : vchData.length < 8
    · rw [if_pos h1, if_pos h1]; exact ⟨rfl, rfl⟩
    rw [if_neg h1, if_neg h1]
    simp only [releaseLocks, mapFind_unlockAll]
    cases h : mapFind e.store.smsgBuckets (leI64 (rd vchData 0 8)) with
    | none => exact ⟨rfl, rfl⟩
    | some b =>
      have hw : ∀ ts i p st,
          wantLoop L { e.store with smsgBuckets := unlockAll e.store.smsgBuckets } ts vchData
            i p st = wantLoop L e.store ts vchData i p st :=
        fun ts i p st =>
          wantLoop_files L { e.store with smsgBuckets := unlockAll e.store.smsgBuckets } e.store
            rfl ts vchData i p st
      simp only [Option.map_some', hw]
      split_ifs <;> exact ⟨rfl, rfl⟩
  exact ⟨hshow.1, hshow.2, hwant.1, hwant.2⟩

/-! ## The size of a `smsgMsg` reply (`smsgWant`) -/

theorem wantLoop_hit (L : Layout) (s : Store) (tokenSet : List SecMsgToken)
    (vchData : List Nat) (i p nBunch : Nat) (vchBunch : List Nat) (it : SecMsgToken)
    (d : List Nat)
    (hfind : setFind tokenSet
      { timestamp := leI64 (rd vchData p 8), sample := rd vchData (p + 8) 8, offset := 0 }
        = some it)
    (hret : SecureMsgRetrieve L s
      { timestamp := leI64 (rd vchData p 8), sample := rd vchData (p + 8) 8,
        offset := it.offset } = some d) :
    wantLoop L s tokenSet vchData (i + 1) p (nBunch, vchBunch)
      = if nBunch + 1 ≥ 500 ∨ (vchBunch ++ d).length ≥ 96000 then (nBunch + 1, vchBunch ++ d)
        else wantLoop L s tokenSet vchData i (p + 16) (nBunch + 1, vchBunch ++ d) := by
  rw [wantLoop]
  simp only [hfind, hret]

theorem wantLoop_bounds (L : Layout) (s : Store) (tokenSet : List SecMsgToken)
    (vchData : List Nat) (i p nBunch : Nat) (vchBunch : List Nat)
    (hn : nBunch < 500) (hv : vchBunch.length < 96000) :
    (wantLoop L s tokenSet vchData i p (nBunch, vchBunch)).1 ≤ 500
    ∧ (wantLoop L s tokenSet vchData i p (nBunch, vchBunch) = (nBunch, vchBunch)
      ∨ ∃ pre last token,
          (wantLoop L s tokenSet vchData i p (nBunch, vchBunch)).2 = pre ++ last
          ∧ nBunch < (wantLoop L s tokenSet vchData i p (nBunch, vchBunch)).1
          ∧ vchBunch.length ≤ pre.length ∧ pre.length < 96000
          ∧ SecureMsgRetrieve L s token = some last) := by
  induction i generalizing p nBunch vchBunch with
  | zero => exact ⟨by simp only [wantLoop]; omega, Or.inl rfl⟩
  | succ i ih =>
    rw [wantLoop]
    simp only []
    cases hfind : setFind tokenSet
        { timestamp := leI64 (rd vchData p 8), sample := rd vchData (p + 8) 8, offset := 0 } with
    | none => exact ih (p + 16) nBunch vchBunch hn hv
    | some it =>
      simp only []
      cases hret : SecureMsgRetrieve L s
          { timestamp := leI64 (rd vchData p 8), sample := rd vchData (p + 8) 8,
            offset := it.offset } with
      | none =>
        simp only []
        rw [if_neg (by omega)]
        exact ih (p + 16) nBunch vchBunch hn hv
      | some d =>
        simp only []
        by_cases hbreak : nBunch + 1 ≥ 500 ∨ (vchBunch ++ d).length ≥ 96000
        · rw [if_pos hbreak]
          exact ⟨by simp only []; omega, Or.inr ⟨vchBunch, d, _, rfl, by simp, le_refl _, hv, hret⟩⟩
        · rw [if_neg hbreak]
          have hn1 : nBunch + 1 < 500 := by omega
          have hv1 : (vchBunch ++ d).length < 96000 := by omega
          obtain ⟨h500, hrest⟩ := ih (p + 16) (nBunch + 1) (vchBunch ++ d) hn1 hv1
          refine ⟨h500, Or.inr ?_⟩
          rcases hrest with heq | ⟨pre, last, token, h1, h2, h3, h4, h5⟩
          · rw [heq]
            exact ⟨vchBunch, d, _, rfl, by simp, le_refl _, hv, hret⟩
          · refine ⟨pre, last, token, h1, by omega, ?_, h4, h5⟩
            rw [List.length_append] at h3
            omega

theorem wr_append_left (pre last v : List Nat) (off : Nat) (h : off + v.length ≤ pre.length) :
    wr (pre ++ last) off v = wr pre off v ++ last := by
  unfold wr
  rw [List.take_append_of_le_length (by omega), List.drop_append_of_le_length (by omega)]
  simp

theorem bunch_head (pre last c t : List Nat) (hc : c.length = 4) (ht : t.length = 8)
    (h12 : 12 ≤ pre.length) :
    wr (wr (pre ++ last) 0 c) 4 t = wr (wr pre 0 c) 4 t ++ last
    ∧ (wr (wr pre 0 c) 4 t).length = pre.length
    ∧ rd (wr (wr pre 0 c) 4 t ++ last) 0 4 = c := by
  have hl1 := length_wr pre c 0 (by omega)
  have hl2 := length_wr (wr pre 0 c) t 4 (by omega)
  refine ⟨?_, by omega, ?_⟩
  · rw [wr_append_left _ _ _ _ (by omega), wr_append_left _ _ _ _ (by omega)]
  · have e1 : rd (wr (wr pre 0 c) 4 t ++ last) 0 4 = rd (wr (wr pre 0 c) 4 t) 0 4 := by
      unfold rd
      rw [List.drop_zero, List.drop_zero, List.take_append_of_le_length (by omega)]
    rw [e1, rd_wr_before _ _ _ _ _ (by omega) (by omega)]
    have e2 := rd_wr_same pre c 0 (by omega)
    rw [hc] at e2
    exact e2

/-- C16, as the code has it: when the `smsgWant` branch sends a `smsgMsg`, its count
field is between 1 and 500, and the payload without the last envelope it carries is
shorter than 96000 bytes: the limit of 96000 bytes is tested after an envelope was
appended, so the whole payload may pass it by less than the length of that envelope. -/
theorem C16_want_bunch_bounds (L : Layout) (e : Engine) (pfrom : Int) (vchData : List Nat) :
    (recvWant L e pfrom vchData).2.sent = e.sent
    ∨ ∃ pre last token,
        (recvWant L e pfrom vchData).2.sent
          = e.sent ++ [{ peer := pfrom, command := "smsgMsg", data := pre ++ last }]
        ∧ 1 ≤ leNat (rd (pre ++ last) 0 4) ∧ leNat (rd (pre ++ last) 0 4) ≤ 500
        ∧ pre.length < 96000
        ∧ SecureMsgRetrieve L e.store token = some last := by
  unfold recvWant
  by_cases h8 : vchData.length < 8
  · rw [if_pos h8]; exact Or.inl rfl
  rw [if_neg h8]
  simp only []
  cases hb : mapFind e.store.smsgBuckets (leI64 (rd vchData 0 8)) with
  | none => exact Or.inl rfl
  | some b =>
    simp only []
    obtain ⟨h500, hrest⟩ := wantLoop_bounds L e.store b.setTokens vchData
      ((vchData.length - 8) / 16) 8 0 (List.replicate 12 0) (by omega) (by simp)
    by_cases hpos : (wantLoop L e.store b.setTokens vchData ((vchData.length - 8) / 16) 8
        (0, List.replicate 12 0)).1 > 0
    · rw [if_pos hpos]
      rcases hrest with heq | ⟨pre, last, token, h1, _, h3, h4, h5⟩
      · rw [heq] at hpos; exact absurd hpos (by simp)
      · rw [List.length_replicate] at h3
        obtain ⟨hdata, hlen, hcount⟩ := bunch_head pre last
          (leBytes (wantLoop L e.store b.setTokens vchData ((vchData.length - 8) / 16) 8
            (0, List.replicate 12 0)).1 4)
          (i64Bytes (leI64 (rd vchData 0 8))) (length_leBytes _ _) (length_i64Bytes _) h3
        have hnat := leNat_leBytes 4 (wantLoop L e.store b.setTokens vchData
          ((vchData.length - 8) / 16) 8 (0, List.replicate 12 0)).1 (by norm_num; omega)
        refine Or.inr ⟨wr (wr pre 0 (leBytes (wantLoop L e.store b.setTokens vchData
          ((vchData.length - 8) / 16) 8 (0, List.replicate 12 0)).1 4)) 4
          (i64Bytes (leI64 (rd vchData 0 8))), last, token, ?_, ?_, ?_, ?_, h5⟩
        · simp only [h1, hdata]
        · rw [hcount, hnat]; omega
        · rw [hcount, hnat]; exact h500
        · omega
    · rw [if_neg hpos]; exact Or.inl rfl

theorem length_headerAt (timestamp : Int) (nPayload : Nat) :
    (headerAt timestamp nPayload).length = 104 := by
  simp [headerAt, length_i64Bytes, length_leBytes]

theorem length_bigPayload : bigPayload.length = 24000 := List.length_replicate _ _

theorem retrieve_big (ts : Int) (o : Nat) (smp pre ext : List Nat)
    (hk : bucketOf ts = 997200) (ho : o = pre.length)
    (hfile : (headerAt 1000000 24000 ++ bigPayload)
              ++ (headerAt 1000001 24000 ++ bigPayload)
              ++ (headerAt 1000002 24000 ++ bigPayload)
              ++ (headerAt 1000003 24000 ++ bigPayload)
            = pre ++ headerAt ts 24000 ++ bigPayload ++ ext)
    (hnp : leNat (rd (headerAt ts 24000) packedLayout.nPayload 4) = 24000) :
    SecureMsgRetrieve packedLayout bigEngine.store { timestamp := ts, sample := smp, offset := o }
      = some (headerAt ts 24000 ++ bigPayload) := by
  apply retrieve_of_file packedLayout bigEngine.store _ pre (headerAt ts 24000) bigPayload ext
  · show mapFind bigEngine.store.files (bucketOf ts) = _
    rw [hk, ← hfile]
    rfl
  · exact ho
  · exact length_headerAt _ _
  · rw [hnp, length_bigPayload]

theorem recvWant_of_loop (L : Layout) (e : Engine) (pfrom : Int) (vchData : List Nat)
    (b : SecMsgBucket) (tokens : List SecMsgToken) (cnt n : Nat) (v : List Nat)
    (h8 : ¬ vchData.length < 8)
    (hb : mapFind e.store.smsgBuckets (leI64 (rd vchData 0 8)) = some b)
    (ht : b.setTokens = tokens) (hc : (vchData.length - 8) / 16 = cnt)
    (hloop : wantLoop L e.store tokens vchData cnt 8 (0, List.replicate 12 0) = (n, v))
    (hn : n > 0) :
    (recvWant L e pfrom vchData).2.sent
      = e.sent ++ [{ peer := pfrom, command := "smsgMsg",
                     data := wr (wr v 0 (leBytes n 4)) 4 (i64Bytes (leI64 (rd vchData 0 8))) }] := by
  unfold recvWant
  rw [if_neg h8]
  simp only [hb, ht, hc, hloop, hn, if_true]

/-- C16 does not hold as stated: the bucket 997200 of `bigEngine` holds four envelopes of
104 + 24000 bytes; a `smsgWant` for the four is answered with one `smsgMsg` that carries
all of them, 96428 bytes, more than 96000.  (After three envelopes the payload has 72324
bytes, below the limit, so the fourth is appended before the limit is tested again.) -/
theorem C16_want_bunch_over_limit :
    ∃ data, (recvWant packedLayout bigEngine 9 bigWant).2.sent
        = [{ peer := 9, command := "smsgMsg", data := data }]
      ∧ leNat (rd data 0 4) = 4 ∧ data.length = 96428 := by
  have hb : mapFind bigEngine.store.smsgBuckets (leI64 (rd bigWant 0 8))
      = some { timeChanged := 1000000, hash := 249, nLockCount := 0, nLockPeerId := 0,
               setTokens := [bigToken 1000000 0, bigToken 1000001 24104,
                             bigToken 1000002 48208, bigToken 1000003 72312] } := by
    decide
  have hP := length_bigPayload
  have hH := length_headerAt
  have r0 := retrieve_big 1000000 0 (rd bigWant (8 + 8) 8) []
    ((headerAt 1000001 24000 ++ bigPayload) ++ (headerAt 1000002 24000 ++ bigPayload)
      ++ (headerAt 1000003 24000 ++ bigPayload)) (by decide) rfl
    (by simp only [List.append_assoc, List.nil_append]) (by decide)
  have r1 := retrieve_big 1000001 24104 (rd bigWant (8 + 16 + 8) 8)
    (headerAt 1000000 24000 ++ bigPayload)
    ((headerAt 1000002 24000 ++ bigPayload) ++ (headerAt 1000003 24000 ++ bigPayload))
    (by decide) (by rw [List.length_append, hH, hP])
    (by simp only [List.append_assoc]) (by decide)
  have r2 := retrieve_big 1000002 48208 (rd bigWant (8 + 16 + 16 + 8) 8)
    ((headerAt 1000000 24000 ++ bigPayload) ++ (headerAt 1000001 24000 ++ bigPayload))
    (headerAt 1000003 24000 ++ bigPayload)
    (by decide) (by simp only [List.length_append, hH, hP])
    (by simp only [List.append_assoc]) (by decide)
  have r3 := retrieve_big 1000003 72312 (rd bigWant (8 + 16 + 16 + 16 + 8) 8)
    ((headerAt 1000000 24000 ++ bigPayload) ++ (headerAt 1000001 24000 ++ bigPayload)
      ++ (headerAt 1000002 24000 ++ bigPayload)) []
    (by decide) (by simp only [List.length_append, hH, hP])
    (by simp only [List.append_assoc, List.append_nil]) (by decide)
  have hloop : wantLoop packedLayout bigEngine.store
      [bigToken 1000000 0, bigToken 1000001 24104, bigToken 1000002 48208,
        bigToken 1000003 72312] bigWant 4 8 (0, List.replicate 12 0)
      = (4, List.replicate 12 0 ++ (headerAt 1000000 24000 ++ bigPayload)
            ++ (headerAt 1000001 24000 ++ bigPayload)
            ++ (headerAt 1000002 24000 ++ bigPayload)
            ++ (headerAt 1000003 24000 ++ bigPayload)) := by
    rw [wantLoop_hit _ _ _ _ _ _ _ _ (bigToken 1000000 0) _ (by decide)
      (by rw [show leI64 (rd bigWant 8 8) = 1000000 by decide]; exact r0)]
    rw [if_neg (by simp only [List.length_append, List.length_replicate, hH, hP]; omega)]
    rw [wantLoop_hit _ _ _ _ _ _ _ _ (bigToken 1000001 24104) _ (by decide)
      (by rw [show leI64 (rd bigWant (8 + 16) 8) = 1000001 by decide]; exact r1)]
    rw [if_neg (by simp only [List.length_append, List.length_replicate, hH, hP]; omega)]
    rw [wantLoop_hit _ _ _ _ _ _ _ _ (bigToken 1000002 48208) _ (by decide)
      (by rw [show leI64 (rd bigWant (8 + 16 + 16) 8) = 1000002 by decide]; exact r2)]
    rw [if_neg (by simp only [List.length_append, List.length_replicate, hH, hP]; omega)]
    rw [wantLoop_hit _ _ _ _ _ _ _ _ (bigToken 1000003 72312) _ (by decide)
      (by rw [show leI64 (rd bigWant (8 + 16 + 16 + 16) 8) = 1000003 by decide]; exact r3)]
    rw [if_pos]
    right
    simp only [List.length_append, List.length_replicate, hH, hP]
    omega
  obtain ⟨hdata, hlen, hcount⟩ := bunch_head (List.replicate 12 0)
    ((headerAt 1000000 24000 ++ bigPayload) ++ (headerAt 1000001 24000 ++ bigPayload)
      ++ (headerAt 1000002 24000 ++ bigPayload) ++ (headerAt 1000003 24000 ++ bigPayload))
    (leBytes 4 4) (i64Bytes (leI64 (rd bigWant 0 8))) (length_leBytes _ _)
    (length_i64Bytes _) (by simp)
  refine ⟨wr (wr (List.replicate 12 0) 0 (leBytes 4 4)) 4 (i64Bytes (leI64 (rd bigWant 0 8)))
    ++ ((headerAt 1000000 24000 ++ bigPayload) ++ (headerAt 1000001 24000 ++ bigPayload)
      ++ (headerAt 1000002 24000 ++ bigPayload) ++ (headerAt 1000003 24000 ++ bigPayload)),
    ?_, ?_, ?_⟩
  · rw [recvWant_of_loop packedLayout bigEngine 9 bigWant _ _ 4 4 _ (by decide) hb rfl
      (by decide) hloop (by decide), ← hdata, show bigEngine.sent = [] from rfl,
      List.nil_append]
    simp only [List.append_assoc]
  · rw [hcount]; decide
  · rw [List.length_append, hlen]
    simp only [List.length_append, List.length_replicate, hH, hP]

/-! ## Envelopes of a `smsgMsg` body (`SecureMsgReceive`) -/

set_option maxRecDepth 100000 in
/-- C15, the code at a failing input: `oobMsg` has 116 bytes, so no byte of the body is
left behind the 104-byte header of its one envelope, whose `nPayload` is 16.
`SecureMsgReceive` does not reject it: with zero bytes in the memory behind the vector
it returns 0, reports no misbehaviour, and appends the header and 16 bytes that are not
in the body to the bucket file and to the `_wl` file. -/
theorem C15_receive_reads_past_body :
    oobMsg.length = 116
    ∧ leNat (rd oobMsg (12 + packedLayout.nPayload) 4) = 16
    ∧ (SecureMsgReceive toyCrypto packedLayout bobHost 100 sumHash (fun _ => 0) (fun _ => 0)
        1000000 engineTwo 7 oobMsg).1 = 0
    ∧ (SecureMsgReceive toyCrypto packedLayout bobHost 100 sumHash (fun _ => 0) (fun _ => 0)
        1000000 engineTwo 7 oobMsg).2.misbehaving = []
    ∧ mapFind (SecureMsgReceive toyCrypto packedLayout bobHost 100 sumHash (fun _ => 0)
        (fun _ => 0) 1000000 engineTwo 7 oobMsg).2.store.files 997200
      = some (headerAt 1000000 16 ++ samplePayload
          ++ powHeader 82 1000001 1 16 ++ List.replicate 16 0)
    ∧ mapFind (SecureMsgReceive toyCrypto packedLayout bobHost 100 sumHash (fun _ => 0)
        (fun _ => 0) 1000000 engineTwo 7 oobMsg).2.store.wlFiles 997200
      = some (powHeader 82 1000001 1 16 ++ List.replicate 16 0) := by
  decide

/-! ## Validation comes before scanning in `SecureMsgReceive` -/

theorem receiveLoop_invalid (C : Crypto) (L : Layout) (H : Host) (maxWorst : Nat)
    (xxh32 : Nat → List Nat → Nat) (oob oobPlain : Nat → Nat) (now : Int) (pfrom : Int)
    (vchData : List Nat) (i n : Nat) (e : Engine)
    (hbad : SecureMsgValidate L maxWorst C.hmac (vrd vchData oob n SMSG_HDR_LEN)
      (vrd vchData oob (n + SMSG_HDR_LEN)
        (leNat (rd (vrd vchData oob n SMSG_HDR_LEN) L.nPayload 4))) ≠ 0) :
    (receiveLoop C L H maxWorst xxh32 oob oobPlain now pfrom vchData i n e).store = e.store
    ∧ (receiveLoop C L H maxWorst xxh32 oob oobPlain now pfrom vchData i n e).inbox = e.inbox
    ∧ (receiveLoop C L H maxWorst xxh32 oob oobPlain now pfrom vchData i n e).inboxNotified
        = e.inboxNotified := by
  induction i generalizing e with
  | zero => exact ⟨rfl, rfl, rfl⟩
  | succ i ih =>
    rw [receiveLoop]
    split_ifs with h1
    · exact ⟨rfl, rfl, rfl⟩
    · simp only [if_pos hbad]
      exact ih _

set_option maxRecDepth 100000 in
/-- C18 does not hold as stated: the envelope (`headerAt 1000000 16`, `samplePayload`)
fails `SecureMsgValidate`, and `SecureMsgScanMessage`, called with it while the wallet is
locked, appends it to the `_wl` file of its bucket and returns 3; called with the
envelope `helloEnvelope`, which fails `SecureMsgValidate` as well, while the wallet is
unlocked, it puts the envelope into the inbox. -/
theorem C18_scan_does_not_validate :
    SecureMsgValidate packedLayout 100 sumMac (headerAt 1000000 16) samplePayload ≠ 0
    ∧ (SecureMsgScanMessage toyCrypto packedLayout bobHost (fun _ => 0) (fun _ => 0) 1000000
        { engineOne with store := emptyStore } (headerAt 1000000 16) samplePayload true)
      = (3, { engineOne with store := { emptyStore with
          wlFiles := [(997200, headerAt 1000000 16 ++ samplePayload)] } })
    ∧ SecureMsgValidate packedLayout 100 sumMac helloEnvelope.2.1 helloEnvelope.2.2 ≠ 0
    ∧ (SecureMsgScanMessage toyCrypto packedLayout bobHost (fun _ => 0) (fun _ => 0) 1000000
        (bobEngine true) helloEnvelope.2.1 helloEnvelope.2.2 true).2.inbox.length = 1 := by
  decide

/-- C18, as the code has it: `SecureMsgScanMessage` does not validate; validation comes
first in its caller `SecureMsgReceive`.  An envelope of a `smsgMsg` body on which
`SecureMsgValidate` does not return 0 is dropped there before `SecureMsgStore` and
`SecureMsgScanMessage` are called: the loop from that envelope on, and the whole call
when that envelope is the first of the body, write nothing to the inbox, to the bucket
files and to the `_wl` files. -/
theorem C18_receive_validates_first (C : Crypto) (L : Layout) (H : Host) (maxWorst : Nat)
    (xxh32 : Nat → List Nat → Nat) (oob oobPlain : Nat → Nat) (now : Int) (pfrom : Int)
    (vchData : List Nat) (i n : Nat) (e : Engine)
    (hbad : SecureMsgValidate L maxWorst C.hmac (vrd vchData oob n SMSG_HDR_LEN)
      (vrd vchData oob (n + SMSG_HDR_LEN)
        (leNat (rd (vrd vchData oob n SMSG_HDR_LEN) L.nPayload 4))) ≠ 0) :
    ((receiveLoop C L H maxWorst xxh32 oob oobPlain now pfrom vchData i n e).store = e.store
      ∧ (receiveLoop C L H maxWorst xxh32 oob oobPlain now pfrom vchData i n e).inbox = e.inbox
      ∧ (receiveLoop C L H maxWorst xxh32 oob oobPlain now pfrom vchData i n e).inboxNotified
          = e.inboxNotified)
    ∧ (n = 12 →
        (SecureMsgReceive C L H maxWorst xxh32 oob oobPlain now e pfrom vchData).2.inbox
            = e.inbox
        ∧ (SecureMsgReceive C L H maxWorst xxh32 oob oobPlain now e pfrom vchData).2.store.files
            = e.store.files
        ∧ (SecureMsgReceive C L H maxWorst xxh32 oob oobPlain now e pfrom vchData).2.store.wlFiles
            = e.store.wlFiles) := by
  refine ⟨receiveLoop_invalid C L H maxWorst xxh32 oob oobPlain now pfrom vchData i n e hbad, ?_⟩
  intro hn
  subst hn
  have hloop := fun k =>
    receiveLoop_invalid C L H maxWorst xxh32 oob oobPlain now pfrom vchData k 12 e hbad
  unfold SecureMsgReceive
  by_cases h1 : vchData.length < 12
  · rw [if_pos h1]; exact ⟨rfl, rfl, rfl⟩
  rw [if_neg h1]
  simp only []
  by_cases h2 : leI64 (rd vchData 4 8) > now + SMSG_TIME_LEEWAY
  · rw [if_pos h2]; exact ⟨rfl, rfl, rfl⟩
  rw [if_neg h2]
  by_cases h3 : leI64 (rd vchData 4 8) < now - SMSG_RETENTION
  · rw [if_pos h3]; exact ⟨rfl, rfl, rfl⟩
  rw [if_neg h3]
  by_cases h4 : leNat (rd vchData 0 4) = 0 ∨ leNat (rd vchData 0 4) > 500
  · rw [if_pos h4]
    cases mapFind e.store.smsgBuckets (leI64 (rd vchData 4 8)) <;> exact ⟨rfl, rfl, rfl⟩
  rw [if_neg h4]
  obtain ⟨hs, hi, _⟩ := hloop (leNat (rd vchData 0 4))
  cases hb : mapFind (receiveLoop C L H maxWorst xxh32 oob oobPlain now pfrom vchData
      (leNat (rd vchData 0 4)) 12 e).store.smsgBuckets (leI64 (rd vchData 4 8)) with
  | none => simp only [hs, hi, and_self]
  | some b => simp only [hs, hi, and_self]

set_option maxRecDepth 100000 in
/-- C18 (amended) at a concrete input: a `smsgMsg` body whose one envelope fails
validation. -/
theorem C18_receive_validates_first_witness :
    (SecureMsgReceive toyCrypto packedLayout bobHost 100 sumHash (fun _ => 0) (fun _ => 0)
        1000000 (bobEngine true) 7
        (leBytes 1 4 ++ i64Bytes 997200 ++ helloEnvelope.2.1 ++ helloEnvelope.2.2)).2.inbox
      = (bobEngine true).inbox
    ∧ (SecureMsgReceive toyCrypto packedLayout bobHost 100 sumHash (fun _ => 0) (fun _ => 0)
        1000000 (bobEngine true) 7
        (leBytes 1 4 ++ i64Bytes 997200 ++ helloEnvelope.2.1 ++ helloEnvelope.2.2)).2.store.files
      = (bobEngine true).store.files
    ∧ (SecureMsgReceive toyCrypto packedLayout bobHost 100 sumHash (fun _ => 0) (fun _ => 0)
        1000000 (bobEngine true) 7
        (leBytes 1 4 ++ i64Bytes 997200 ++ helloEnvelope.2.1
          ++ helloEnvelope.2.2)).2.store.wlFiles
      = (bobEngine true).store.wlFiles :=
  (C18_receive_validates_first toyCrypto packedLayout bobHost 100 sumHash (fun _ => 0)
    (fun _ => 0) 1000000 7
    (leBytes 1 4 ++ i64Bytes 997200 ++ helloEnvelope.2.1 ++ helloEnvelope.2.2) 1 12
    (bobEngine true) (by decide)).2 rfl

/-! ## The receive-anonymous flag in `SecureMsgScanMessage` -/

theorem scanAddresses_skip (C : Crypto) (L : Layout) (H : Host) (oobPlain : Nat → Nat)
    (pHeader pPayload : List Nat) (pre r : List SecMsgAddress) (addressTo : List Nat)
    (msg : MessageData) (hpre : ∀ x ∈ pre, x.fReceiveEnabled = false) :
    scanAddresses C L H oobPlain pHeader pPayload (pre ++ r) addressTo msg
      = scanAddresses C L H oobPlain pHeader pPayload r addressTo msg := by
  induction pre with
  | nil => rfl
  | cons x xs ih =>
    have hx : x.fReceiveEnabled = false := hpre x (List.mem_cons_self _ _)
    rw [List.cons_append, scanAddresses]
    simp only [hx, Bool.not_false, if_true]
    exact ih (fun y hy => hpre y (List.mem_cons_of_mem _ hy))

set_option maxRecDepth 100000 in
/-- C19 does not hold as stated: the recipient's address is enabled and its
receive-anonymous flag is set; `helloEnvelope` decrypts for it and its sender is named
(not "anon"), and yet `SecureMsgScanMessage` accepts it into the inbox.  With the flag
clear the same envelope is accepted too. -/
theorem C19_named_sender_accepted :
    (SecureMsgDecrypt toyCrypto packedLayout bobHost (fun _ => 0) false bobId helloEnvelope.2.1
        helloEnvelope.2.2 emptyMessageData).1 = 0
    ∧ (SecureMsgDecrypt toyCrypto packedLayout bobHost (fun _ => 0) false bobId
        helloEnvelope.2.1 helloEnvelope.2.2 emptyMessageData).2.sFromAddress ≠ "anon"
    ∧ (SecureMsgScanMessage toyCrypto packedLayout bobHost (fun _ => 0) (fun _ => 0) 1000000
        (bobEngine true) helloEnvelope.2.1 helloEnvelope.2.2 true).2.inbox
      = [([105, 109] ++ rd helloEnvelope.2.1 packedLayout.timestamp 8
            ++ rd helloEnvelope.2.2 0 8,
          { timeReceived := 1000000, status := 1, addrTo := bobId,
            vchMessage := helloEnvelope.2.1 ++ helloEnvelope.2.2 })]
    ∧ (SecureMsgScanMessage toyCrypto packedLayout bobHost (fun _ => 0) (fun _ => 0) 1000000
        (bobEngine false) helloEnvelope.2.1 helloEnvelope.2.2 true).2.inbox.length = 1 := by
  decide

/-- C19, as the code has it: the flag says that the address also receives anonymous
messages.  For the first enabled address of `smsgAddresses`, with the wallet set and
unlocked: when its receive-anonymous flag is set, every envelope that passes the
test-only decryption (the MAC check) for it is accepted into the inbox, whoever the
sender is; when the flag is clear, an envelope that decrypts for it is accepted when its
sender is not "anon", and is left out of the inbox when its sender is "anon". -/
theorem C19_anon_flag (C : Crypto) (L : Layout) (H : Host) (oobPayload oobPlain : Nat → Nat)
    (now : Int) (e : Engine) (pHeader pPayload : List Nat) (reportToGui : Bool)
    (pre r : List SecMsgAddress) (a : SecMsgAddress)
    (hw : e.walletSet = true) (hl : e.walletLocked = false)
    (haddr : e.smsgAddresses = pre ++ a :: r)
    (hpre : ∀ x ∈ pre, x.fReceiveEnabled = false) (hen : a.fReceiveEnabled = true) :
    (a.fReceiveAnon = true →
      (SecureMsgDecrypt C L H oobPlain true a.address pHeader pPayload
        { timestamp := 0, sFromAddress := "", vchMessage := [] }).1 = 0 →
      ((SecureMsgScanMessage C L H oobPayload oobPlain now e pHeader pPayload
          reportToGui).2.inbox.lookup
        ([105, 109] ++ rd pHeader L.timestamp 8 ++ vrd pPayload oobPayload 0 8)).isSome = true)
    ∧ (a.fReceiveAnon = false →
      (SecureMsgDecrypt C L H oobPlain false a.address pHeader pPayload
        { timestamp := 0, sFromAddress := "", vchMessage := [] }).1 = 0 →
      (SecureMsgDecrypt C L H oobPlain false a.address pHeader pPayload
        { timestamp := 0, sFromAddress := "", vchMessage := [] }).2.sFromAddress ≠ "anon" →
      ((SecureMsgScanMessage C L H oobPayload oobPlain now e pHeader pPayload
          reportToGui).2.inbox.lookup
        ([105, 109] ++ rd pHeader L.timestamp 8 ++ vrd pPayload oobPayload 0 8)).isSome = true)
    ∧ (a.fReceiveAnon = false →
      (SecureMsgDecrypt C L H oobPlain false a.address pHeader pPayload
        { timestamp := 0, sFromAddress := "", vchMessage := [] }).1 = 0 →
      (SecureMsgDecrypt C L H oobPlain false a.address pHeader pPayload
        { timestamp := 0, sFromAddress := "", vchMessage := [] }).2.sFromAddress = "anon" →
      SecureMsgScanMessage C L H oobPayload oobPlain now e pHeader pPayload reportToGui
        = (0, e)) := by
  have hscan : scanAddresses C L H oobPlain pHeader pPayload e.smsgAddresses []
      { timestamp := 0, sFromAddress := "", vchMessage := [] }
      = scanAddresses C L H oobPlain pHeader pPayload (a :: r) []
        { timestamp := 0, sFromAddress := "", vchMessage := [] } := by
    rw [haddr]; exact scanAddresses_skip C L H oobPlain pHeader pPayload pre (a :: r) [] _ hpre
  have hkey : ∀ (inbox : List (List Nat × SecMsgStored)) (k : List Nat) (v : SecMsgStored),
      (inbox.lookup k).isSome = false → ((inbox ++ [(k, v)]).lookup k).isSome = true := by
    intro inbox k v
    induction inbox with
    | nil => intro _; simp [List.lookup]
    | cons x xs ih =>
      obtain ⟨k1, v1⟩ := x
      intro h
      rw [List.cons_append, List.lookup_cons]
      rw [List.lookup_cons] at h
      cases hk : (k == k1) with
      | true => rw [hk] at h; simp at h
      | false => rw [hk] at h; exact ih h
  have haccept : (scanAddresses C L H oobPlain pHeader pPayload (a :: r) []
        { timestamp := 0, sFromAddress := "", vchMessage := [] }).1 = true →
      ((SecureMsgScanMessage C L H oobPayload oobPlain now e pHeader pPayload
          reportToGui).2.inbox.lookup
        ([105, 109] ++ rd pHeader L.timestamp 8 ++ vrd pPayload oobPayload 0 8)).isSome
        = true := by
    intro hfound
    unfold SecureMsgScanMessage
    simp only [hw, hl, hscan, hfound, Bool.not_true, Bool.false_eq_true, if_false, if_true]
    by_cases hk : (e.inbox.lookup
        ([105, 109] ++ rd pHeader L.timestamp 8 ++ vrd pPayload oobPayload 0 8)).isSome = true
    · rw [if_pos hk]; exact hk
    · rw [if_neg hk]
      exact hkey _ _ _ ((Bool.not_eq_true _).mp hk)
  refine ⟨?_, ?_, ?_⟩
  · intro hanon hdec
    apply haccept
    rw [scanAddresses]
    simp only [hen, hanon, Bool.not_true, Bool.false_eq_true, if_false, hdec, if_true]
  · intro hanon hdec hfrom
    apply haccept
    rw [scanAddresses]
    simp only [hen, hanon, Bool.not_true, Bool.not_false, Bool.false_eq_true, if_false, hdec,
      if_true, hfrom, ne_eq, not_false_eq_true, decide_True]
  · intro hanon hdec hfrom
    unfold SecureMsgScanMessage
    rw [hscan, scanAddresses]
    simp only [hw, hl, hen, hanon, Bool.not_true, Bool.not_false, Bool.false_eq_true, if_false,
      hdec, if_true, hfrom, ne_eq, not_true_eq_false, decide_False]

set_option maxRecDepth 100000 in
/-- C19 (amended) at a concrete input: the recipient's engine with the flag set and the
envelope `helloEnvelope` of a named sender; the envelope is in the inbox afterwards. -/
theorem C19_anon_flag_witness :
    ((SecureMsgScanMessage toyCrypto packedLayout bobHost (fun _ => 0) (fun _ => 0) 1000000
        (bobEngine true) helloEnvelope.2.1 helloEnvelope.2.2 true).2.inbox.lookup
      ([105, 109] ++ rd helloEnvelope.2.1 packedLayout.timestamp 8
        ++ vrd helloEnvelope.2.2 (fun _ => 0) 0 8)).isSome = true :=
  (C19_anon_flag toyCrypto packedLayout bobHost (fun _ => 0) (fun _ => 0) 1000000
    (bobEngine true) helloEnvelope.2.1 helloEnvelope.2.2 true []
    [] { address := bobId, fReceiveEnabled := true, fReceiveAnon := true }
    rfl rfl rfl (by simp) rfl).1 rfl (by decide)

/-! ## `SecureMsgScanMessage` with a locked wallet, and its return codes -/

/-- C24: with the wallet set and locked, `SecureMsgScanMessage` on an envelope whose
timestamp is inside the window `now - SMSG_RETENTION ≤ timestamp ≤ now + SMSG_TIME_LEEWAY`
returns 3, appends exactly the 104 header bytes followed by the payload to the `_wl` file
of the bucket of the timestamp, and leaves the bucket map, the bucket files, the other
`_wl` files, the inbox and everything else as it was. -/
theorem C24_locked_wallet_defers (C : Crypto) (L : Layout) (H : Host)
    (oobPayload oobPlain : Nat → Nat) (now : Int) (e : Engine) (pHeader pPayload : List Nat)
    (reportToGui : Bool) (hw : e.walletSet = true) (hl : e.walletLocked = true)
    (h1 : now - SMSG_RETENTION ≤ leI64 (rd pHeader L.timestamp 8))
    (h2 : leI64 (rd pHeader L.timestamp 8) ≤ now + SMSG_TIME_LEEWAY) :
    SecureMsgScanMessage C L H oobPayload oobPlain now e pHeader pPayload reportToGui
      = (3, { e with store := { e.store with
          wlFiles := mapSet e.store.wlFiles (bucketOf (leI64 (rd pHeader L.timestamp 8)))
            ((mapFind e.store.wlFiles (bucketOf (leI64 (rd pHeader L.timestamp 8)))).getD []
              ++ rd pHeader 0 SMSG_HDR_LEN ++ pPayload) } }) := by
  have hs : SecureMsgStoreUnscanned L now e.store pHeader pPayload
      = (.ok, { e.store with
          wlFiles := mapSet e.store.wlFiles (bucketOf (leI64 (rd pHeader L.timestamp 8)))
            ((mapFind e.store.wlFiles (bucketOf (leI64 (rd pHeader L.timestamp 8)))).getD []
              ++ rd pHeader 0 SMSG_HDR_LEN ++ pPayload) }) := by
    unfold SecureMsgStoreUnscanned
    simp only []
    rw [if_neg (by omega), if_neg (by omega)]
  unfold SecureMsgScanMessage
  simp only [hw, hl, hs, Bool.not_true, Bool.false_eq_true, if_false, if_true, StoreResult.code,
    ne_eq, not_true_eq_false]

set_option maxRecDepth 100000 in
/-- C24 at a concrete input: `engineOne` (wallet locked) scans an envelope of the
bucket 997200 at time 1000000. -/
theorem C24_locked_wallet_defers_witness :
    SecureMsgScanMessage toyCrypto packedLayout bobHost (fun _ => 0) (fun _ => 0) 1000000
        engineOne (headerAt 1000001 16) samplePayload2 true
      = (3, { engineOne with store := { engineOne.store with
          wlFiles := [(997200, headerAt 1000000 16 ++ samplePayload
            ++ headerAt 1000001 16 ++ samplePayload2)] } }) :=
  (C24_locked_wallet_defers toyCrypto packedLayout bobHost (fun _ => 0) (fun _ => 0) 1000000
    engineOne (headerAt 1000001 16) samplePayload2 true rfl rfl (by decide) (by decide)).trans
    (by decide)

set_option maxRecDepth 100000 in
/-- C25, the code at a failing input: the wallet of `bobEngine false` is set and unlocked
and its one address is enabled; the envelope (`headerAt 1000000 16`, `samplePayload`) does
not decrypt for that address, so no address accepts it, and `SecureMsgScanMessage` still
returns 0, not 2, leaving the state as it was.  It returns 0 as well when there is no
address at all. -/
theorem C25_scan_returns_zero_without_match :
    (SecureMsgDecrypt toyCrypto packedLayout bobHost (fun _ => 0) false bobId
        (headerAt 1000000 16) samplePayload emptyMessageData).1 ≠ 0
    ∧ (scanAddresses toyCrypto packedLayout bobHost (fun _ => 0) (headerAt 1000000 16)
        samplePayload (bobEngine false).smsgAddresses [] emptyMessageData).1 = false
    ∧ SecureMsgScanMessage toyCrypto packedLayout bobHost (fun _ => 0) (fun _ => 0) 1000000
        (bobEngine false) (headerAt 1000000 16) samplePayload true = (0, bobEngine false)
    ∧ SecureMsgScanMessage toyCrypto packedLayout bobHost (fun _ => 0) (fun _ => 0) 1000000
        { bobEngine false with smsgAddresses := [] } (headerAt 1000000 16) samplePayload true
      = (0, { bobEngine false with smsgAddresses := [] }) := by
  decide

/-! ## Misbehaviour, bucket keys and locks in the `smsgInv` and `smsgHave` branches -/

theorem mapFind_mapTouch_isSome (m : List (Int × SecMsgBucket)) (k k2 : Int) :
    (mapFind (mapTouch m k) k2).isSome = ((mapFind m k2).isSome || decide (k = k2)) := by
  unfold mapTouch
  cases h : mapFind m k with
  | some b =>
    by_cases hk : k = k2
    · subst hk; simp [h]
    · simp [hk]
  | none =>
    simp only [mapFind_mapSet]
    by_cases hk : k = k2
    · simp [hk]
    · simp [hk]

theorem invOutside_cons (now : Int) (x : Int × Nat × Nat) (r : List (Int × Nat × Nat)) :
    invOutside now (x :: r)
      = if (decide (x.1 < now - SMSG_RETENTION - SMSG_TIME_LEEWAY)
            || decide (x.1 > now + SMSG_TIME_LEEWAY)) = true
        then x :: invOutside now r else invOutside now r := by
  unfold invOutside
  rw [List.filter_cons]

theorem invLoop_frame (now : Int) (pfrom : Int) (vchData : List Nat) (i p : Nat)
    (st : InvLoop) :
    (invLoop now pfrom vchData i p st).misbehaving
        = st.misbehaving
          ++ List.replicate (invOutside now (invParse vchData i p)).length (pfrom, 1)
    ∧ (∀ k, mapAt (invLoop now pfrom vchData i p st).smsgBuckets k = mapAt st.smsgBuckets k)
    ∧ (∀ k, (mapFind (invLoop now pfrom vchData i p st).smsgBuckets k).isSome = true →
        (mapFind st.smsgBuckets k).isSome = true
        ∨ (now - SMSG_RETENTION ≤ k ∧ k ≤ now + SMSG_TIME_LEEWAY)) := by
  induction i generalizing p st with
  | zero =>
    refine ⟨by simp [invLoop, invParse, invOutside], fun _ => rfl, fun k h => Or.inl h⟩
  | succ i ih =>
    unfold invLoop
    rw [show invParse vchData (i + 1) p
      = (leI64 (rd vchData p 8), leNat (rd vchData (p + 8) 4), leNat (rd vchData (p + 12) 4))
        :: invParse vchData i (p + 16) from rfl, invOutside_cons]
    generalize leI64 (rd vchData p 8) = t
    generalize leNat (rd vchData (p + 8) 4) = nc
    generalize leNat (rd vchData (p + 12) 4) = hs
    simp only []
    have happ : ∀ (a : List (Int × Nat)) (n : Nat),
        a ++ [(pfrom, 1)] ++ List.replicate n (pfrom, 1)
          = a ++ List.replicate (n + 1) (pfrom, 1) := by
      intro a n
      rw [List.append_assoc, List.replicate_succ]
      rfl
    by_cases h1 : t < now - SMSG_RETENTION
    · rw [if_pos h1]
      by_cases h1b : t < now - SMSG_RETENTION - SMSG_TIME_LEEWAY
      · have hin : (decide (t < now - SMSG_RETENTION - SMSG_TIME_LEEWAY)
            || decide (t > now + SMSG_TIME_LEEWAY)) = true := by simp [h1b]
        rw [if_pos h1b, if_pos hin]
        obtain ⟨a, b, c⟩ := ih (p + 16)
          { st with misbehaving := st.misbehaving ++ [(pfrom, 1)] }
        exact ⟨by rw [a, List.length_cons]; exact happ _ _, b, c⟩
      · have h2 : ¬ t > now + SMSG_TIME_LEEWAY := by
          have : SMSG_RETENTION = 172800 := rfl
          have : SMSG_TIME_LEEWAY = 60 := rfl
          omega
        have hout : ¬ (decide (t < now - SMSG_RETENTION - SMSG_TIME_LEEWAY)
            || decide (t > now + SMSG_TIME_LEEWAY)) = true := by simp [h1b, h2]
        rw [if_neg h1b, if_neg hout]
        exact ih (p + 16) st
    rw [if_neg h1]
    have h1b : ¬ t < now - SMSG_RETENTION - SMSG_TIME_LEEWAY := by
      have : SMSG_TIME_LEEWAY = 60 := rfl
      omega
    by_cases h2 : t > now + SMSG_TIME_LEEWAY
    · have hin : (decide (t < now - SMSG_RETENTION - SMSG_TIME_LEEWAY)
          || decide (t > now + SMSG_TIME_LEEWAY)) = true := by simp [h2]
      rw [if_pos h2, if_pos hin]
      obtain ⟨a, b, c⟩ := ih (p + 16)
        { st with misbehaving := st.misbehaving ++ [(pfrom, 1)] }
      exact ⟨by rw [a, List.length_cons]; exact happ _ _, b, c⟩
    have hout : ¬ (decide (t < now - SMSG_RETENTION - SMSG_TIME_LEEWAY)
        || decide (t > now + SMSG_TIME_LEEWAY)) = true := by simp [h1b, h2]
    rw [if_neg h2, if_neg hout]
    have hwin : now - SMSG_RETENTION ≤ t ∧ t ≤ now + SMSG_TIME_LEEWAY := ⟨by omega, by omega⟩
    have htouch : ∀ (st1 : InvLoop), st1.misbehaving = st.misbehaving →
        st1.smsgBuckets = mapTouch st.smsgBuckets t →
        (invLoop now pfrom vchData i (p + 16) st1).misbehaving
            = st.misbehaving
              ++ List.replicate (invOutside now (invParse vchData i (p + 16))).length (pfrom, 1)
        ∧ (∀ k, mapAt (invLoop now pfrom vchData i (p + 16) st1).smsgBuckets k
            = mapAt st.smsgBuckets k)
        ∧ (∀ k, (mapFind (invLoop now pfrom vchData i (p + 16) st1).smsgBuckets k).isSome
              = true →
            (mapFind st.smsgBuckets k).isSome = true
            ∨ (now - SMSG_RETENTION ≤ k ∧ k ≤ now + SMSG_TIME_LEEWAY)) := by
      intro st1 hmis hbk
      obtain ⟨a, b, c⟩ := ih (p + 16) st1
      refine ⟨by rw [a, hmis], fun k => by rw [b, hbk, mapAt_mapTouch], fun k hk => ?_⟩
      rcases c k hk with h | h
      · rw [hbk, mapFind_mapTouch_isSome] at h
        rcases Bool.or_eq_true _ _ |>.mp h with h | h
        · exact Or.inl h
        · have : t = k := of_decide_eq_true h
          subst this
          exact Or.inr hwin
      · exact Or.inr h
    by_cases h3 : nc < 1
    · rw [if_pos h3]; exact ih (p + 16) st
    rw [if_neg h3]
    split_ifs
    · exact htouch _ rfl rfl
    · exact htouch _ rfl rfl
    · exact htouch _ rfl rfl

theorem recvInv_wellformed (now : Int) (e : Engine) (pfrom : Int) (vchData : List Nat)
    (h4 : 4 ≤ vchData.length) (hcount : leNat (rd vchData 0 4) ≤ 49)
    (hlen : 4 + leNat (rd vchData 0 4) * 16 ≤ vchData.length)
    (hign : ¬ now < (peerData e pfrom).ignoreUntil) :
    (recvInv now e pfrom vchData).2.sent
      = e.sent ++
        (if invWanted now e.store.smsgBuckets (invParse vchData (leNat (rd vchData 0 4)) 4)
            ≠ [] then
          [{ peer := pfrom, command := "smsgShow",
             data := leBytes (invWanted now e.store.smsgBuckets
                        (invParse vchData (leNat (rd vchData 0 4)) 4)).length 4
                      ++ ((invWanted now e.store.smsgBuckets
                        (invParse vchData (leNat (rd vchData 0 4)) 4)).map i64Bytes).flatten }]
         else if invLocked now e.store.smsgBuckets
            (invParse vchData (leNat (rd vchData 0 4)) 4) = false then
          [{ peer := pfrom, command := "smsgMatch", data := i64Bytes now }]
         else [])
    ∧ (recvInv now e pfrom vchData).2.misbehaving
      = (invLoop now pfrom vchData (leNat (rd vchData 0 4)) 4
          { smsgBuckets := e.store.smsgBuckets, misbehaving := e.misbehaving, nLocked := 0,
            nShowBuckets := 0, vchDataOut := List.replicate 4 0 }).misbehaving
    ∧ (recvInv now e pfrom vchData).2.store.smsgBuckets
      = (invLoop now pfrom vchData (leNat (rd vchData 0 4)) 4
          { smsgBuckets := e.store.smsgBuckets, misbehaving := e.misbehaving, nLocked := 0,
            nShowBuckets := 0, vchDataOut := List.replicate 4 0 }).smsgBuckets := by
  have hspec := invLoop_spec now pfrom vchData e.store.smsgBuckets (leNat (rd vchData 0 4)) 4
    { smsgBuckets := e.store.smsgBuckets, misbehaving := e.misbehaving, nLocked := 0,
      nShowBuckets := 0, vchDataOut := List.replicate 4 0 } (fun _ => rfl)
  obtain ⟨hout, hshow, hlock⟩ := hspec
  simp only [Nat.zero_add, Nat.lt_one_iff, true_and] at hshow hlock
  have hc : ¬ ((leNat (rd vchData 0 4) : Nat) : Int) > SMSG_RETENTION / SMSG_BUCKET_LEN + 1 := by
    have : SMSG_RETENTION / SMSG_BUCKET_LEN + 1 = 49 := by decide
    rw [this]; omega
  unfold recvInv
  rw [if_neg (by omega), if_neg hign]
  simp only []
  rw [if_neg hc, if_neg (by omega), hout, hshow,
    wr_head _ _ _ (by simp [length_leBytes])]
  by_cases hnil : invWanted now e.store.smsgBuckets
      (invParse vchData (leNat (rd vchData 0 4)) 4) = []
  · rw [hnil]
    simp only [List.map_nil, List.flatten_nil, List.append_nil, List.length_nil, length_leBytes,
      gt_iff_lt, lt_self_iff_false, if_false, ne_eq, not_true_eq_false]
    by_cases hl : invLocked now e.store.smsgBuckets
        (invParse vchData (leNat (rd vchData 0 4)) 4) = false
    · have hl0 := hlock.mpr hl
      have hm : wr (rd (leBytes 0 4 ++ List.replicate 8 0) 0 8) 0 (i64Bytes now)
          = i64Bytes now := by
        have h8 := length_i64Bytes now
        unfold wr rd
        simp [h8, length_leBytes]
      rw [if_pos (by omega), if_pos hl]
      exact ⟨by simp only [hm], rfl, rfl⟩
    · have hl0 : ¬ (invLoop now pfrom vchData (leNat (rd vchData 0 4)) 4
          { smsgBuckets := e.store.smsgBuckets, misbehaving := e.misbehaving, nLocked := 0,
            nShowBuckets := 0, vchDataOut := List.replicate 4 0 }).nLocked = 0 :=
        fun h => hl (hlock.mp h)
      rw [if_neg (by omega), if_neg hl]
      exact ⟨by simp, rfl, rfl⟩
  · have hbody : 0 < (((invWanted now e.store.smsgBuckets
        (invParse vchData (leNat (rd vchData 0 4)) 4)).map i64Bytes).flatten).length := by
      obtain ⟨x, r, hx⟩ := List.exists_cons_of_ne_nil hnil
      rw [hx]
      simp [length_i64Bytes]
    rw [if_pos (by simp only [List.length_append, length_leBytes]; omega), if_pos hnil]
    exact ⟨rfl, rfl, rfl⟩

theorem recvInv_malformed (now : Int) (e : Engine) (pfrom : Int) (vchData : List Nat)
    (h : vchData.length < 4 ∨ now < (peerData e pfrom).ignoreUntil
      ∨ 49 < leNat (rd vchData 0 4) ∨ vchData.length < 4 + leNat (rd vchData 0 4) * 16) :
    recvInv now e pfrom vchData
      = (1, if 4 ≤ vchData.length ∧ now < (peerData e pfrom).ignoreUntil then e
            else { e with misbehaving := e.misbehaving ++ [(pfrom, 1)] }) := by
  have h49 : SMSG_RETENTION / SMSG_BUCKET_LEN + 1 = 49 := by decide
  unfold recvInv
  by_cases h1 : vchData.length < 4
  · have hn : ¬ (4 ≤ vchData.length ∧ now < (peerData e pfrom).ignoreUntil) :=
      fun hh => absurd hh.1 (by omega)
    rw [if_pos h1, if_neg hn]
  rw [if_neg h1]
  by_cases h2 : now < (peerData e pfrom).ignoreUntil
  · have hp : 4 ≤ vchData.length ∧ now < (peerData e pfrom).ignoreUntil := ⟨by omega, h2⟩
    rw [if_pos h2, if_pos hp]
  have hn : ¬ (4 ≤ vchData.length ∧ now < (peerData e pfrom).ignoreUntil) :=
    fun hh => h2 hh.2
  rw [if_neg h2, if_neg hn]
  simp only []
  by_cases h3 : ((leNat (rd vchData 0 4) : Nat) : Int) > SMSG_RETENTION / SMSG_BUCKET_LEN + 1
  · rw [if_pos h3]
  have h5 : vchData.length < 4 + leNat (rd vchData 0 4) * 16 := by
    rcases h with h | h | h | h
    · exact absurd h h1
    · exact absurd h h2
    · rw [h49] at h3
      exact absurd (by omega) h3
    · exact h
  rw [if_neg h3, if_pos h5]

/-- C21 does not hold as stated: an inventory from peer 7 declares one entry and has 16
bytes, 4 short of the 20 it needs; the count is below 49 and the slot it names, 997200,
is inside the window, and yet the handler reports misbehaviour 1 (and returns 1 without a
reply). -/
theorem C21_short_inv_misbehaves :
    leNat (rd (leBytes 1 4 ++ i64Bytes 997200 ++ leBytes 2 4) 0 4) = 1
    ∧ 1000000 - SMSG_RETENTION - SMSG_TIME_LEEWAY
        ≤ leI64 (rd (leBytes 1 4 ++ i64Bytes 997200 ++ leBytes 2 4) 4 8)
    ∧ leI64 (rd (leBytes 1 4 ++ i64Bytes 997200 ++ leBytes 2 4) 4 8)
        ≤ 1000000 + SMSG_TIME_LEEWAY
    ∧ recvInv 1000000 engineTwo 7 (leBytes 1 4 ++ i64Bytes 997200 ++ leBytes 2 4)
      = (1, { engineTwo with misbehaving := [(7, 1)] }) := by
  decide

/-- C21, as the code has it: an inventory from a peer that is not ignored is rejected
with misbehaviour 1, the return code 1 and no reply when it has fewer than 4 bytes, when
its count exceeds 49, or when it has fewer than 16 bytes for every entry counted.
Otherwise the handler reports misbehaviour 1 once for every entry whose slot lies outside
`[now - 172800 - 60, now + 60]` and nothing else, the slots it asks for in `smsgShow` are
those of `invWanted`, and each of them lies inside `[now - 172800, now + 60]`. -/
theorem C21_inv_misbehaviour (now : Int) (e : Engine) (pfrom : Int) (vchData : List Nat)
    (hign : ¬ now < (peerData e pfrom).ignoreUntil) :
    ((vchData.length < 4 ∨ 49 < leNat (rd vchData 0 4)
        ∨ vchData.length < 4 + leNat (rd vchData 0 4) * 16) →
      recvInv now e pfrom vchData
        = (1, { e with misbehaving := e.misbehaving ++ [(pfrom, 1)] }))
    ∧ (¬ (vchData.length < 4 ∨ 49 < leNat (rd vchData 0 4)
        ∨ vchData.length < 4 + leNat (rd vchData 0 4) * 16) →
      (recvInv now e pfrom vchData).2.misbehaving
        = e.misbehaving ++ List.replicate
            (invOutside now (invParse vchData (leNat (rd vchData 0 4)) 4)).length (pfrom, 1)
      ∧ (∀ m ∈ (recvInv now e pfrom vchData).2.sent, m ∈ e.sent ∨ m.command = "smsgMatch"
          ∨ (m.command = "smsgShow"
            ∧ m.data = leBytes (invWanted now e.store.smsgBuckets
                  (invParse vchData (leNat (rd vchData 0 4)) 4)).length 4
                ++ ((invWanted now e.store.smsgBuckets
                  (invParse vchData (leNat (rd vchData 0 4)) 4)).map i64Bytes).flatten))
      ∧ ∀ slot ∈ invWanted now e.store.smsgBuckets
            (invParse vchData (leNat (rd vchData 0 4)) 4),
          now - SMSG_RETENTION ≤ slot ∧ slot ≤ now + SMSG_TIME_LEEWAY) := by
  constructor
  · intro h
    have h' : vchData.length < 4 ∨ now < (peerData e pfrom).ignoreUntil
        ∨ 49 < leNat (rd vchData 0 4) ∨ vchData.length < 4 + leNat (rd vchData 0 4) * 16 := by
      rcases h with h | h | h
      · exact Or.inl h
      · exact Or.inr (Or.inr (Or.inl h))
      · exact Or.inr (Or.inr (Or.inr h))
    rw [recvInv_malformed now e pfrom vchData h', if_neg (fun hh => hign hh.2)]
  · intro h
    have h4 : 4 ≤ vchData.length := by omega
    have hcount : leNat (rd vchData 0 4) ≤ 49 := by omega
    have hlen : 4 + leNat (rd vchData 0 4) * 16 ≤ vchData.length := by omega
    obtain ⟨hsent, hmis, _⟩ := recvInv_wellformed now e pfrom vchData h4 hcount hlen hign
    refine ⟨?_, ?_, ?_⟩
    · rw [hmis]
      exact (invLoop_frame now pfrom vchData _ 4 _).1
    · intro m hm
      rw [hsent, List.mem_append] at hm
      rcases hm with hm | hm
      · exact Or.inl hm
      · split_ifs at hm with ha hb
        · rw [List.mem_singleton] at hm
          subst hm
          exact Or.inr (Or.inr ⟨rfl, rfl⟩)
        · rw [List.mem_singleton] at hm
          subst hm
          exact Or.inr (Or.inl rfl)
        · simp at hm
    · intro slot hslot
      unfold invWanted at hslot
      rw [List.mem_map] at hslot
      obtain ⟨x, hx, rfl⟩ := hslot
      rw [List.mem_filter] at hx
      have hc := hx.2
      simp only [invConsidered, Bool.and_eq_true, decide_eq_true_eq] at hc
      exact ⟨hc.1.1.1.1, hc.1.1.1.2⟩

set_option maxRecDepth 100000 in
/-- C21 (amended) at concrete inputs: the short inventory of the counterexample is
rejected with misbehaviour 1; an inventory of two entries, the first 1000000 seconds
ahead of the clock and the second inside the window, reports misbehaviour once. -/
theorem C21_inv_misbehaviour_witness :
    recvInv 1000000 engineTwo 7 (leBytes 1 4 ++ i64Bytes 997200 ++ leBytes 2 4)
      = (1, { engineTwo with misbehaving := engineTwo.misbehaving ++ [(7, 1)] })
    ∧ (recvInv 1000000 engineTwo 7
        (leBytes 2 4 ++ i64Bytes 2000000 ++ leBytes 1 4 ++ leBytes 1 4
          ++ i64Bytes 997200 ++ leBytes 1 4 ++ leBytes 285 4)).2.misbehaving = [(7, 1)] :=
  ⟨(C21_inv_misbehaviour 1000000 engineTwo 7 (leBytes 1 4 ++ i64Bytes 997200 ++ leBytes 2 4)
      (by decide)).1 (by decide),
   ((C21_inv_misbehaviour 1000000 engineTwo 7
      (leBytes 2 4 ++ i64Bytes 2000000 ++ leBytes 1 4 ++ leBytes 1 4
        ++ i64Bytes 997200 ++ leBytes 1 4 ++ leBytes 285 4)
      (by decide)).2 (by decide)).1.trans (by decide)⟩

theorem haveMissing_append (tokenSet : List SecMsgToken) (vchData : List Nat) (n p : Nat)
    (out : List Nat) :
    ∃ rest, haveMissing tokenSet vchData n p out = out ++ rest := by
  induction n generalizing p out with
  | zero => exact ⟨[], by simp [haveMissing]⟩
  | succ n ih =>
    unfold haveMissing
    simp only []
    split_ifs
    · exact ih _ _
    · obtain ⟨rest, hr⟩ := ih (p + 16) (out ++ rd vchData p 16)
      exact ⟨rd vchData p 16 ++ rest, by rw [hr, List.append_assoc]⟩

theorem recvHave_frame (now : Int) (e : Engine) (p : Int) (vchData : List Nat) :
    (∀ k, (mapFind (recvHave now e p vchData).2.store.smsgBuckets k).isSome = true →
        (mapFind e.store.smsgBuckets k).isSome = true
        ∨ (now - SMSG_RETENTION ≤ k ∧ k ≤ now + SMSG_TIME_LEEWAY))
    ∧ (∀ k, mapAt (recvHave now e p vchData).2.store.smsgBuckets k
          ≠ mapAt e.store.smsgBuckets k →
        (mapAt e.store.smsgBuckets k).nLockCount = 0 ∧ k = leI64 (rd vchData 0 8))
    ∧ ((recvHave now e p vchData).2.sent = e.sent
      ∨ ∃ rest, (recvHave now e p vchData).2.sent
          = e.sent ++ [{ peer := p, command := "smsgWant", data := rd vchData 0 8 ++ rest }]
        ∧ 8 ≤ vchData.length
        ∧ (mapAt e.store.smsgBuckets (leI64 (rd vchData 0 8))).nLockCount = 0) := by
  unfold recvHave
  by_cases h1 : vchData.length < 8
  · rw [if_pos h1]
    exact ⟨fun k h => Or.inl h, fun k h => absurd rfl h, Or.inl rfl⟩
  rw [if_neg h1]
  simp only []
  generalize leI64 (rd vchData 0 8) = time
  by_cases h2 : time < now - SMSG_RETENTION
  · rw [if_pos h2]
    exact ⟨fun k h => Or.inl h, fun k h => absurd rfl h, Or.inl rfl⟩
  rw [if_neg h2]
  by_cases h3 : time > now + SMSG_TIME_LEEWAY
  · rw [if_pos h3]
    exact ⟨fun k h => Or.inl h, fun k h => absurd rfl h, Or.inl rfl⟩
  rw [if_neg h3]
  have hwin : now - SMSG_RETENTION ≤ time ∧ time ≤ now + SMSG_TIME_LEEWAY := ⟨by omega, by omega⟩
  have hkeys : ∀ k, (mapFind (mapTouch e.store.smsgBuckets time) k).isSome = true →
      (mapFind e.store.smsgBuckets k).isSome = true
      ∨ (now - SMSG_RETENTION ≤ k ∧ k ≤ now + SMSG_TIME_LEEWAY) := by
    intro k h
    rw [mapFind_mapTouch_isSome] at h
    rcases Bool.or_eq_true _ _ |>.mp h with h | h
    · exact Or.inl h
    · have : time = k := of_decide_eq_true h
      subst this
      exact Or.inr hwin
  simp only [mapAt_mapTouch]
  by_cases h4 : (mapAt e.store.smsgBuckets time).nLockCount > 0
  · rw [if_pos h4]
    exact ⟨hkeys, fun k h => absurd (mapAt_mapTouch _ _ _) h, Or.inl rfl⟩
  rw [if_neg h4]
  have h0 : (mapAt e.store.smsgBuckets time).nLockCount = 0 := by omega
  obtain ⟨rest, hrest⟩ := haveMissing_append (mapAt e.store.smsgBuckets time).setTokens vchData
    ((vchData.length - 8) / 16) 8 (rd vchData 0 8)
  by_cases h5 : (haveMissing (mapAt e.store.smsgBuckets time).setTokens vchData
      ((vchData.length - 8) / 16) 8 (rd vchData 0 8)).length > 8
  · rw [if_pos h5]
    refine ⟨?_, ?_, Or.inr ⟨rest, by simp only [hrest], by omega, h0⟩⟩
    · intro k h
      simp only [mapFind_mapSet] at h
      by_cases hk : time = k
      · subst hk; exact Or.inr hwin
      · rw [if_neg hk] at h; exact hkeys k h
    · intro k h
      simp only [mapAt_mapSet] at h
      by_cases hk : time = k
      · subst hk; exact ⟨h0, rfl⟩
      · rw [if_neg hk] at h; exact absurd (mapAt_mapTouch _ _ _) h
  · rw [if_neg h5]
    exact ⟨hkeys, fun k h => absurd (mapAt_mapTouch _ _ _) h, Or.inl rfl⟩

theorem recvInv_frame (now : Int) (e : Engine) (pfrom : Int) (vchData : List Nat) :
    (∀ k, mapAt (recvInv now e pfrom vchData).2.store.smsgBuckets k
        = mapAt e.store.smsgBuckets k)
    ∧ (∀ k, (mapFind (recvInv now e pfrom vchData).2.store.smsgBuckets k).isSome = true →
        (mapFind e.store.smsgBuckets k).isSome = true
        ∨ (now - SMSG_RETENTION ≤ k ∧ k ≤ now + SMSG_TIME_LEEWAY))
    ∧ (∀ m ∈ (recvInv now e pfrom vchData).2.sent, m ∈ e.sent ∨ m.command = "smsgMatch"
        ∨ (m.command = "smsgShow"
          ∧ m.data = leBytes (invWanted now e.store.smsgBuckets
                (invParse vchData (leNat (rd vchData 0 4)) 4)).length 4
              ++ ((invWanted now e.store.smsgBuckets
                (invParse vchData (leNat (rd vchData 0 4)) 4)).map i64Bytes).flatten)) := by
  by_cases h : vchData.length < 4 ∨ now < (peerData e pfrom).ignoreUntil
      ∨ 49 < leNat (rd vchData 0 4) ∨ vchData.length < 4 + leNat (rd vchData 0 4) * 16
  · rw [recvInv_malformed now e pfrom vchData h]
    split_ifs
    · exact ⟨fun _ => rfl, fun k hk => Or.inl hk, fun m hm => Or.inl hm⟩
    · exact ⟨fun _ => rfl, fun k hk => Or.inl hk, fun m hm => Or.inl hm⟩
  · have h4 : 4 ≤ vchData.length := by omega
    have hcount : leNat (rd vchData 0 4) ≤ 49 := by omega
    have hlen : 4 + leNat (rd vchData 0 4) * 16 ≤ vchData.length := by omega
    have hign : ¬ now < (peerData e pfrom).ignoreUntil := fun hh => h (Or.inr (Or.inl hh))
    obtain ⟨hsent, _, hbk⟩ := recvInv_wellformed now e pfrom vchData h4 hcount hlen hign
    obtain ⟨_, hat, hkeys⟩ := invLoop_frame now pfrom vchData (leNat (rd vchData 0 4)) 4
      { smsgBuckets := e.store.smsgBuckets, misbehaving := e.misbehaving, nLocked := 0,
        nShowBuckets := 0, vchDataOut := List.replicate 4 0 }
    refine ⟨fun k => by rw [hbk]; exact hat k, fun k hk => ?_, ?_⟩
    · rw [hbk] at hk; exact hkeys k hk
    · intro m hm
      rw [hsent, List.mem_append] at hm
      rcases hm with hm | hm
      · exact Or.inl hm
      · split_ifs at hm with ha hb
        · rw [List.mem_singleton] at hm
          subst hm
          exact Or.inr (Or.inr ⟨rfl, rfl⟩)
        · rw [List.mem_singleton] at hm
          subst hm
          exact Or.inr (Or.inl rfl)
        · simp at hm

set_option maxRecDepth 100000 in
/-- C23 does not hold as stated: the bucket map is empty; an inventory of peer 7 naming
the slot 997200 leaves the key 997200 in the map (an empty bucket), and so does a
`smsgHave` of peer 7 for that slot (a bucket locked for peer 7). -/
theorem C23_inv_and_have_create_buckets :
    ({ engineOne with store := emptyStore } : Engine).store.smsgBuckets = []
    ∧ (recvInv 1000000 { engineOne with store := emptyStore } 7
        (leBytes 1 4 ++ i64Bytes 997200 ++ leBytes 2 4 ++ leBytes 5 4)).2.store.smsgBuckets
      = [(997200, SecMsgBucket.fresh)]
    ∧ (recvHave 1000000 { engineOne with store := emptyStore } 7
        (haveMsg 997200 1000001)).2.store.smsgBuckets
      = [(997200, { SecMsgBucket.fresh with nLockCount := 3, nLockPeerId := 7 })] := by
  decide

/-- C23, as the code has it: handling `smsgShow`, `smsgWant` or `smsgMatch` leaves the
bucket map (and the whole store) as it was; handling `smsgInv` or `smsgHave` may add keys,
through the access `smsgBuckets[time]`, but only keys inside the window
`[now - 172800, now + 60]`, whatever slots the peer supplies. -/
theorem C23_bucket_keys (L : Layout) (oob : Nat → Nat) (now : Int) (e : Engine) (pfrom : Int)
    (vchData : List Nat) :
    (recvShow oob e pfrom vchData).2.store = e.store
    ∧ (recvWant L e pfrom vchData).2.store = e.store
    ∧ (recvMatch e pfrom vchData).2.store = e.store
    ∧ (∀ k, (mapFind (recvInv now e pfrom vchData).2.store.smsgBuckets k).isSome = true →
        (mapFind e.store.smsgBuckets k).isSome = true
        ∨ (now - SMSG_RETENTION ≤ k ∧ k ≤ now + SMSG_TIME_LEEWAY))
    ∧ (∀ k, (mapFind (recvHave now e pfrom vchData).2.store.smsgBuckets k).isSome = true →
        (mapFind e.store.smsgBuckets k).isSome = true
        ∨ (now - SMSG_RETENTION ≤ k ∧ k ≤ now + SMSG_TIME_LEEWAY)) := by
  refine ⟨?_, ?_, ?_, (recvInv_frame now e pfrom vchData).2.1,
    (recvHave_frame now e pfrom vchData).1⟩
  · unfold recvShow
    simp only []
    split_ifs <;> rfl
  · unfold recvWant
    simp only []
    split_ifs
    · rfl
    · cases mapFind e.store.smsgBuckets (leI64 (rd vchData 0 8)) with
      | none => rfl
      | some b =>
        simp only []
        split_ifs <;> rfl
  · unfold recvMatch
    split_ifs <;> rfl

/-! ## Failing inputs of `SecureMsgReceive`, `smsgShow` and `SecureMsgDecrypt` -/

set_option maxRecDepth 100000 in
/-- C22, the code at a failing input: `twoMsg` carries two envelopes, the first with an
invalid proof of work (`SecureMsgValidate` returns 2), the second valid.
`SecureMsgReceive` returns 0 after it has reported misbehaviour 10 twice, both times for
the first envelope, and the second envelope is never reached: the bucket files and the
token set of its bucket are as before. -/
theorem C22_invalid_envelope_blocks_rest :
    leNat (rd twoMsg 0 4) = 2
    ∧ SecureMsgValidate packedLayout 100 sumMac (rd twoMsg 12 104) (rd twoMsg 116 16) = 2
    ∧ SecureMsgValidate packedLayout 100 sumMac (rd twoMsg 132 104) (rd twoMsg 236 16) = 0
    ∧ (SecureMsgReceive toyCrypto packedLayout bobHost 100 sumHash (fun _ => 0) (fun _ => 0)
        1000000 engineTwo 7 twoMsg).1 = 0
    ∧ (SecureMsgReceive toyCrypto packedLayout bobHost 100 sumHash (fun _ => 0) (fun _ => 0)
        1000000 engineTwo 7 twoMsg).2.misbehaving = [(7, 10), (7, 10)]
    ∧ (SecureMsgReceive toyCrypto packedLayout bobHost 100 sumHash (fun _ => 0) (fun _ => 0)
        1000000 engineTwo 7 twoMsg).2.store.files = engineTwo.store.files
    ∧ (mapAt (SecureMsgReceive toyCrypto packedLayout bobHost 100 sumHash (fun _ => 0)
        (fun _ => 0) 1000000 engineTwo 7 twoMsg).2.store.smsgBuckets 997200).setTokens
      = (mapAt engineTwo.store.smsgBuckets 997200).setTokens := by
  decide

theorem showLoop_append (pfrom : Int) (m : List (Int × SecMsgBucket)) (vchData : List Nat)
    (oob : Nat → Nat) (i pIn : Nat) (sent : List NetMsg) :
    ∃ rest, showLoop pfrom m vchData oob i pIn sent = sent ++ rest := by
  induction i generalizing pIn sent with
  | zero => exact ⟨[], by simp [showLoop]⟩
  | succ i ih =>
    unfold showLoop
    simp only []
    cases mapFind m (leI64 (vrd vchData oob pIn 8)) with
    | none => exact ih _ _
    | some b =>
      obtain ⟨rest, hr⟩ := ih (pIn + 8)
        (sent ++ [{ peer := pfrom, command := "smsgHave",
                    data := haveBytes (leI64 (vrd vchData oob pIn 8)) b.setTokens }])
      exact ⟨{ peer := pfrom, command := "smsgHave",
               data := haveBytes (leI64 (vrd vchData oob pIn 8)) b.setTokens } :: rest,
        by simp only [hr, List.append_assoc, List.singleton_append]⟩

theorem recvShow_first (oob : Nat → Nat) (e : Engine) (pfrom : Int) (vchData : List Nat)
    (i : Nat) (b : SecMsgBucket) (h4 : ¬ vchData.length < 4)
    (hchk : ¬ vchData.length < (4 + leNat (rd vchData 0 4) * 8) % 4294967296)
    (hn : leNat (rd vchData 0 4) = i + 1)
    (hb : mapFind e.store.smsgBuckets (leI64 (vrd vchData oob 4 8)) = some b) :
    (recvShow oob e pfrom vchData).1 = 0
    ∧ ∃ rest, (recvShow oob e pfrom vchData).2.sent
        = e.sent ++ [{ peer := pfrom, command := "smsgHave",
                       data := haveBytes (leI64 (vrd vchData oob 4 8)) b.setTokens }] ++ rest := by
  unfold recvShow
  rw [if_neg h4]
  simp only []
  rw [if_neg hchk, hn, showLoop]
  simp only [hb]
  exact ⟨trivial, showLoop_append _ _ _ _ _ _ _⟩

/-- C29, the code at a failing input: the `smsgShow` payload has 4 bytes and the count
2^29.  In 32-bit arithmetic `4 + 8 * 2^29` is 4, so the length check passes although
the payload does not hold `4 + 8 * 2^29` bytes; the handler returns 0 and reads its first
slot from the 8 bytes behind the payload, here the bucket time 997200, for which it sends
`smsgHave`. -/
theorem C29_show_count_wraps :
    leNat (rd [0, 0, 0, 32] 0 4) = 536870912
    ∧ ([0, 0, 0, 32] : List Nat).length < 4 + 8 * 536870912
    ∧ (recvShow oobSlot engineTwo 7 [0, 0, 0, 32]).1 = 0
    ∧ ∃ rest, (recvShow oobSlot engineTwo 7 [0, 0, 0, 32]).2.sent
        = engineTwo.sent ++ [{ peer := 7, command := "smsgHave",
                               data := i64Bytes 997200 ++ i64Bytes 1000000
                                        ++ [1, 2, 3, 4, 5, 6, 7, 8] }] ++ rest := by
  have h := recvShow_first oobSlot engineTwo 7 [0, 0, 0, 32] 536870911
    (mapAt engineTwo.store.smsgBuckets 997200) (by decide) (by decide) (by decide) (by decide)
  refine ⟨by decide, by decide, h.1, ?_⟩
  obtain ⟨rest, hr⟩ := h.2
  refine ⟨rest, ?_⟩
  rw [hr]
  have hd : haveBytes (leI64 (vrd [0, 0, 0, 32] oobSlot 4 8))
      (mapAt engineTwo.store.smsgBuckets 997200).setTokens
      = i64Bytes 997200 ++ i64Bytes 1000000 ++ [1, 2, 3, 4, 5, 6, 7, 8] := by decide
  rw [hd]

set_option maxRecDepth 100000 in
/-- C30, the code at a failing input: `shortEnvelope` passes the MAC check for the
recipient and its decrypted payload is the single byte 250.  `SecureMsgDecrypt` does not
fail: it takes the form for anonymous (9 bytes) although the payload has 1, reads the
plaintext length and the plaintext behind the end of the decrypted payload and returns
0; with `oobPlainA` in the memory there the message is "AAA", with zero bytes it is
empty. -/
theorem C30_decrypt_reads_past_payload :
    shortEnvelope.1 = 0
    ∧ (SecureMsgDecrypt toyCrypto packedLayout bobHost oobPlainA true bobId shortEnvelope.2.1
        shortEnvelope.2.2 emptyMessageData).1 = 0
    ∧ toyCrypto.aesDecrypt
        (rd (toyCrypto.sha512 ((toyCrypto.ecdh (rd shortEnvelope.2.1 packedLayout.cpkR 33)
          bobKey).getD [])) 0 32)
        (rd shortEnvelope.2.1 packedLayout.iv 16) shortEnvelope.2.2 = some [250]
    ∧ SecureMsgDecrypt toyCrypto packedLayout bobHost oobPlainA false bobId shortEnvelope.2.1
        shortEnvelope.2.2 emptyMessageData
      = (0, { timestamp := 1000000, sFromAddress := "anon", vchMessage := [65, 65, 65, 0] })
    ∧ SecureMsgDecrypt toyCrypto packedLayout bobHost (fun _ => 0) false bobId
        shortEnvelope.2.1 shortEnvelope.2.2 emptyMessageData
      = (0, { timestamp := 1000000, sFromAddress := "anon", vchMessage := [0] }) := by
  decide

/-! ## The nonce search of `SecureMsgSetHash` -/

theorem wr_wr (bs a b : List Nat) (off : Nat) (h : off + a.length ≤ bs.length)
    (hab : a.length = b.length) : wr (wr bs off a) off b = wr bs off b := by
  apply List.ext_getElem?
  intro i
  have hl := length_wr bs a off h
  rw [getElem?_wr _ _ _ _ (by omega), getElem?_wr _ _ _ _ (by omega),
    getElem?_wr _ _ _ _ (by omega)]
  by_cases h1 : i < off
  · simp [h1]
  · by_cases h2 : i < off + b.length
    · simp [h1, h2]
    · have h3 : ¬ i < off + a.length := by omega
      simp [h1, h2, h3]

theorem setHashLoop_fuel (L : Layout) (hmac : List Nat → List Nat → List Nat)
    (pPayload : List Nat) (fuel1 : Nat) :
    ∀ (fuel2 nonce : Nat) (hdr sha : List Nat), nonce < 4294967296 →
      4294967296 ≤ nonce + fuel1 → 4294967296 ≤ nonce + fuel2 →
      setHashLoop L hmac (fun _ => true) pPayload fuel1 nonce hdr sha
        = setHashLoop L hmac (fun _ => true) pPayload fuel2 nonce hdr sha := by
  induction fuel1 with
  | zero => intro fuel2 nonce hdr sha h1 h2 _; omega
  | succ f1 ih =>
    intro fuel2 nonce hdr sha h1 h2 h3
    cases fuel2 with
    | zero => omega
    | succ f2 =>
      rw [setHashLoop, setHashLoop]
      simp only [Bool.not_true, Bool.false_eq_true, if_false]
      split_ifs with ht hn
      · rfl
      · rfl
      · exact ih f2 (nonce + 1) _ _ (by omega) (by omega) (by omega)

theorem setHashLoop_least (L : Layout) (hL : L.WF) (hmac : List Nat → List Nat → List Nat)
    (pHeader pPayload : List Nat) (fuel : Nat) :
    ∀ (nonce : Nat) (hdr sha : List Nat), hdr.length = SMSG_HDR_LEN →
      (∀ x : List Nat, x.length = 4 → wr hdr L.nonce x = wr pHeader L.nonce x) →
      nonce < 4294967296 →
      (∀ k, k < nonce → powTarget (solveDigest L hmac pHeader pPayload k) = false) →
      (setHashLoop L hmac (fun _ => true) pPayload fuel nonce hdr sha).nonce < 4294967296
      ∧ ((setHashLoop L hmac (fun _ => true) pPayload fuel nonce hdr sha).found = true →
          powTarget (solveDigest L hmac pHeader pPayload
            (setHashLoop L hmac (fun _ => true) pPayload fuel nonce hdr sha).nonce) = true
          ∧ (∀ k, k < (setHashLoop L hmac (fun _ => true) pPayload fuel nonce hdr sha).nonce →
              powTarget (solveDigest L hmac pHeader pPayload k) = false)
          ∧ (setHashLoop L hmac (fun _ => true) pPayload fuel nonce hdr sha).header
              = wr pHeader L.nonce (leBytes
                  (setHashLoop L hmac (fun _ => true) pPayload fuel nonce hdr sha).nonce 4)
          ∧ (setHashLoop L hmac (fun _ => true) pPayload fuel nonce hdr sha).sha256Hash
              = solveDigest L hmac pHeader pPayload
                  (setHashLoop L hmac (fun _ => true) pPayload fuel nonce hdr sha).nonce) := by
  obtain ⟨h1, h2, h3, h4, h5, h6, h7, h8⟩ := hL
  induction fuel with
  | zero =>
    intro nonce hdr sha _ _ hn _
    exact ⟨by simpa [setHashLoop] using hn, fun hf => by simp [setHashLoop] at hf⟩
  | succ fuel ih =>
    intro nonce hdr sha hl hR hn hbelow
    have hb : (leBytes nonce 4).length = 4 := length_leBytes nonce 4
    have hfit : L.nonce + (leBytes nonce 4).length ≤ hdr.length := by
      rw [hb, hl]; omega
    have hlen1 : (wr hdr L.nonce (leBytes nonce 4)).length = SMSG_HDR_LEN := by
      rw [length_wr _ _ _ hfit, hl]
    have hhdr1 : wr hdr L.nonce (leBytes nonce 4) = wr pHeader L.nonce (leBytes nonce 4) :=
      hR _ hb
    have hR1 : ∀ x : List Nat, x.length = 4 →
        wr (wr hdr L.nonce (leBytes nonce 4)) L.nonce x = wr pHeader L.nonce x := by
      intro x hx
      rw [wr_wr _ _ _ _ hfit (by rw [hb, hx]), hR x hx]
    rw [setHashLoop]
    simp only [Bool.not_true, Bool.false_eq_true, if_false]
    have hdig : powDigest hmac (civOf (leBytes nonce 4)) (wr hdr L.nonce (leBytes nonce 4))
        pPayload = solveDigest L hmac pHeader pPayload nonce := by
      rw [hhdr1]; rfl
    by_cases ht : powTarget (powDigest hmac (civOf (leBytes nonce 4))
        (wr hdr L.nonce (leBytes nonce 4)) pPayload) = true
    · rw [if_pos ht]
      exact ⟨hn, fun _ => ⟨by rw [← hdig]; exact ht, hbelow, hhdr1, hdig⟩⟩
    · rw [if_neg ht]
      by_cases hmax : nonce ≥ 4294967295
      · rw [if_pos hmax]
        exact ⟨hn, fun hf => by simp at hf⟩
      · rw [if_neg hmax]
        refine ih (nonce + 1) _ _ hlen1 hR1 (by omega) ?_
        intro k hk
        by_cases hkn : k = nonce
        · subst hkn
          rw [← hdig]
          exact (Bool.not_eq_true _).mp ht
        · exact hbelow k (by omega)

/-- C26: with the enabled flag set throughout, the nonce loop of `SecureMsgSetHash` ends
within 2^32 iterations (one digest each): it leaves with a nonce below 2^32, and more
fuel than 2^32 changes nothing.  When the function returns 0, the nonce `n` in the header
is the least value, searching from 0 upward, whose digest `solveDigest n` meets the
target; the first 4 header bytes hold the first 4 bytes of that digest; and every other
header byte outside the nonce field is as it was.  (The payload is only read.) -/
theorem C26_solve_least_nonce (L : Layout) (hL : L.WF)
    (hmac : List Nat → List Nat → List Nat) (hmacLen : ∀ k m, (hmac k m).length = 32)
    (pHeader pPayload : List Nat) (hlen : pHeader.length = SMSG_HDR_LEN) :
    (∀ fuel, 4294967296 ≤ fuel →
      setHashLoop L hmac (fun _ => true) pPayload fuel 0 pHeader []
        = setHashLoop L hmac (fun _ => true) pPayload 4294967296 0 pHeader [])
    ∧ (setHashLoop L hmac (fun _ => true) pPayload 4294967296 0 pHeader []).nonce < 4294967296
    ∧ ((SecureMsgSetHash L hmac (fun _ => true) pHeader pPayload).1 = 0 →
        ∃ n, n < 4294967296
          ∧ powTarget (solveDigest L hmac pHeader pPayload n) = true
          ∧ (∀ k, k < n → powTarget (solveDigest L hmac pHeader pPayload k) = false)
          ∧ rd (SecureMsgSetHash L hmac (fun _ => true) pHeader pPayload).2 L.nonce 4
              = leBytes n 4
          ∧ rd (SecureMsgSetHash L hmac (fun _ => true) pHeader pPayload).2 0 4
              = rd (solveDigest L hmac pHeader pPayload n) 0 4
          ∧ (SecureMsgSetHash L hmac (fun _ => true) pHeader pPayload).2.length = SMSG_HDR_LEN
          ∧ ∀ i, 4 ≤ i → (i < L.nonce ∨ L.nonce + 4 ≤ i) →
              (SecureMsgSetHash L hmac (fun _ => true) pHeader pPayload).2.getD i 0
                = pHeader.getD i 0) := by
  obtain ⟨hnonce, hfound⟩ := setHashLoop_least L hL hmac pHeader pPayload 4294967296 0
    pHeader [] hlen (fun _ _ => rfl) (by omega) (fun k hk => absurd hk (by omega))
  refine ⟨fun fuel hf => setHashLoop_fuel L hmac pPayload fuel 4294967296 0 pHeader []
    (by omega) (by omega) (by omega), hnonce, ?_⟩
  intro hret
  unfold SecureMsgSetHash at hret ⊢
  simp only [Bool.not_true, Bool.false_eq_true, if_false] at hret ⊢
  generalize setHashLoop L hmac (fun _ => true) pPayload 4294967296 0 pHeader [] = r at *
  by_cases hf : r.found = true
  · obtain ⟨ht, hleast, hhdr, hsha⟩ := hfound hf
    simp only [hf, Bool.not_true, Bool.false_eq_true, if_false]
    obtain ⟨h1, h2, h3, h4, h5, h6, h7, h8⟩ := hL
    have hb : (leBytes r.nonce 4).length = 4 := length_leBytes _ _
    have hsl : r.sha256Hash.length = 32 := by rw [hsha]; exact hmacLen _ _
    have hck : (rd r.sha256Hash 0 4).length = 4 := length_rd _ _ _ (by omega)
    have hl1 : r.header.length = SMSG_HDR_LEN := by
      rw [hhdr, length_wr _ _ _ (by rw [hb, hlen]; omega), hlen]
    have h104 : SMSG_HDR_LEN = 104 := rfl
    refine ⟨r.nonce, hnonce, ht, hleast, ?_, ?_, ?_, ?_⟩
    · rw [rd_wr_after _ _ _ _ _ (by omega) (by omega), hhdr]
      have := rd_wr_same pHeader (leBytes r.nonce 4) L.nonce (by rw [hb, hlen]; omega)
      rwa [hb] at this
    · have := rd_wr_same r.header (rd r.sha256Hash 0 4) 0 (by rw [hck, hl1]; omega)
      rw [hck] at this
      rw [this, hsha]
    · rw [length_wr _ _ _ (by rw [hck, hl1]; omega), hl1]
    · intro i hi4 hout
      rw [getD_wr_outside _ _ _ _ (by omega) (Or.inr (by omega)), hhdr,
        getD_wr_outside _ _ _ _ (by omega) (by rw [hb]; exact hout)]
  · simp only [hf, Bool.not_false, if_true] at hret
    simp at hret

set_option maxRecDepth 100000 in
/-- C26 at a concrete input: the header `powHeader 82 1000001 0 16` over 16 zero payload
bytes, with `sumMac`; the search ends at the nonce 1. -/
theorem C26_solve_least_nonce_witness :
    ∃ n, n < 4294967296
      ∧ powTarget (solveDigest packedLayout sumMac (powHeader 82 1000001 0 16)
          (List.replicate 16 0) n) = true
      ∧ (∀ k, k < n → powTarget (solveDigest packedLayout sumMac (powHeader 82 1000001 0 16)
          (List.replicate 16 0) k) = false)
      ∧ rd (SecureMsgSetHash packedLayout sumMac (fun _ => true) (powHeader 82 1000001 0 16)
          (List.replicate 16 0)).2 packedLayout.nonce 4 = leBytes n 4
      ∧ rd (SecureMsgSetHash packedLayout sumMac (fun _ => true) (powHeader 82 1000001 0 16)
          (List.replicate 16 0)).2 0 4
        = rd (solveDigest packedLayout sumMac (powHeader 82 1000001 0 16)
            (List.replicate 16 0) n) 0 4
      ∧ (SecureMsgSetHash packedLayout sumMac (fun _ => true) (powHeader 82 1000001 0 16)
          (List.replicate 16 0)).2.length = SMSG_HDR_LEN
      ∧ ∀ i, 4 ≤ i → (i < packedLayout.nonce ∨ packedLayout.nonce + 4 ≤ i) →
          (SecureMsgSetHash packedLayout sumMac (fun _ => true) (powHeader 82 1000001 0 16)
            (List.replicate 16 0)).2.getD i 0 = (powHeader 82 1000001 0 16).getD i 0 :=
  (C26_solve_least_nonce packedLayout (by decide) sumMac
    (fun _ _ => by simp [sumMac]) (powHeader 82 1000001 0 16) (List.replicate 16 0)
    (by decide)).2.2 (by decide)

/-! ## Loading the bucket files at startup -/

theorem rd_append_at (a b : List Nat) (m n : Nat) :
    rd (a ++ b) (a.length + m) n = rd b m n := by
  unfold rd
  rw [← List.drop_drop, List.drop_left]

theorem rd_append_head (h t : List Nat) (n : Nat) (hn : n ≤ h.length) :
    rd (h ++ t) 0 n = rd h 0 n := by
  unfold rd
  simp only [List.drop_zero]
  exact List.take_append_of_le_length hn

theorem envBytes_append (es fs : List (List Nat × List Nat)) :
    envBytes (es ++ fs) = envBytes es ++ envBytes fs := by
  induction es with
  | nil => rfl
  | cons e r ih =>
    obtain ⟨h, p⟩ := e
    simp only [List.cons_append, envBytes, List.append_eq, ih, List.append_assoc]

theorem envTokens_append (L : Layout) (es fs : List (List Nat × List Nat)) (ofs : Nat) :
    envTokens L ofs (es ++ fs)
      = envTokens L ofs es ++ envTokens L (ofs + (envBytes es).length) fs := by
  induction es generalizing ofs with
  | nil => simp [envTokens, envBytes]
  | cons e r ih =>
    obtain ⟨h, p⟩ := e
    simp only [List.cons_append, envTokens, envBytes, List.append_eq, ih, List.length_append, Nat.add_assoc]

/-- Every envelope takes at least the 104 bytes of its header in the file. -/
theorem length_envBytes (es : List (List Nat × List Nat))
    (hwf : ∀ e ∈ es, e.1.length = SMSG_HDR_LEN) : es.length ≤ (envBytes es).length := by
  induction es with
  | nil => simp
  | cons e r ih =>
    obtain ⟨h, p⟩ := e
    have h1 := hwf (h, p) (List.mem_cons_self _ _)
    have h2 := ih (fun e he => hwf e (List.mem_cons_of_mem _ he))
    simp only [envBytes, List.length_append, List.length_cons] at *
    simp only [SMSG_HDR_LEN] at h1
    omega

/-- The sample of a payload of at least 8 bytes is its first 8 bytes. -/
theorem ofPayload_of_le (ts : Int) (pPayload : List Nat) (o : Nat) (h : 8 ≤ pPayload.length) :
    SecMsgToken.ofPayload ts pPayload o
      = { timestamp := ts, sample := rd pPayload 0 8, offset := o } := by
  unfold SecMsgToken.ofPayload
  rw [length_rd pPayload 0 8 (by omega)]
  simp

/-- The loop of `SecureMsgBuildBucketSet` over a file that holds whole envelopes with
payloads of at least 8 bytes inserts one token per envelope, in file order, each with
the offset of its header; the fuel is not used up. -/
theorem buildLoop_envBytes (L : Layout) (es : List (List Nat × List Nat))
    (hwf : ∀ e ∈ es, e.1.length = SMSG_HDR_LEN ∧ leNat (rd e.1 L.nPayload 4) = e.2.length
      ∧ 8 ≤ e.2.length)
    (pre : List Nat) (fuel : Nat) (hfuel : es.length < fuel) (T : List SecMsgToken) :
    buildLoop L (pre ++ envBytes es) fuel pre.length T
      = (envTokens L pre.length es).foldl setInsert T := by
  induction es generalizing pre fuel T with
  | nil =>
    obtain ⟨f, rfl⟩ : ∃ f, fuel = f + 1 := ⟨fuel - 1, by simp at hfuel; omega⟩
    have h0 : rd (pre ++ envBytes []) pre.length SMSG_HDR_LEN = [] := by
      simp [rd, envBytes]
    simp only [buildLoop, h0, envTokens, List.foldl_nil]
    rw [if_pos (by simp [SMSG_HDR_LEN])]
  | cons e r ih =>
    obtain ⟨h, p⟩ := e
    obtain ⟨f, rfl⟩ : ∃ f, fuel = f + 1 := ⟨fuel - 1, by simp at hfuel; omega⟩
    obtain ⟨h1, h2, h3⟩ := hwf (h, p) (List.mem_cons_self _ _)
    simp only at h1 h2 h3
    have hh : rd (pre ++ envBytes ((h, p) :: r)) pre.length SMSG_HDR_LEN = h := by
      have := rd_append_at pre (envBytes ((h, p) :: r)) 0 SMSG_HDR_LEN
      rw [Nat.add_zero] at this
      rw [this, envBytes, List.append_assoc, rd_append_head _ _ _ (by omega), ← h1, rd_full]
    have hs : rd (pre ++ envBytes ((h, p) :: r)) (pre.length + SMSG_HDR_LEN) 8 = rd p 0 8 := by
      have := rd_append_at (pre ++ h) (p ++ envBytes r) 0 8
      rw [Nat.add_zero, List.length_append, h1] at this
      rw [envBytes, List.append_assoc, ← List.append_assoc pre, this,
        rd_append_head _ _ _ h3]
    have hsl : (rd p 0 8).length = 8 := length_rd p 0 8 (by omega)
    have hnext : pre.length + SMSG_HDR_LEN + 8 + (p.length - 8) = (pre ++ (h ++ p)).length := by
      simp only [List.length_append, h1]; omega
    have hfile : pre ++ envBytes ((h, p) :: r) = (pre ++ (h ++ p)) ++ envBytes r := by
      simp only [envBytes, List.append_assoc]
    simp only [buildLoop, hh, hs, h2, hsl]
    rw [if_neg (by simp [h1]), if_neg (by omega), if_neg (by simp), hnext, hfile,
      ih (fun e he => hwf e (List.mem_cons_of_mem _ he)) _ f (by simp at hfuel; omega)]
    simp only [envTokens, List.foldl_cons, List.length_append, ofPayload_of_le _ _ _ h3]

theorem storeMany_append (L : Layout) (xxh32 : Nat → List Nat → Nat) (s : Store)
    (a b : List (Int × List Nat × List Nat × Bool)) :
    storeMany L xxh32 s (a ++ b) = storeMany L xxh32 (storeMany L xxh32 s a) b := by
  induction a generalizing s with
  | nil => rfl
  | cons op r ih =>
    obtain ⟨now, hdr, payload, upd⟩ := op
    simp only [List.cons_append, storeMany, List.append_eq, ih]

theorem storeManyOk_append (L : Layout) (xxh32 : Nat → List Nat → Nat) (s : Store)
    (a b : List (Int × List Nat × List Nat × Bool)) :
    storeManyOk L xxh32 s (a ++ b)
      = (storeManyOk L xxh32 s a && storeManyOk L xxh32 (storeMany L xxh32 s a) b) := by
  induction a generalizing s with
  | nil => simp [storeManyOk, storeMany]
  | cons op r ih =>
    obtain ⟨now, hdr, payload, upd⟩ := op
    simp only [List.cons_append, storeManyOk, storeMany, List.append_eq, ih, Bool.and_assoc]

/-- The state of a store that holds the envelopes `es` in the one bucket `k`, each
inserted by a successful `SecureMsgStore`. -/
theorem storeMany_one_bucket (L : Layout) (xxh32 : Nat → List Nat → Nat) (k : Int)
    (ops : List (Int × List Nat × List Nat × Bool)) (s : Store)
    (es : List (List Nat × List Nat))
    (hfiles : (s.files = [] ∧ es = []) ∨ s.files = [(k, envBytes es)])
    (hmap : s.smsgBuckets = [] ∨ ∃ b, s.smsgBuckets = [(k, b)])
    (htok : (mapAt s.smsgBuckets k).setTokens = (envTokens L 0 es).foldl setInsert [])
    (hok : storeManyOk L xxh32 s ops = true)
    (hk : ∀ op ∈ ops, bucketOf (leI64 (rd op.2.1 L.timestamp 8)) = k)
    (hwf : ∀ op ∈ ops, op.2.1.length = SMSG_HDR_LEN) :
    let s1 := storeMany L xxh32 s ops
    let es1 := es ++ ops.map (fun op => (op.2.1, op.2.2.1))
    ((s1.files = [] ∧ es1 = []) ∨ s1.files = [(k, envBytes es1)]) ∧
    (s1.smsgBuckets = [] ∨ ∃ b, s1.smsgBuckets = [(k, b)]) ∧
    (mapAt s1.smsgBuckets k).setTokens = (envTokens L 0 es1).foldl setInsert [] ∧
    (ops ≠ [] → ∃ b, s1.smsgBuckets = [(k, b)]) := by
  induction ops generalizing s es with
  | nil => simpa [storeMany] using ⟨hfiles, hmap, htok⟩
  | cons op r ih =>
    obtain ⟨now, hdr, payload, upd⟩ := op
    simp only [storeManyOk, Bool.and_eq_true, decide_eq_true_eq] at hok
    have hk1 := hk _ (List.mem_cons_self _ _)
    have hw1 := hwf _ (List.mem_cons_self _ _)
    simp only at hk1 hw1
    obtain ⟨s1, hs1⟩ : ∃ s1, SecureMsgStore L xxh32 now s hdr payload upd = (.ok, s1) :=
      ⟨(SecureMsgStore L xxh32 now s hdr payload upd).2, Prod.ext hok.1 rfl⟩
    have hst := store_ok L xxh32 now s s1 hdr payload upd hs1
    simp only [hk1] at hst
    obtain ⟨-, -, -, hf, -, b, hb, hbt, -, -⟩ := hst
    have hfile : (mapFind s.files k).getD [] = envBytes es := by
      rcases hfiles with ⟨h1, h2⟩ | h1
      · rw [h1, h2]; rfl
      · rw [h1]; simp [mapFind]
    rw [hfile] at hf hbt
    have hrd : rd hdr 0 SMSG_HDR_LEN = hdr := by rw [← hw1, rd_full]
    rw [hrd] at hf
    have hbytes : envBytes (es ++ [(hdr, payload)]) = envBytes es ++ hdr ++ payload := by
      rw [envBytes_append]; simp [envBytes]
    have hs2 : (SecureMsgStore L xxh32 now s hdr payload upd).2 = s1 := by rw [hs1]
    have hmap1 : ∃ b1, s1.smsgBuckets = [(k, b1)] := ⟨b, by
      rw [hb]
      rcases hmap with h1 | ⟨b0, h1⟩
      · rw [h1]; simp [mapTouch, mapFind, mapSet]
      · rw [h1]; simp [mapTouch, mapFind, mapSet]⟩
    have key := ih s1 (es ++ [(hdr, payload)])
      (Or.inr (by
        rw [hf, hbytes]
        rcases hfiles with ⟨h1, h2⟩ | h1
        · rw [h1]; rfl
        · rw [h1]; simp [mapSet]))
      (Or.inr hmap1)
      (by
        rw [hb, mapAt_mapSet, if_pos rfl, hbt, htok, envTokens_append]
        simp [envTokens, List.foldl_append])
      (by rw [← hs2]; exact hok.2)
      (fun op hop => hk op (List.mem_cons_of_mem _ hop))
      (fun op hop => hwf op (List.mem_cons_of_mem _ hop))
    simp only [storeMany, hs2, List.map_cons]
    obtain ⟨k1, k2, k3, k4⟩ := key
    refine ⟨by simpa [List.append_assoc] using k1, k2, by simpa [List.append_assoc] using k3, ?_⟩
    intro _
    cases r with
    | nil => simpa [storeMany] using hmap1
    | cons op2 r2 => exact k4 (List.cons_ne_nil _ _)

/-- After a successful `SecureMsgStore` with `fUpdateBucket` the hash of the bucket is
that of its token set. -/
theorem store_hash_updated (L : Layout) (xxh32 : Nat → List Nat → Nat) (now : Int)
    (s : Store) (pHeader pPayload : List Nat)
    (h : (SecureMsgStore L xxh32 now s pHeader pPayload true).1 = .ok) :
    let b := mapAt (SecureMsgStore L xxh32 now s pHeader pPayload true).2.smsgBuckets
      (bucketOf (leI64 (rd pHeader L.timestamp 8)))
    b.hash = xxh32 1 (sampleBytes b.setTokens) := by
  simp only []
  unfold SecureMsgStore at h ⊢
  simp only [mapAt_mapTouch] at h ⊢
  by_cases h1 : leI64 (rd pHeader L.timestamp 8) > now + SMSG_TIME_LEEWAY
  · rw [if_pos h1] at h; simp at h
  rw [if_neg h1] at h ⊢
  by_cases h2 : leI64 (rd pHeader L.timestamp 8) < now - SMSG_RETENTION
  · rw [if_pos h2] at h; simp at h
  rw [if_neg h2] at h ⊢
  by_cases h3 : (setFind (mapAt s.smsgBuckets (bucketOf (leI64 (rd pHeader L.timestamp 8)))).setTokens
      (SecMsgToken.ofPayload (leI64 (rd pHeader L.timestamp 8)) pPayload 0)).isSome = true
  · rw [if_pos h3] at h; simp at h
  rw [if_neg h3]
  simp only [if_true, mapAt_mapSet, hash_hashBucket, setTokens_hashBucket]

/-- What `SecureMsgBuildBucketSet` rebuilds from the one file of a bucket into an empty
map. -/
theorem build_one_file (L : Layout) (xxh32 : Nat → List Nat → Nat) (now k : Int)
    (es : List (List Nat × List Nat))
    (hwf : ∀ e ∈ es, e.1.length = SMSG_HDR_LEN ∧ leNat (rd e.1 L.nPayload 4) = e.2.length
      ∧ 8 ≤ e.2.length)
    (hexp : ¬ k < now - SMSG_RETENTION) :
    let r := SecureMsgBuildBucketSet L xxh32 now { emptyStore with files := [(k, envBytes es)] }
    r.1 = 0 ∧ r.2.smsgBuckets.map Prod.fst = [k] ∧
    (mapAt r.2.smsgBuckets k).setTokens = (envTokens L 0 es).foldl setInsert [] ∧
    (mapAt r.2.smsgBuckets k).hash
      = xxh32 1 (sampleBytes ((envTokens L 0 es).foldl setInsert [])) := by
  have hloop := buildLoop_envBytes L es hwf [] ((envBytes es).length + 1)
    (Nat.lt_succ_of_le (length_envBytes es (fun e he => (hwf e he).1))) []
  simp only [List.nil_append, List.length_nil] at hloop
  simp only [SecureMsgBuildBucketSet, emptyStore, List.filter_cons, hexp, decide_False,
    Bool.not_false, if_true, List.filter_nil, List.foldl_cons, List.foldl_nil, buildFile,
    mapTouch, mapFind, mapSet, mapAt, if_true, Option.getD_some, SecMsgBucket.fresh, hloop,
    lt_self_iff_false, if_false, List.map_cons, List.map_nil, hash_hashBucket,
    setTokens_hashBucket, true_and]

set_option maxRecDepth 100000 in
/-- C27 (as written, refuted): one envelope is inserted into an empty store by a
successful `SecureMsgStore` with `fUpdateBucket = false`.  The bucket in memory keeps
the hash 0 of a new bucket; loading the resulting file into an empty map gives the same
token set, and the bucket hash 285 of that set. -/
theorem C27_load_rehashes_bucket :
    (SecureMsgStore packedLayout sumHash 1000000 emptyStore
        (headerAt 1000000 16) samplePayload false).1 = .ok
    ∧ (mapAt (SecureMsgStore packedLayout sumHash 1000000 emptyStore
        (headerAt 1000000 16) samplePayload false).2.smsgBuckets 997200).hash = 0
    ∧ (mapAt (SecureMsgBuildBucketSet packedLayout sumHash 1000100
        { emptyStore with files := (SecureMsgStore packedLayout sumHash 1000000 emptyStore
            (headerAt 1000000 16) samplePayload false).2.files }).2.smsgBuckets 997200).hash
        = 285
    ∧ (mapAt (SecureMsgBuildBucketSet packedLayout sumHash 1000100
        { emptyStore with files := (SecureMsgStore packedLayout sumHash 1000000 emptyStore
            (headerAt 1000000 16) samplePayload false).2.files }).2.smsgBuckets 997200).setTokens
        = (mapAt (SecureMsgStore packedLayout sumHash 1000000 emptyStore
            (headerAt 1000000 16) samplePayload false).2.smsgBuckets 997200).setTokens := by
  decide

/-- C27 (amended): envelopes with payloads of at least 8 bytes, each header holding the
length of its payload, are inserted into the one bucket `k` of an empty store by calls
of `SecureMsgStore` that all succeed.  `SecureMsgBuildBucketSet`, run on the resulting
file at a time at which the file has not expired and with an empty map, returns 0 and
leaves a map with the one key `k`, whose bucket has exactly the token set of the stored
bucket (timestamps, samples, offsets) and the hash of that token set; this is the hash
of the stored bucket when the last insertion was made with `fUpdateBucket`. -/
theorem C27_load_rebuilds_tokens (L : Layout) (xxh32 : Nat → List Nat → Nat)
    (ops : List (Int × List Nat × List Nat × Bool)) (k now : Int)
    (hne : ops ≠ [])
    (hok : storeManyOk L xxh32 emptyStore ops = true)
    (hk : ∀ op ∈ ops, bucketOf (leI64 (rd op.2.1 L.timestamp 8)) = k)
    (hwf : ∀ op ∈ ops, op.2.1.length = SMSG_HDR_LEN
      ∧ leNat (rd op.2.1 L.nPayload 4) = op.2.2.1.length ∧ 8 ≤ op.2.2.1.length)
    (hexp : ¬ k < now - SMSG_RETENTION) :
    (SecureMsgBuildBucketSet L xxh32 now
      { emptyStore with files := (storeMany L xxh32 emptyStore ops).files }).1 = 0
    ∧ (SecureMsgBuildBucketSet L xxh32 now
      { emptyStore with files := (storeMany L xxh32 emptyStore ops).files }).2.smsgBuckets.map
        Prod.fst = (storeMany L xxh32 emptyStore ops).smsgBuckets.map Prod.fst
    ∧ (mapAt (SecureMsgBuildBucketSet L xxh32 now
      { emptyStore with files := (storeMany L xxh32 emptyStore ops).files }).2.smsgBuckets
        k).setTokens = (mapAt (storeMany L xxh32 emptyStore ops).smsgBuckets k).setTokens
    ∧ (mapAt (SecureMsgBuildBucketSet L xxh32 now
      { emptyStore with files := (storeMany L xxh32 emptyStore ops).files }).2.smsgBuckets
        k).hash
        = xxh32 1 (sampleBytes (mapAt (storeMany L xxh32 emptyStore ops).smsgBuckets k).setTokens)
    ∧ ((ops.getLast hne).2.2.2 = true →
        (mapAt (SecureMsgBuildBucketSet L xxh32 now
          { emptyStore with files := (storeMany L xxh32 emptyStore ops).files }).2.smsgBuckets
            k).hash = (mapAt (storeMany L xxh32 emptyStore ops).smsgBuckets k).hash) := by
  have hst := storeMany_one_bucket L xxh32 k ops emptyStore [] (Or.inl ⟨rfl, rfl⟩)
    (Or.inl rfl) rfl hok hk (fun op hop => (hwf op hop).1)
  simp only [List.nil_append] at hst
  obtain ⟨hf, -, ht, hm2⟩ := hst
  have hes : ops.map (fun op => (op.2.1, op.2.2.1)) ≠ [] := by simpa using hne
  have hf1 : (storeMany L xxh32 emptyStore ops).files
      = [(k, envBytes (ops.map (fun op => (op.2.1, op.2.2.1))))] := by
    rcases hf with ⟨-, h⟩ | h
    · exact absurd h hes
    · exact h
  obtain ⟨b, hm1⟩ := hm2 hne
  have hb := build_one_file L xxh32 now k (ops.map (fun op => (op.2.1, op.2.2.1)))
    (by
      intro e he
      obtain ⟨op, hop, rfl⟩ := List.mem_map.1 he
      exact hwf op hop)
    hexp
  simp only [] at hb
  rw [hf1]
  obtain ⟨hb1, hb2, hb3, hb4⟩ := hb
  refine ⟨hb1, ?_, ?_, ?_, ?_⟩
  · rw [hb2, hm1]; rfl
  · rw [hb3, ht]
  · rw [hb4, ht]
  · intro hlast
    rw [hb4, ← ht]
    obtain ⟨init, last, rfl⟩ : ∃ init last, ops = init ++ [last] :=
      ⟨ops.dropLast, ops.getLast hne, (List.dropLast_append_getLast hne).symm⟩
    rw [List.getLast_append_singleton] at hlast
    obtain ⟨n1, h1, p1, u1⟩ := last
    simp only at hlast
    subst hlast
    rw [storeManyOk_append] at hok
    simp only [storeManyOk, Bool.and_eq_true, decide_eq_true_eq, Bool.and_true] at hok
    have hk1 := hk (n1, h1, p1, true) (by simp)
    simp only at hk1
    have := store_hash_updated L xxh32 n1 (storeMany L xxh32 emptyStore init) h1 p1 hok.2
    simp only [hk1] at this
    rw [storeMany_append]
    simp only [storeMany]
    exact this.symm

set_option maxRecDepth 100000 in
/-- C27 (amended) at a concrete input: two envelopes inserted into the bucket 997200,
the second with `fUpdateBucket`; the file is loaded at time 1000100. -/
theorem C27_load_rebuilds_tokens_witness :
    storeManyOk packedLayout sumHash emptyStore twoStores = true
    ∧ (mapAt (SecureMsgBuildBucketSet packedLayout sumHash 1000100
        { emptyStore with files := (storeMany packedLayout sumHash emptyStore twoStores).files
          }).2.smsgBuckets 997200).setTokens
        = (mapAt (storeMany packedLayout sumHash emptyStore twoStores).smsgBuckets
            997200).setTokens
    ∧ (mapAt (SecureMsgBuildBucketSet packedLayout sumHash 1000100
        { emptyStore with files := (storeMany packedLayout sumHash emptyStore twoStores).files
          }).2.smsgBuckets 997200).hash
        = (mapAt (storeMany packedLayout sumHash emptyStore twoStores).smsgBuckets 997200).hash :=
  ⟨by decide,
    (C27_load_rebuilds_tokens packedLayout sumHash twoStores 997200 1000100 (by decide)
      (by decide) (by decide) (by decide) (by decide)).2.2.1,
    (C27_load_rebuilds_tokens packedLayout sumHash twoStores 997200 1000100 (by decide)
      (by decide) (by decide) (by decide) (by decide)).2.2.2.2 (by decide)⟩

set_option maxRecDepth 100000 in
/-- An envelope with a payload of 4 bytes is inserted, then one with 16 bytes, both by
successful calls of `SecureMsgStore`: the stored bucket has two tokens.  The loop of
`SecureMsgBuildBucketSet` passes over the first message by `continue` without moving
behind its payload, reads the next header 4 bytes early, and rebuilds no token. -/
theorem build_loses_tokens_after_short_payload :
    storeManyOk packedLayout sumHash emptyStore shortStores = true
    ∧ ((mapAt (storeMany packedLayout sumHash emptyStore shortStores).smsgBuckets
        997200).setTokens.map (fun t => (t.timestamp, t.offset))
        = [(1000000, 0), (1000001, 108)])
    ∧ (mapAt (SecureMsgBuildBucketSet packedLayout sumHash 1000100
        { emptyStore with files := (storeMany packedLayout sumHash emptyStore shortStores).files
          }).2.smsgBuckets 997200).setTokens = [] := by
  decide

/-! ## A locked bucket has a single holder -/

theorem leNat_lt_of_bytes (bs : List Nat) (h : ∀ x ∈ bs, x < 256) :
    leNat bs < 256 ^ bs.length := by
  induction bs with
  | nil => simp [leNat]
  | cons x r ih =>
    have hx := h x (List.mem_cons_self _ _)
    have hr := ih (fun y hy => h y (List.mem_cons_of_mem _ hy))
    simp only [leNat, List.length_cons, pow_succ]
    omega

/-- Reading back the 8 bytes written for a value of `int64_t` gives the value. -/
theorem leI64_i64Bytes (s : Int) (h1 : -9223372036854775808 ≤ s) (h2 : s < 9223372036854775808) :
    leI64 (i64Bytes s) = s := by
  unfold leI64 i64Bytes
  rw [leNat_leBytes 8 _ (by norm_num; omega)]
  norm_num
  split_ifs <;> omega

/-- Up to 8 bytes read as `int64_t` give a value of `int64_t`. -/
theorem leI64_range (bs : List Nat) (hlen : bs.length ≤ 8) (h : ∀ x ∈ bs, x < 256) :
    -9223372036854775808 ≤ leI64 bs ∧ leI64 bs < 9223372036854775808 := by
  have h1 := leNat_lt_of_bytes bs h
  have h2 : 256 ^ bs.length ≤ 256 ^ 8 := Nat.pow_le_pow_right (by norm_num) hlen
  have h3 : leNat bs < 18446744073709551616 := by
    have : (256 : Nat) ^ 8 = 18446744073709551616 := by norm_num
    omega
  unfold leI64
  norm_num
  split_ifs <;> omega

/-- The entry number `j` of a list of slots written one after the other. -/
theorem rd_slots (pre : List Nat) (slots : List Int) (j : Nat) (hj : j < slots.length) :
    ∃ s ∈ slots, rd (pre ++ (slots.map i64Bytes).flatten) (pre.length + 8 * j) 8 = i64Bytes s := by
  induction slots generalizing pre j with
  | nil => simp at hj
  | cons s r ih =>
    simp only [List.map_cons, List.flatten_cons]
    cases j with
    | zero =>
      refine ⟨s, List.mem_cons_self _ _, ?_⟩
      rw [Nat.mul_zero, rd_append_at, rd_append_head _ _ _ (by rw [length_i64Bytes])]
      have := rd_full (i64Bytes s)
      rwa [length_i64Bytes] at this
    | succ j =>
      obtain ⟨t, ht, hrd⟩ := ih (pre ++ i64Bytes s) j (by simpa using hj)
      refine ⟨t, List.mem_cons_of_mem _ ht, ?_⟩
      rw [← hrd, List.append_assoc, List.length_append, length_i64Bytes]
      congr 1
      omega

theorem invParse_slot (vchData : List Nat) (i p : Nat) :
    ∀ x ∈ invParse vchData i p, ∃ q, x.1 = leI64 (rd vchData q 8) := by
  induction i generalizing p with
  | zero => intro x hx; simp [invParse] at hx
  | succ i ih =>
    intro x hx
    rw [show invParse vchData (i + 1) p
      = (leI64 (rd vchData p 8), leNat (rd vchData (p + 8) 4), leNat (rd vchData (p + 12) 4))
        :: invParse vchData i (p + 16) from rfl, List.mem_cons] at hx
    rcases hx with rfl | hx
    · exact ⟨p, rfl⟩
    · exact ih _ x hx

/-- Every slot asked for is a value of `int64_t` when the inventory consists of bytes. -/
theorem invWanted_range (now : Int) (m : List (Int × SecMsgBucket)) (vchData : List Nat)
    (i p : Nat) (hbytes : ∀ x ∈ vchData, x < 256) :
    ∀ s ∈ invWanted now m (invParse vchData i p),
      -9223372036854775808 ≤ s ∧ s < 9223372036854775808 := by
  intro s hs
  unfold invWanted at hs
  rw [List.mem_map] at hs
  obtain ⟨x, hx, rfl⟩ := hs
  obtain ⟨q, hq⟩ := invParse_slot vchData i p x (List.mem_of_mem_filter hx)
  rw [hq]
  refine leI64_range _ ?_ ?_
  · unfold rd; exact List.length_take_le _ _
  · intro y hy
    unfold rd at hy
    exact hbytes y (List.mem_of_mem_drop (List.mem_of_mem_take hy))

/-- C28: while the bucket `b` is locked (`nLockCount > 0`), handling a `smsgInv` or a
`smsgHave` from any peer leaves the bucket `b`, its `nLockCount` and `nLockPeerId`
included, as it was.  A `smsgShow` sent by the `smsgInv` branch carries the count and the
slots of `invWanted`, `b` is not among them, and when the inventory consists of bytes no
8-byte entry of the `smsgShow` data reads as `b`; a `smsgWant` sent by the `smsgHave`
branch is not for `b`.  In both branches the `nLockPeerId` of a bucket changes only if
its `nLockCount` was 0 before. -/
theorem C28_lock_single_holder (now : Int) (e : Engine) (pfrom : Int)
    (vchInv vchHave : List Nat) (b : Int)
    (hlock : (mapAt e.store.smsgBuckets b).nLockCount > 0) :
    mapAt (recvInv now e pfrom vchInv).2.store.smsgBuckets b = mapAt e.store.smsgBuckets b
    ∧ (∀ m ∈ (recvInv now e pfrom vchInv).2.sent, m ∈ e.sent ∨ m.command = "smsgMatch"
        ∨ (m.command = "smsgShow"
          ∧ m.data = leBytes (invWanted now e.store.smsgBuckets
                (invParse vchInv (leNat (rd vchInv 0 4)) 4)).length 4
              ++ ((invWanted now e.store.smsgBuckets
                (invParse vchInv (leNat (rd vchInv 0 4)) 4)).map i64Bytes).flatten
          ∧ b ∉ invWanted now e.store.smsgBuckets (invParse vchInv (leNat (rd vchInv 0 4)) 4)
          ∧ ((∀ x ∈ vchInv, x < 256) →
              ∀ j, j < (invWanted now e.store.smsgBuckets
                  (invParse vchInv (leNat (rd vchInv 0 4)) 4)).length →
                leI64 (rd m.data (4 + 8 * j) 8) ≠ b)))
    ∧ mapAt (recvHave now e pfrom vchHave).2.store.smsgBuckets b
        = mapAt e.store.smsgBuckets b
    ∧ (∀ m ∈ (recvHave now e pfrom vchHave).2.sent, m ∈ e.sent
        ∨ (m.command = "smsgWant" ∧ leI64 (rd m.data 0 8) ≠ b))
    ∧ (∀ k, (mapAt (recvInv now e pfrom vchInv).2.store.smsgBuckets k).nLockPeerId
          ≠ (mapAt e.store.smsgBuckets k).nLockPeerId →
        (mapAt e.store.smsgBuckets k).nLockCount = 0)
    ∧ (∀ k, (mapAt (recvHave now e pfrom vchHave).2.store.smsgBuckets k).nLockPeerId
          ≠ (mapAt e.store.smsgBuckets k).nLockPeerId →
        (mapAt e.store.smsgBuckets k).nLockCount = 0) := by
  obtain ⟨hiat, _, hisent⟩ := recvInv_frame now e pfrom vchInv
  obtain ⟨_, hhat, hhsent⟩ := recvHave_frame now e pfrom vchHave
  have hhb : mapAt (recvHave now e pfrom vchHave).2.store.smsgBuckets b
      = mapAt e.store.smsgBuckets b := by
    by_contra hne
    have := (hhat b hne).1
    omega
  have hnot : b ∉ invWanted now e.store.smsgBuckets
      (invParse vchInv (leNat (rd vchInv 0 4)) 4) := by
    intro hb
    unfold invWanted at hb
    rw [List.mem_map] at hb
    obtain ⟨x, hx, hxb⟩ := hb
    rw [List.mem_filter] at hx
    have hcnd := hx.2
    simp only [Bool.and_eq_true, decide_eq_true_eq] at hcnd
    have h0 := hcnd.1.2
    rw [hxb] at h0
    omega
  refine ⟨hiat b, ?_, hhb, ?_, ?_, ?_⟩
  · intro m hm
    rcases hisent m hm with h | h | ⟨hc, hd⟩
    · exact Or.inl h
    · exact Or.inr (Or.inl h)
    · refine Or.inr (Or.inr ⟨hc, hd, hnot, ?_⟩)
      intro hbytes j hj
      obtain ⟨s, hs, hrd⟩ := rd_slots
        (leBytes (invWanted now e.store.smsgBuckets
          (invParse vchInv (leNat (rd vchInv 0 4)) 4)).length 4)
        (invWanted now e.store.smsgBuckets (invParse vchInv (leNat (rd vchInv 0 4)) 4)) j hj
      rw [length_leBytes] at hrd
      obtain ⟨hlo, hhi⟩ := invWanted_range now e.store.smsgBuckets vchInv _ 4 hbytes s hs
      rw [hd, hrd, leI64_i64Bytes s hlo hhi]
      intro hsb
      exact hnot (hsb ▸ hs)
  · intro m hm
    rcases hhsent with hs | ⟨rest, hs, h8, h0⟩
    · rw [hs] at hm; exact Or.inl hm
    · rw [hs, List.mem_append, List.mem_singleton] at hm
      rcases hm with hm | hm
      · exact Or.inl hm
      · subst hm
        refine Or.inr ⟨rfl, ?_⟩
        have hl : (rd vchHave 0 8).length = 8 := length_rd _ _ _ (by omega)
        have hrd : rd (rd vchHave 0 8 ++ rest) 0 8 = rd vchHave 0 8 := by
          have : rd (rd vchHave 0 8 ++ rest) 0 8 = (rd vchHave 0 8 ++ rest).take 8 := by
            unfold rd; simp
          rw [this, List.take_append_of_le_length (by omega), List.take_of_length_le (by omega)]
        simp only [hrd]
        intro hb
        rw [hb] at h0
        omega
  · intro k hk
    exact absurd (by rw [hiat k]) hk
  · intro k hk
    by_cases hne : mapAt (recvHave now e pfrom vchHave).2.store.smsgBuckets k
        = mapAt e.store.smsgBuckets k
    · exact absurd (by rw [hne]) hk
    · exact (hhat k hne).1

set_option maxRecDepth 100000 in
/-- C28 at a concrete input: in `engineLocked` the bucket 997200 is locked for peer 7;
peer 9 sends an inventory that advertises two tokens for it and two for the slot
1000800, and a `smsgHave` for 997200 with an unknown token; the bucket stays as it was,
the `smsgShow` sent asks for 1000800 only, and no `smsgWant` is sent. -/
theorem C28_lock_single_holder_witness :
    mapAt (recvInv 1003000 engineLocked 9
        (leBytes 2 4 ++ i64Bytes 997200 ++ leBytes 2 4 ++ leBytes 5 4
          ++ i64Bytes 1000800 ++ leBytes 2 4 ++ leBytes 5 4)).2.store.smsgBuckets
        997200
      = mapAt engineLocked.store.smsgBuckets 997200
    ∧ mapAt (recvHave 1003000 engineLocked 9 (haveMsg 997200 1000002)).2.store.smsgBuckets
        997200
      = mapAt engineLocked.store.smsgBuckets 997200
    ∧ (recvInv 1003000 engineLocked 9
        (leBytes 2 4 ++ i64Bytes 997200 ++ leBytes 2 4 ++ leBytes 5 4
          ++ i64Bytes 1000800 ++ leBytes 2 4 ++ leBytes 5 4)).2.sent
      = engineLocked.sent
        ++ [{ peer := 9, command := "smsgShow", data := leBytes 1 4 ++ i64Bytes 1000800 }]
    ∧ (recvHave 1003000 engineLocked 9 (haveMsg 997200 1000002)).2.sent = engineLocked.sent :=
  have h := C28_lock_single_holder 1003000 engineLocked 9
    (leBytes 2 4 ++ i64Bytes 997200 ++ leBytes 2 4 ++ leBytes 5 4
      ++ i64Bytes 1000800 ++ leBytes 2 4 ++ leBytes 5 4) (haveMsg 997200 1000002)
    997200 (by decide)
  ⟨h.1, h.2.2.1, by decide, by decide⟩

end Smsg
